import Mathlib

/-!
# Diwai Fox Taxi Service: the backend's request handlers

A shallow embedding of `src/backend/server.js`.  The in-memory database `db`
is a record of lists; every route handler is a function from the database
before the request (and the request's inputs) to the response and the database
after the request.

Conventions of the embedding:

* JSON strings are `String`; `===` on strings is equality of strings.
* A field that can be `null`/`undefined` is an `Option`; a string is *truthy*
  when it is present and non-empty.
* The fare estimate of `POST /api/rides` (`distance`, `fare`, `eta`) is computed over
  exact rationals.
* JavaScript's `+` on numbers (`driver.earnings += ride.fare`, `sum + p.amount`) is the
  addition of IEEE 754 doubles.  A rational held in a number field stands for the double
  nearest to it (what `JSON.parse` and `parseFloat` make of its decimal); a sum is the
  exact sum of the two doubles rounded to the nearest double, a tie going to the even
  one (`toDouble`), and `Infinity` once it rounds to a magnitude of `2^1024` or more.
  Negative zero is not told apart from zero: no operation of the program does.
* A number field that can be missing (`earnings` and `rating` of the seeded admin) is a
  `JsNum`.  The `amount` of a payment is whatever JSON value the body carries, a
  `JsValue`.
* The outside world is passed in: `uuidv4()` is the argument `uuid`,
  `new Date().toISOString()` the argument `now`, each `Math.random()` a
  rational draw `r` (the runtime guarantees `0 ≤ r < 1`; a `Request` carries its
  draws as a `Draw`), `bcrypt.hash` the argument `hash`.
* `authenticateToken` has already run: a handler receives the decoded token
  payload `req.user` as a `Caller`.  A `Request` carries the token, and `step`
  runs `authenticateToken` before the handler.
* The body field `status` of the two status routes is a string.
* A handler without `await` runs to completion before the next request is served:
  `step` is such a run, and `run` serves a list of requests in order.  The register
  handler awaits `bcrypt.hash` between its checks and its push: `.register` is a
  registration during whose wait no other request changes the users,
  `.registerOverlapped` one whose checks ran on an earlier store `seen`.  The push of
  the default admin at start-up, which also waits for `bcrypt.hash`, is the event
  `.seedAdmin`.
* `arr.find(p)` returns a reference to the first element satisfying `p`;
  assigning to a field of that reference changes that element of the array in
  place (`updateFound`).
-/

namespace DiwaiFox

/-! ## JavaScript numbers and values -/

/-- Rounding to the nearest integer, a tie going to the even one. -/
def roundHalfEven (z : ℚ) : ℤ :=
  if z - ⌊z⌋ < 1 / 2 then ⌊z⌋
  else if 1 / 2 < z - ⌊z⌋ then ⌊z⌋ + 1
  else if ⌊z⌋ % 2 = 0 then ⌊z⌋ else ⌊z⌋ + 1

/-- The spacing of the doubles at the magnitude of `x`: `2^(e - 52)` where
`2^e ≤ |x| < 2^(e + 1)`, and `2^(-1074)` for every magnitude below `2^(-1022)`. -/
def ulp (x : ℚ) : ℚ := (2 : ℚ) ^ (max (Int.log 2 |x|) (-1022) - 52)

/-- The multiple of the spacing at `x` nearest to `x`, a tie going to the even multiple:
the double nearest to `x`, as long as its magnitude is below `2^1024`. -/
def toDouble (x : ℚ) : ℚ := (roundHalfEven (x / ulp x) : ℚ) * ulp x

/-- The number is a double, but for its range: an integer of at most 53 bits times a
power of two that is not below `2^(-1074)`. -/
def isDouble (x : ℚ) : Prop :=
  ∃ n k : ℤ, x = (n : ℚ) * (2 : ℚ) ^ k ∧ |n| ≤ 2 ^ 53 ∧ -1074 ≤ k

/-- A JavaScript number field: missing, `NaN`, `Infinity` or `-Infinity`, or a number. -/
inductive JsNum where
  | undefined
  | nan
  | inf (negative : Bool)
  | num (q : ℚ)
deriving DecidableEq

/-- The JavaScript number for the rational `q`: the double nearest to it, and an
infinity when that has a magnitude of `2^1024` or more. -/
def JsNum.ofRat (q : ℚ) : JsNum :=
  if 2 ^ 1024 ≤ |toDouble q| then .inf (decide (q < 0)) else .num (toDouble q)

/-- The operation `ToNumber` on a number field: `undefined` gives `NaN`, a rational the
JavaScript number it stands for. -/
def JsNum.toNumber : JsNum → JsNum
  | .undefined => .nan
  | .num q => .ofRat q
  | n => n

/-- JavaScript `a + b` for a number-or-undefined `a` and `b`: the exact sum of two doubles
rounded to a double; an infinity absorbs a number; opposite infinities, `NaN` and
`undefined` give `NaN`. -/
def JsNum.add (a b : JsNum) : JsNum :=
  match a.toNumber, b.toNumber with
  | .num x, .num y => .ofRat (x + y)
  | .num _, .inf t => .inf t
  | .inf s, .num _ => .inf s
  | .inf s, .inf t => if s = t then .inf s else .nan
  | _, _ => .nan

/-- JavaScript `a <= b` on two number fields. -/
def JsNum.le (a b : JsNum) : Bool :=
  match a.toNumber, b.toNumber with
  | .num x, .num y => decide (x ≤ y)
  | .num _, .inf t => !t
  | .inf s, .num _ => s
  | .inf s, .inf t => s || !t
  | _, _ => false

/-- The number field is a number that is not negative: a double from 0 up, or
`Infinity`. -/
def JsNum.isNonneg (n : JsNum) : Prop :=
  (∃ e : ℚ, n = .num e ∧ 0 ≤ e ∧ isDouble e ∧ e < 2 ^ 1024) ∨ n = .inf false

/-- The operation `Number::toString` on a double `x`: the decimal digits of an integer of
magnitude up to `2^53`; `fraction x` stands for the rendering of any other double. -/
def numberToString (fraction : ℚ → String) (x : ℚ) : String :=
  if x.den = 1 ∧ |x| ≤ 2 ^ 53 then toString x.num else fraction x

/-- The operation `ToString` on a number field. -/
def JsNum.toStr (fraction : ℚ → String) (n : JsNum) : String :=
  match n with
  | .undefined => "undefined"
  | _ =>
    match n.toNumber with
    | .num x => numberToString fraction x
    | .inf negative => if negative then "-Infinity" else "Infinity"
    | _ => "NaN"

/-- A value of a field of a JSON body: a number or nothing (`undefined`, the field is
missing), `null`, a boolean, a string, or an object or array.  An object or array is given
by what `ToPrimitive` makes of it: the string of its `toString` (`[object Object]`, the
joined elements of an array), or `none` when the conversion throws a `TypeError` (an own
property `toString` that is no function). -/
inductive JsValue where
  | num (n : JsNum)
  | null
  | bool (b : Bool)
  | str (s : String)
  | object (toPrimitive : Option String)
deriving DecidableEq

/-- The operation `ToPrimitive`; `none` when it throws. -/
def JsValue.toPrimitive : JsValue → Option JsValue
  | .object none => none
  | .object (some s) => some (.str s)
  | v => some v

/-- What a primitive that is no string counts as in a sum: `null` as 0, `true` as 1,
`false` as 0, a number field as itself (`JsNum.add` takes `undefined` for `NaN`). -/
def JsValue.asNumber : JsValue → JsNum
  | .num n => n
  | .null => .num 0
  | .bool b => .num (if b then 1 else 0)
  | _ => .nan

/-- The operation `ToString` on a primitive. -/
def JsValue.toStr (fraction : ℚ → String) : JsValue → String
  | .num n => n.toStr fraction
  | .null => "null"
  | .bool b => if b then "true" else "false"
  | .str s => s
  | .object p => p.getD ""

/-- JavaScript `a + b` on two values; `none` when it throws.  Both operands are made
primitive; if one of them is then a string, the result is the concatenation of the two as
strings, otherwise the sum of the two as numbers. -/
def jsAdd (fraction : ℚ → String) (a b : JsValue) : Option JsValue :=
  match a.toPrimitive, b.toPrimitive with
  | some x, some y =>
    match x, y with
    | .str s, _ => some (.str (s ++ y.toStr fraction))
    | _, .str t => some (.str (x.toStr fraction ++ t))
    | _, _ => some (.num (x.asNumber.add y.asNumber))
  | _, _ => none

/-! ## Data model -/

/-- An element of `db.users`. -/
structure User where
  id : String
  email : String
  password : Option String
  name : String
  phone : String
  role : String
  vehicleType : Option String
  licensePlate : Option String
  status : String
  earnings : JsNum
  rating : JsNum
  createdAt : String
deriving DecidableEq

/-- An element of `db.rides`.  `distance` is the value of the two-decimal string the
source stores. -/
structure Ride where
  id : String
  passengerId : String
  driverId : Option String
  pickupLocation : String
  destination : String
  vehicleType : String
  distance : ℚ
  fare : ℚ
  eta : ℤ
  status : String
  paymentMethod : String
  paymentStatus : String
  createdAt : String
  startTime : Option String
  endTime : Option String
deriving DecidableEq

/-- An element of `db.payments`. -/
structure Payment where
  id : String
  rideId : String
  passengerId : String
  amount : JsValue
  method : Option String
  status : String
  transactionId : String
  createdAt : String
deriving DecidableEq

/-- The record `db.settings`. -/
structure Settings where
  emailNotifications : Bool
  theme : String
deriving DecidableEq

/-- The in-memory database `db`. -/
structure Db where
  users : List User
  rides : List Ride
  payments : List Payment
  settings : Settings
deriving DecidableEq

/-- The decoded token payload `req.user`. -/
structure Caller where
  id : String
  email : String
  role : String
deriving DecidableEq

/-- A signed token: the payload, and the secret it was signed with. -/
structure Token where
  payload : Caller
  secret : String
deriving DecidableEq

/-- The constant `JWT_SECRET` (its default value). -/
def JWT_SECRET : String := "your-secret-key-change-in-production"

/-- The call `jwt.sign(payload, JWT_SECRET)`. -/
def jwtSign (payload : Caller) : Token := ⟨payload, JWT_SECRET⟩

/-- The call `jwt.verify(token, JWT_SECRET)`: the payload of a token signed with the
secret, an error (`none`) for any other token. -/
def jwtVerify (token : Token) : Option Caller :=
  if token.secret = JWT_SECRET then some token.payload else none

/-- The middleware `authenticateToken`; `token` is the word after `Bearer` in the
authorization header, if there is one.  The answer is the refusal or `req.user`. -/
def authenticateToken (token : Option Token) : Except (Nat × String) Caller :=
  match token with
  | none => .error (401, "Access denied")
  | some t =>
    match jwtVerify t with
    | none => .error (403, "Invalid token")
    | some user => .ok user

/-- What a handler answers: `res.status(code).json({ error })`, or
`res.status(code).json(body)`. -/
inductive Response (α : Type) where
  | error (code : Nat) (error : String)
  | ok (code : Nat) (body : α)
deriving DecidableEq

/-- JavaScript truthiness of a string-valued request field. -/
def truthy : Option String → Bool
  | none => false
  | some s => s != ""

/-- Assignment through the reference returned by `xs.find(p)`: the first element
satisfying `p` is replaced by `f` of it, every other element stays. -/
def updateFound {α : Type} (p : α → Bool) (f : α → α) : List α → List α
  | [] => []
  | x :: xs => if p x then f x :: xs else x :: updateFound p f xs

/-! ## Fare estimate (inside `POST /api/rides`) -/

/-- The constant `baseFare`. -/
def baseFare : ℚ := 5

/-- The constant `perKmRate` of a vehicle type. -/
def perKmRate (vehicleType : String) : ℚ :=
  if vehicleType = "sedan" then 2 else if vehicleType = "suv" then 3 else 3 / 2

/-- The value `distance = Math.random() * 20 + 2` for the draw `r`. -/
def distance (r : ℚ) : ℚ := r * 20 + 2

/-- The value of `parseFloat(x.toFixed(2))`: `Number.prototype.toFixed` takes the sign
off, leaves a magnitude of `10^21` or more as it is, and otherwise picks the integer
`n` with `n / 100` closest to the magnitude, the larger one of two. -/
def toFixed2 (x : ℚ) : ℚ :=
  if x < 0 then
    (if 10 ^ 21 ≤ -x then x else -((⌊-x * 100 + 1 / 2⌋ : ℤ) : ℚ) / 100)
  else
    (if 10 ^ 21 ≤ x then x else ((⌊x * 100 + 1 / 2⌋ : ℤ) : ℚ) / 100)

/-- The value `fare = parseFloat((baseFare + distance * perKmRate).toFixed(2))`. -/
def fare (vehicleType : String) (r : ℚ) : ℚ :=
  toFixed2 (baseFare + distance r * perKmRate vehicleType)

/-- The value `eta = Math.floor(Math.random() * 15) + 5` for the draw `r`. -/
def eta (r : ℚ) : ℤ := ⌊r * 15⌋ + 5

/-! ## Ride routes -/

/-- The body of `POST /api/rides`. -/
structure RideBody where
  pickupLocation : Option String
  destination : Option String
  vehicleType : Option String
  paymentMethod : Option String
deriving DecidableEq

/-- A success body `{ message, ride }`. -/
structure RideReply where
  message : String
  ride : Ride
deriving DecidableEq

/-- Handler of `POST /api/rides`; `rDistance` and `rEta` are the two random draws. -/
def postRides (db : Db) (caller : Caller) (body : RideBody) (uuid now : String)
    (rDistance rEta : ℚ) : Response RideReply × Db :=
  match body.pickupLocation, body.destination, body.vehicleType with
  | some pickupLocation, some destination, some vehicleType =>
    if pickupLocation = "" ∨ destination = "" ∨ vehicleType = "" then
      (.error 400 "Missing required fields", db)
    else
      let ride : Ride :=
        { id := uuid
          passengerId := caller.id
          driverId := none
          pickupLocation := pickupLocation
          destination := destination
          vehicleType := vehicleType
          distance := toFixed2 (distance rDistance)
          fare := fare vehicleType rDistance
          eta := eta rEta
          status := "pending"
          paymentMethod := if truthy body.paymentMethod then body.paymentMethod.getD "cash" else "cash"
          paymentStatus := "pending"
          createdAt := now
          startTime := none
          endTime := none }
      (.ok 201 ⟨"Ride booked successfully", ride⟩, { db with rides := db.rides ++ [ride] })
  | _, _, _ => (.error 400 "Missing required fields", db)

/-- An element of the list `ridesWithDetails`. -/
structure RideWithDetails where
  ride : Ride
  passenger : Option User
  driver : Option User
deriving DecidableEq

/-- The filter of `GET /api/rides`: the list `rides` chosen by the caller's role. -/
def visibleRides (db : Db) (caller : Caller) : List Ride :=
  if caller.role = "admin" then db.rides
  else if caller.role = "driver" then
    db.rides.filter (fun r => r.driverId == some caller.id || r.status == "pending")
  else db.rides.filter (fun r => r.passengerId == caller.id)

/-- Handler of `GET /api/rides`. -/
def getRides (db : Db) (caller : Caller) : Response (List RideWithDetails) × Db :=
  let ridesWithDetails := (visibleRides db caller).map (fun ride =>
    { ride := ride
      passenger := db.users.find? (fun u => u.id == ride.passengerId)
      driver := if truthy ride.driverId then
          db.users.find? (fun u => some u.id == ride.driverId) else none : RideWithDetails })
  (.ok 200 ridesWithDetails, db)

/-- Handler of `PUT /api/rides/:id/accept`. -/
def putRideAccept (db : Db) (caller : Caller) (id now : String) : Response RideReply × Db :=
  if caller.role ≠ "driver" then (.error 403 "Only drivers can accept rides", db)
  else
    match db.rides.find? (fun r => r.id == id) with
    | none => (.error 404 "Ride not found", db)
    | some ride =>
      if ride.status ≠ "pending" then (.error 400 "Ride is not available", db)
      else
        let accept : Ride → Ride := fun r =>
          { r with driverId := some caller.id, status := "accepted", startTime := some now }
        (.ok 200 ⟨"Ride accepted", accept ride⟩,
          { db with rides := updateFound (fun r => r.id == id) accept db.rides })

/-- Handler of `PUT /api/rides/:id/status`; `status` is the body's field. -/
def putRideStatus (db : Db) (caller : Caller) (id status now : String) :
    Response RideReply × Db :=
  match db.rides.find? (fun r => r.id == id) with
  | none => (.error 404 "Ride not found", db)
  | some ride =>
    if caller.role ≠ "admin" ∧ (caller.role ≠ "driver" ∨ ride.driverId ≠ some caller.id) then
      (.error 403 "Access denied", db)
    else if status = "completed" then
      let update : Ride → Ride := fun r => { r with status := status, endTime := some now }
      let credit : User → User := fun u =>
        { u with earnings := u.earnings.add (.num ride.fare) }
      (.ok 200 ⟨"Ride status updated", update ride⟩,
        { db with
          rides := updateFound (fun r => r.id == id) update db.rides
          users := updateFound (fun u => some u.id == ride.driverId) credit db.users })
    else
      let update : Ride → Ride := fun r => { r with status := status }
      (.ok 200 ⟨"Ride status updated", update ride⟩,
        { db with rides := updateFound (fun r => r.id == id) update db.rides })

/-! ## Authentication routes -/

/-- The body of `POST /api/auth/register`. -/
structure RegisterBody where
  email : Option String
  password : Option String
  name : Option String
  phone : Option String
  role : Option String
  vehicleType : Option String
  licensePlate : Option String
deriving DecidableEq

/-- A success body `{ message, token, user }`. -/
structure AuthReply where
  message : String
  token : Token
  user : User
deriving DecidableEq

/-- Handler of `POST /api/auth/register`. -/
def postAuthRegister (db : Db) (body : RegisterBody) (uuid now : String)
    (hash : String → String) : Response AuthReply × Db :=
  match body.email, body.password, body.name, body.phone, body.role with
  | some email, some password, some name, some phone, some role =>
    if email = "" ∨ password = "" ∨ name = "" ∨ phone = "" ∨ role = "" then
      (.error 400 "All fields are required", db)
    else
      match db.users.find? (fun u => u.email == email) with
      | some _ => (.error 400 "User already exists", db)
      | none =>
        let user : User :=
          { id := uuid
            email := email
            password := some (hash password)
            name := name
            phone := phone
            role := role
            vehicleType := if role = "driver" then body.vehicleType else none
            licensePlate := if role = "driver" then body.licensePlate else none
            status := if role = "driver" then "offline" else "active"
            earnings := .num 0
            rating := .num 5
            createdAt := now }
        (.ok 201 ⟨"User registered successfully", jwtSign ⟨user.id, user.email, user.role⟩,
            { user with password := none }⟩,
          { db with users := db.users ++ [user] })
  | _, _, _, _, _ => (.error 400 "All fields are required", db)

/-- Handler of `POST /api/auth/register` when other requests are served while it awaits
`bcrypt.hash`: the check of the fields and the lookup by email ran on the store `seen`
that the request met, the push is onto the store `db` at the time the hash is ready. -/
def postAuthRegisterOverlapped (seen db : Db) (body : RegisterBody) (uuid now : String)
    (hash : String → String) : Response AuthReply × Db :=
  match body.email, body.password, body.name, body.phone, body.role with
  | some email, some password, some name, some phone, some role =>
    if email = "" ∨ password = "" ∨ name = "" ∨ phone = "" ∨ role = "" then
      (.error 400 "All fields are required", db)
    else
      match seen.users.find? (fun u => u.email == email) with
      | some _ => (.error 400 "User already exists", db)
      | none =>
        let user : User :=
          { id := uuid
            email := email
            password := some (hash password)
            name := name
            phone := phone
            role := role
            vehicleType := if role = "driver" then body.vehicleType else none
            licensePlate := if role = "driver" then body.licensePlate else none
            status := if role = "driver" then "offline" else "active"
            earnings := .num 0
            rating := .num 5
            createdAt := now }
        (.ok 201 ⟨"User registered successfully", jwtSign ⟨user.id, user.email, user.role⟩,
            { user with password := none }⟩,
          { db with users := db.users ++ [user] })
  | _, _, _, _, _ => (.error 400 "All fields are required", db)

/-- The body of `POST /api/auth/login`. -/
structure LoginBody where
  email : Option String
  password : Option String
deriving DecidableEq

/-- Handler of `POST /api/auth/login`.  `compare` is `bcrypt.compare`, applied to the
body's password and the stored hash: `none` when the promise is rejected (the `catch`
branch), else whether the password matches. -/
def postAuthLogin (db : Db) (body : LoginBody)
    (compare : Option String → Option String → Option Bool) : Response AuthReply × Db :=
  match db.users.find? (fun u => some u.email == body.email) with
  | none => (.error 400 "Invalid credentials", db)
  | some user =>
    match compare body.password user.password with
    | none => (.error 500 "Server error", db)
    | some false => (.error 400 "Invalid credentials", db)
    | some true =>
      (.ok 200 ⟨"Login successful", jwtSign ⟨user.id, user.email, user.role⟩,
          { user with password := none }⟩, db)

/-- Handler of `POST /api/auth/reset-password`; the success body is its message. -/
def postAuthResetPassword (db : Db) (email : Option String) : Response String × Db :=
  match db.users.find? (fun u => some u.email == email) with
  | none => (.error 404 "User not found", db)
  | some _ => (.ok 200 "Password reset email sent", db)

/-- Handler of `GET /api/rides/:id`. -/
def getRide (db : Db) (caller : Caller) (id : String) : Response Ride × Db :=
  match db.rides.find? (fun r => r.id == id) with
  | none => (.error 404 "Ride not found", db)
  | some ride =>
    if caller.role ≠ "admin" ∧ ride.passengerId ≠ caller.id ∧
        ride.driverId ≠ some caller.id then
      (.error 403 "Access denied", db)
    else (.ok 200 ride, db)

/-! ## Payment routes -/

/-- The body of `POST /api/payments`. -/
structure PaymentBody where
  rideId : Option String
  amount : JsValue
  method : Option String
deriving DecidableEq

/-- A success body `{ message, payment }`. -/
structure PaymentReply where
  message : String
  payment : Payment
deriving DecidableEq

/-- Handler of `POST /api/payments`; `nowMs` is `Date.now()`.  No ride has an
undefined id, so a body without `rideId` finds no ride. -/
def postPayments (db : Db) (caller : Caller) (body : PaymentBody) (uuid now : String)
    (nowMs : Nat) : Response PaymentReply × Db :=
  match body.rideId with
  | none => (.error 404 "Ride not found", db)
  | some rideId =>
    match db.rides.find? (fun r => r.id == rideId) with
    | none => (.error 404 "Ride not found", db)
    | some ride =>
      if ride.passengerId ≠ caller.id ∧ caller.role ≠ "admin" then
        (.error 403 "Access denied", db)
      else
        let payment : Payment :=
          { id := uuid
            rideId := rideId
            passengerId := caller.id
            amount := body.amount
            method := body.method
            status := "completed"
            transactionId := "TXN-" ++ toString nowMs
            createdAt := now }
        (.ok 201 ⟨"Payment processed successfully", payment⟩,
          { db with
            payments := db.payments ++ [payment]
            rides := (updateFound (fun r => r.id == rideId)
              (fun r => { r with paymentStatus := "completed" }) db.rides) })

/-- Handler of `GET /api/payments`. -/
def getPayments (db : Db) (caller : Caller) : Response (List Payment) × Db :=
  if caller.role = "admin" then (.ok 200 db.payments, db)
  else (.ok 200 (db.payments.filter (fun p => p.passengerId == caller.id)), db)

/-! ## User routes -/

/-- Handler of `GET /api/users`. -/
def getUsers (db : Db) (caller : Caller) : Response (List User) × Db :=
  if caller.role ≠ "admin" then (.error 403 "Admin access required", db)
  else (.ok 200 (db.users.map (fun u => { u with password := none })), db)

/-- Handler of `GET /api/users/me`. -/
def getUsersMe (db : Db) (caller : Caller) : Response User × Db :=
  match db.users.find? (fun u => u.id == caller.id) with
  | none => (.error 404 "User not found", db)
  | some user => (.ok 200 { user with password := none }, db)

/-- The body of `PUT /api/users/me`. -/
structure ProfileBody where
  name : Option String
  phone : Option String
  vehicleType : Option String
  licensePlate : Option String
deriving DecidableEq

/-- A success body `{ message, user }`. -/
structure UserReply where
  message : String
  user : User
deriving DecidableEq

/-- Handler of `PUT /api/users/me`. -/
def putUsersMe (db : Db) (caller : Caller) (body : ProfileBody) : Response UserReply × Db :=
  match db.users.find? (fun u => u.id == caller.id) with
  | none => (.error 404 "User not found", db)
  | some user =>
    let update : User → User := fun u =>
      { u with
        name := if truthy body.name then body.name.getD u.name else u.name
        phone := if truthy body.phone then body.phone.getD u.phone else u.phone
        vehicleType :=
          if truthy body.vehicleType ∧ u.role = "driver" then body.vehicleType
          else u.vehicleType
        licensePlate :=
          if truthy body.licensePlate ∧ u.role = "driver" then body.licensePlate
          else u.licensePlate }
    (.ok 200 ⟨"Profile updated", { update user with password := none }⟩,
      { db with users := updateFound (fun u => u.id == caller.id) update db.users })

/-- A success body `{ message, driver }`. -/
structure DriverReply where
  message : String
  driver : User
deriving DecidableEq

/-- Handler of `PUT /api/drivers/status`.  When no user has the caller's id the
assignment to `driver.status` throws and the framework answers 500. -/
def putDriversStatus (db : Db) (caller : Caller) (status : String) :
    Response DriverReply × Db :=
  if caller.role ≠ "driver" then (.error 403 "Driver access required", db)
  else
    match db.users.find? (fun u => u.id == caller.id) with
    | none => (.error 500 "Internal Server Error", db)
    | some driver =>
      (.ok 200 ⟨"Status updated", { driver with status := status, password := none }⟩,
        { db with users := (updateFound (fun u => u.id == caller.id)
            (fun u => { u with status := status }) db.users) })

/-! ## Admin routes -/

/-- The object `stats`. -/
structure Stats where
  totalRides : Nat
  completedRides : Nat
  activeRides : Nat
  totalRevenue : JsValue
  totalDrivers : Nat
  onlineDrivers : Nat
  totalPassengers : Nat
  todayRides : Nat
deriving DecidableEq

/-- The value `db.payments.reduce((sum, p) => sum + p.amount, 0)`; `none` when a `+`
throws. -/
def totalRevenue (fraction : ℚ → String) (payments : List Payment) : Option JsValue :=
  payments.foldlM (fun sum p => jsAdd fraction sum p.amount) (.num (.num 0))

/-- Handler of `GET /api/admin/stats`; `now` is the current time, `toDateString` maps a
timestamp to the date string of its day, and `fraction` renders a number that is no
integer as a string.  When a `+` of the revenue throws, the framework answers 500. -/
def getAdminStats (db : Db) (caller : Caller) (now : String)
    (toDateString : String → String) (fraction : ℚ → String) : Response Stats × Db :=
  if caller.role ≠ "admin" then (.error 403 "Admin access required", db)
  else
    match totalRevenue fraction db.payments with
    | none => (.error 500 "Internal Server Error", db)
    | some revenue =>
      let stats : Stats :=
        { totalRides := db.rides.length
          completedRides := (db.rides.filter (fun r => r.status == "completed")).length
          activeRides := (db.rides.filter (fun r => r.status == "in-progress")).length
          totalRevenue := revenue
          totalDrivers := (db.users.filter (fun u => u.role == "driver")).length
          onlineDrivers :=
            (db.users.filter (fun u => u.role == "driver" && u.status == "online")).length
          totalPassengers := (db.users.filter (fun u => u.role == "passenger")).length
          todayRides :=
            (db.rides.filter (fun r => toDateString r.createdAt == toDateString now)).length }
      (.ok 200 stats, db)

/-- The body of `PUT /api/admin/settings`. -/
structure SettingsBody where
  emailNotifications : Option Bool
  theme : Option String
deriving DecidableEq

/-- A success body `{ message, settings }`. -/
structure SettingsReply where
  message : String
  settings : Settings
deriving DecidableEq

/-- Handler of `PUT /api/admin/settings`. -/
def putAdminSettings (db : Db) (caller : Caller) (body : SettingsBody) :
    Response SettingsReply × Db :=
  if caller.role ≠ "admin" then (.error 403 "Admin access required", db)
  else
    let settings : Settings :=
      { emailNotifications := body.emailNotifications.getD db.settings.emailNotifications
        theme := if truthy body.theme then body.theme.getD db.settings.theme
          else db.settings.theme }
    (.ok 200 ⟨"Settings updated", settings⟩, { db with settings := settings })

/-- Handler of `GET /api/admin/settings`. -/
def getAdminSettings (db : Db) (caller : Caller) : Response Settings × Db :=
  if caller.role ≠ "admin" then (.error 403 "Admin access required", db)
  else (.ok 200 db.settings, db)

/-- Handler of `GET /api/health`: the body `{ status, timestamp }`. -/
def getHealth (db : Db) (now : String) : Response (String × String) × Db :=
  (.ok 200 ("ok", now), db)

/-! ## The store at start-up and the requests of the API -/

/-- The database as declared: empty lists and the default settings. -/
def initialDb : Db :=
  { users := [], rides := [], payments := [],
    settings := { emailNotifications := true, theme := "gold" } }

/-- The default admin user pushed at start-up: it has no `vehicleType`, `licensePlate`,
`earnings` or `rating` field. -/
def seededAdmin (uuid hashedPassword now : String) : User :=
  { id := uuid
    email := "admin@diwaifox.com"
    password := some hashedPassword
    name := "Admin"
    phone := "+675-1234-5678"
    role := "admin"
    vehicleType := none
    licensePlate := none
    status := "active"
    earnings := .undefined
    rating := .undefined
    createdAt := now }

/-- The database once the default admin has been pushed. -/
def seededDb (uuid hashedPassword now : String) : Db :=
  { initialDb with users := [seededAdmin uuid hashedPassword now] }

/-- A value of `Math.random()`: a number from 0 up to, but not including, 1. -/
abbrev Draw : Type := { r : ℚ // 0 ≤ r ∧ r < 1 }

/-- A request: the route, the token sent with it where the route is behind
`authenticateToken`, the body or path parameters, and the values the handler takes from
its environment (identifier, clock, random draws, password hashing).  The last two are
the registration whose wait for the hash other requests fall into, with the store `seen`
it met, and the push of the default admin at start-up. -/
inductive Request where
  | register (body : RegisterBody) (uuid now : String) (hash : String → String)
  | login (body : LoginBody) (compare : Option String → Option String → Option Bool)
  | resetPassword (email : Option String)
  | createRide (token : Option Token) (body : RideBody) (uuid now : String)
      (rDistance rEta : Draw)
  | listRides (token : Option Token)
  | getRide (token : Option Token) (id : String)
  | acceptRide (token : Option Token) (id now : String)
  | updateRideStatus (token : Option Token) (id status now : String)
  | submitPayment (token : Option Token) (body : PaymentBody) (uuid now : String)
      (nowMs : Nat)
  | listPayments (token : Option Token)
  | listUsers (token : Option Token)
  | getProfile (token : Option Token)
  | updateProfile (token : Option Token) (body : ProfileBody)
  | setDriverStatus (token : Option Token) (status : String)
  | adminStats (token : Option Token) (now : String) (toDateString : String → String)
      (fraction : ℚ → String)
  | updateSettings (token : Option Token) (body : SettingsBody)
  | getSettings (token : Option Token)
  | health (now : String)
  | registerOverlapped (seen : Db) (body : RegisterBody) (uuid now : String)
      (hash : String → String)
  | seedAdmin (uuid hashedPassword now : String)

/-- A route behind `authenticateToken`: the handler runs for the token's user; a
request the middleware refuses leaves the database as it is. -/
def withUser (db : Db) (token : Option Token) (handler : Caller → Db) : Db :=
  match authenticateToken token with
  | .ok caller => handler caller
  | .error _ => db

/-- The database after serving one request, or after the start-up push. -/
def step (db : Db) : Request → Db
  | .register body uuid now hash => (postAuthRegister db body uuid now hash).2
  | .login body compare => (postAuthLogin db body compare).2
  | .resetPassword email => (postAuthResetPassword db email).2
  | .createRide token body uuid now rDistance rEta =>
    withUser db token
      (fun caller => (postRides db caller body uuid now rDistance.val rEta.val).2)
  | .listRides token => withUser db token (fun caller => (getRides db caller).2)
  | .getRide token id => withUser db token (fun caller => (getRide db caller id).2)
  | .acceptRide token id now =>
    withUser db token (fun caller => (putRideAccept db caller id now).2)
  | .updateRideStatus token id status now =>
    withUser db token (fun caller => (putRideStatus db caller id status now).2)
  | .submitPayment token body uuid now nowMs =>
    withUser db token (fun caller => (postPayments db caller body uuid now nowMs).2)
  | .listPayments token => withUser db token (fun caller => (getPayments db caller).2)
  | .listUsers token => withUser db token (fun caller => (getUsers db caller).2)
  | .getProfile token => withUser db token (fun caller => (getUsersMe db caller).2)
  | .updateProfile token body =>
    withUser db token (fun caller => (putUsersMe db caller body).2)
  | .setDriverStatus token status =>
    withUser db token (fun caller => (putDriversStatus db caller status).2)
  | .adminStats token now toDateString fraction =>
    withUser db token
      (fun caller => (getAdminStats db caller now toDateString fraction).2)
  | .updateSettings token body =>
    withUser db token (fun caller => (putAdminSettings db caller body).2)
  | .getSettings token => withUser db token (fun caller => (getAdminSettings db caller).2)
  | .health now => (getHealth db now).2
  | .registerOverlapped seen body uuid now hash =>
    (postAuthRegisterOverlapped seen db body uuid now hash).2
  | .seedAdmin uuid hashedPassword now =>
    { db with users := db.users ++ [seededAdmin uuid hashedPassword now] }

/-- The database after serving a list of requests one after the other. -/
def run (db : Db) : List Request → Db
  | [] => db
  | req :: rest => run (step db req) rest

/-- The requests of the ride lifecycle: create, accept, status update. -/
def Request.isRideRequest : Request → Bool
  | .createRide _ _ _ _ _ _ => true
  | .acceptRide _ _ _ => true
  | .updateRideStatus _ _ _ _ => true
  | _ => false

/-- Every request of a list, at the database it is served on, satisfies `ok`. -/
def respects (ok : Db → Request → Prop) (db : Db) : List Request → Prop
  | [] => True
  | req :: rest => ok db req ∧ respects ok (step db req) rest

/-- Every request but the start-up push is a request of the API. -/
def Request.isApiRequest : Request → Bool
  | .seedAdmin _ _ _ => false
  | _ => true

/-- The request pushes no user whose email was not checked against the store it is pushed
onto: if it is a registration that waited for its hash while other requests were served,
the store holds the emails it held when the registration arrived; if it is the start-up
push, no stored user has the admin's email. -/
def checksEmail (db : Db) : Request → Prop
  | .registerOverlapped seen _ _ _ _ =>
    seen.users.map (fun u => u.email) = db.users.map (fun u => u.email)
  | .seedAdmin _ _ _ => ∀ u ∈ db.users, u.email ≠ "admin@diwaifox.com"
  | _ => True

/-- The caller passes the authorization check of `PUT /api/rides/:id/status`. -/
def mayUpdateStatus (caller : Caller) (ride : Ride) : Prop :=
  caller.role = "admin" ∨ (caller.role = "driver" ∧ ride.driverId = some caller.id)

/-- The request is not a status update that is carried out and moves a ride with a
driver to 'pending' or a ride without a driver to another status. -/
def keepsDriverRule (db : Db) : Request → Prop
  | .updateRideStatus token id status _ =>
    ∀ (caller : Caller) (ride : Ride), authenticateToken token = .ok caller →
      db.rides.find? (fun r => r.id == id) = some ride → mayUpdateStatus caller ride →
      (ride.driverId = none ↔ status = "pending")
  | _ => True

/-- The request is not a status update that is carried out and gives a status other
than 'completed' to a ride whose `endTime` is set. -/
def keepsEndTimeRule (db : Db) : Request → Prop
  | .updateRideStatus token id status _ =>
    ∀ (caller : Caller) (ride : Ride), authenticateToken token = .ok caller →
      db.rides.find? (fun r => r.id == id) = some ride → mayUpdateStatus caller ride →
      (status = "completed" ∨ ride.endTime = none)
  | _ => True

/-! ## The data model's invariants, as stated by the specification -/

/-- No two stored users have the same email. -/
def emailsUnique (db : Db) : Prop :=
  ∀ (i j : Nat) (u v : User), db.users[i]? = some u → db.users[j]? = some v →
    u.email = v.email → i = j

/-- The ride has no driver exactly when it is pending. -/
def driverRule (r : Ride) : Prop := r.driverId = none ↔ r.status = "pending"

/-- The ride has an end time exactly when it is completed. -/
def endTimeRule (r : Ride) : Prop := r.endTime ≠ none ↔ r.status = "completed"

/-! ## What the runtime provides with a request -/

/-- The token a request carries. -/
def Request.token : Request → Option Token
  | .register _ _ _ _ => none
  | .login _ _ => none
  | .resetPassword _ => none
  | .createRide token _ _ _ _ _ => token
  | .listRides token => token
  | .getRide token _ => token
  | .acceptRide token _ _ => token
  | .updateRideStatus token _ _ _ => token
  | .submitPayment token _ _ _ _ => token
  | .listPayments token => token
  | .listUsers token => token
  | .getProfile token => token
  | .updateProfile token _ => token
  | .setDriverStatus token _ => token
  | .adminStats token _ _ _ => token
  | .updateSettings token _ => token
  | .getSettings token => token
  | .health _ => none
  | .registerOverlapped _ _ _ _ _ => none
  | .seedAdmin _ _ _ => none

/-- A token that `authenticateToken` accepts was signed by register or login for a
stored user: its payload is that user's id, email and role. -/
def issuedToken (db : Db) (token : Option Token) : Prop :=
  ∀ caller : Caller, authenticateToken token = .ok caller →
    ∃ u ∈ db.users, u.id = caller.id ∧ u.email = caller.email ∧ u.role = caller.role

/-- The values a handler takes from its environment are those the runtime gives:
`uuidv4()` is an id no stored user has, `Math.random()` is a draw in `[0, 1)`. -/
def runtimeValues (db : Db) : Request → Prop
  | .register _ uuid _ _ => ∀ u ∈ db.users, u.id ≠ uuid
  | .registerOverlapped _ _ uuid _ _ => ∀ u ∈ db.users, u.id ≠ uuid
  | .createRide _ _ _ _ rDistance rEta =>
    (0 ≤ rDistance.val ∧ rDistance.val < 1) ∧ (0 ≤ rEta.val ∧ rEta.val < 1)
  | _ => True

/-- A request as the running server can receive it: an issued token, and runtime
values. -/
def wellFormed (db : Db) (req : Request) : Prop :=
  issuedToken db req.token ∧ runtimeValues db req

/-- The earnings are a number that is not negative. -/
def earningsRule (u : User) : Prop := u.earnings.isNonneg

/-- The earnings of a user whose role is not driver are 0. -/
def driverOnlyRule (u : User) : Prop := u.role ≠ "driver" → u.earnings = .num 0

/-- Every stored user who has the id that a ride names as its driver has the role
driver. -/
def driversAreDrivers (db : Db) : Prop :=
  ∀ r ∈ db.rides, ∀ d : String, r.driverId = some d →
    ∀ u ∈ db.users, u.id = d → u.role = "driver"

/-- The request makes no stored user whose role is not driver the driver of a ride: it is
no acceptance that is carried out under a token that names the id of such a user, and no
registration of a user who is not a driver under an id that a ride names as its driver. -/
def keepsDriversDrivers (db : Db) : Request → Prop
  | .acceptRide token id _ =>
    ∀ (caller : Caller) (ride : Ride), authenticateToken token = .ok caller →
      caller.role = "driver" → db.rides.find? (fun r => r.id == id) = some ride →
      ride.status = "pending" → ∀ u ∈ db.users, u.id = caller.id → u.role = "driver"
  | .register body uuid _ _ =>
    body.role = some "driver" ∨ ∀ r ∈ db.rides, r.driverId ≠ some uuid
  | .registerOverlapped _ body uuid _ _ =>
    body.role = some "driver" ∨ ∀ r ∈ db.rides, r.driverId ≠ some uuid
  | _ => True

/-- The user's status is one of the three of the data model. -/
def statusRule (u : User) : Prop :=
  u.status = "active" ∨ u.status = "online" ∨ u.status = "offline"

/-- The request is not a driver status update with a status other than 'online' and
'offline'. -/
def togglesOnlineOffline (_ : Db) : Request → Prop
  | .setDriverStatus _ status => status = "online" ∨ status = "offline"
  | _ => True

/-- The database after a list of status updates to 'completed' of the ride `id`, each
with its caller and its time. -/
def completeRepeatedly (db : Db) (id : String) : List (Caller × String) → Db
  | [] => db
  | (caller, now) :: rest =>
    completeRepeatedly (putRideStatus db caller id "completed" now).2 id rest

/-! ## The specification's fare formula -/

/-- The spec's "rounded to 2 decimal places": the nearest multiple of one hundredth. -/
def roundTo2Decimals (x : ℚ) : ℚ := ((round (x * 100) : ℤ) : ℚ) / 100

/-! ## Example stores -/

/-- The draw 0.025, which gives the distance 2.5. -/
def exDrawDistance : Draw := ⟨1 / 40, by norm_num⟩

/-- The draw 0.2, which gives the eta 8. -/
def exDrawEta : Draw := ⟨1 / 5, by norm_num⟩

/-- A registered passenger. -/
def exPassenger : User :=
  { id := "u-pat", email := "pat@example.com", password := some "hash-pat", name := "Pat",
    phone := "+675-1", role := "passenger", vehicleType := none, licensePlate := none,
    status := "active", earnings := .num 0, rating := .num 5, createdAt := "2024-01-01" }

/-- A registered driver who has earned 10 so far. -/
def exDriver : User :=
  { id := "u-dan", email := "dan@example.com", password := some "hash-dan", name := "Dan",
    phone := "+675-2", role := "driver", vehicleType := some "suv", licensePlate := some "PNG-1",
    status := "online", earnings := .num 10, rating := .num 5, createdAt := "2024-01-02" }

/-- A second registered driver. -/
def exDriver2 : User :=
  { id := "u-eve", email := "eve@example.com", password := some "hash-eve", name := "Eve",
    phone := "+675-3", role := "driver", vehicleType := some "sedan", licensePlate := some "PNG-2",
    status := "online", earnings := .num 0, rating := .num 5, createdAt := "2024-01-03" }

/-- A ride the passenger booked, not yet accepted. -/
def exRide : Ride :=
  { id := "r-1", passengerId := "u-pat", driverId := none, pickupLocation := "A",
    destination := "B", vehicleType := "suv", distance := 5 / 2, fare := 25 / 2, eta := 7,
    status := "pending", paymentMethod := "cash", paymentStatus := "pending",
    createdAt := "2024-02-01", startTime := none, endTime := none }

/-- The same ride once the first driver has accepted it. -/
def exRideAccepted : Ride :=
  { exRide with driverId := some "u-dan", status := "accepted", startTime := some "2024-02-02" }

/-- A ride of the second driver, in progress. -/
def exRideOther : Ride :=
  { id := "r-2", passengerId := "u-pat", driverId := some "u-eve", pickupLocation := "C",
    destination := "D", vehicleType := "sedan", distance := 3, fare := 11, eta := 9,
    status := "in-progress", paymentMethod := "card", paymentStatus := "pending",
    createdAt := "2024-02-03", startTime := some "2024-02-04", endTime := none }

/-- A store with a pending ride. -/
def exDb : Db :=
  { users := [exPassenger, exDriver, exDriver2], rides := [exRideOther, exRide],
    payments := [], settings := { emailNotifications := true, theme := "gold" } }

/-- A store in which the first driver has accepted the ride. -/
def exDbAccepted : Db := { exDb with rides := [exRideOther, exRideAccepted] }

/-- The ride of the first driver as booked for a vehicle type without a rate of its own,
over a distance of 2.07: the fare is 8.1. -/
def exRideCheap : Ride :=
  { exRideAccepted with vehicleType := "bike", distance := 207 / 100, fare := 81 / 10 }

/-- The first driver with earnings of 16.2 so far. -/
def exDriverPaid : User := { exDriver with earnings := .num (81 / 5) }

/-- The first driver with no earnings so far. -/
def exDriverNew : User := { exDriver with earnings := .num 0 }

/-- A store in which the first driver has earned 16.2 and has accepted a ride with a fare
of 8.1. -/
def exDbRounding : Db :=
  { exDb with users := [exPassenger, exDriverPaid, exDriver2],
              rides := [exRideOther, exRideCheap] }

/-- A store in which the first driver has earned nothing yet and has accepted a ride with
a fare of 8.1. -/
def exDbCheap : Db :=
  { exDb with users := [exPassenger, exDriverNew, exDriver2],
              rides := [exRideOther, exRideCheap] }

/-- Token payload of the first driver. -/
def exDriverCaller : Caller := { id := "u-dan", email := "dan@example.com", role := "driver" }

/-- Token payload of the second driver. -/
def exDriver2Caller : Caller := { id := "u-eve", email := "eve@example.com", role := "driver" }

/-- A booking request for an SUV. -/
def exBooking : RideBody :=
  { pickupLocation := some "A", destination := some "B", vehicleType := some "suv",
    paymentMethod := none }

/-- Token payload of an administrator. -/
def exAdminCaller : Caller := { id := "u-root", email := "admin@diwaifox.com", role := "admin" }

/-- A registration that reuses the first driver's email. -/
def exRegistration : RegisterBody :=
  { email := some "dan@example.com", password := some "secret", name := some "Danny",
    phone := some "+675-9", role := some "passenger", vehicleType := none,
    licensePlate := none }

/-- Token payload of the passenger. -/
def exPassengerCaller : Caller := { id := "u-pat", email := "pat@example.com", role := "passenger" }

/-- The store with its three users and no ride yet. -/
def exDbNoRides : Db := { exDb with rides := [] }

/-- The passenger books, the first driver accepts, completes, and then cancels. -/
def exCompletedThenCancelled : List Request :=
  [ .createRide (some (jwtSign exPassengerCaller)) exBooking "r-1" "2024-02-01" exDrawDistance exDrawEta,
    .acceptRide (some (jwtSign exDriverCaller)) "r-1" "2024-02-02",
    .updateRideStatus (some (jwtSign exDriverCaller)) "r-1" "completed" "2024-02-03",
    .updateRideStatus (some (jwtSign exDriverCaller)) "r-1" "cancelled" "2024-02-04" ]

/-- The passenger books, the first driver accepts and then sets the ride back to
'pending'. -/
def exAcceptedThenPending : List Request :=
  [ .createRide (some (jwtSign exPassengerCaller)) exBooking "r-1" "2024-02-01" exDrawDistance exDrawEta,
    .acceptRide (some (jwtSign exDriverCaller)) "r-1" "2024-02-02",
    .updateRideStatus (some (jwtSign exDriverCaller)) "r-1" "pending" "2024-02-03" ]

/-- A password check that accepts the password "secret" against any stored hash. -/
def exCompare : Option String → Option String → Option Bool
  | some password, some _ => some (password == "secret")
  | _, _ => none

/-- A login that names the first driver's email and sends no password. -/
def exLoginNoPassword : LoginBody := { email := some "dan@example.com", password := none }

/-- A login that names an email no user has and sends no password. -/
def exLoginUnknownNoPassword : LoginBody :=
  { email := some "nobody@example.com", password := none }

/-- A login of the first driver with the right password. -/
def exLogin : LoginBody := { email := some "dan@example.com", password := some "secret" }

/-- A login of the first driver with a wrong password. -/
def exLoginWrong : LoginBody := { email := some "dan@example.com", password := some "guess" }

/-- A login with an email no user has. -/
def exLoginUnknown : LoginBody := { email := some "nobody@example.com", password := some "guess" }

/-- A payment of 12.50 in cash for the ride "r-1". -/
def exPaymentBody : PaymentBody :=
  { rideId := some "r-1", amount := .num (.num (25 / 2)), method := some "cash" }

/-- Two payments, of 12.50 and of 11. -/
def exPayments : List Payment :=
  [ { id := "p-1", rideId := "r-1", passengerId := "u-pat", amount := .num (.num (25 / 2)),
      method := some "cash", status := "completed", transactionId := "TXN-1",
      createdAt := "2024-02-05" },
    { id := "p-2", rideId := "r-2", passengerId := "u-pat", amount := .num (.num 11),
      method := some "card", status := "completed", transactionId := "TXN-2",
      createdAt := "2024-02-06" } ]

/-- The store with the two payments recorded. -/
def exDbPaid : Db := { exDb with payments := exPayments }

/-- The store with two payments recorded, of 0.1 and of 0.2. -/
def exDbDimes : Db :=
  { exDb with payments :=
      [ { id := "p-1", rideId := "r-1", passengerId := "u-pat", amount := .num (.num (1 / 10)),
          method := some "cash", status := "completed", transactionId := "TXN-1",
          createdAt := "2024-02-05" },
        { id := "p-2", rideId := "r-2", passengerId := "u-pat", amount := .num (.num (1 / 5)),
          method := some "card", status := "completed", transactionId := "TXN-2",
          createdAt := "2024-02-06" } ] }

/-- The store with two payments recorded, the first with the string "12.50" as its amount,
the second with the number 11. -/
def exDbTextAmount : Db :=
  { exDb with payments :=
      [ { id := "p-1", rideId := "r-1", passengerId := "u-pat", amount := .str "12.50",
          method := some "cash", status := "completed", transactionId := "TXN-1",
          createdAt := "2024-02-05" },
        { id := "p-2", rideId := "r-2", passengerId := "u-pat", amount := .num (.num 11),
          method := some "card", status := "completed", transactionId := "TXN-2",
          createdAt := "2024-02-06" } ] }

/-- The passenger books, the first driver accepts, starts and completes the ride. -/
def exLifecycle : List Request :=
  [ .createRide (some (jwtSign exPassengerCaller)) exBooking "r-1" "2024-02-01" exDrawDistance exDrawEta,
    .acceptRide (some (jwtSign exDriverCaller)) "r-1" "2024-02-02",
    .updateRideStatus (some (jwtSign exDriverCaller)) "r-1" "in-progress" "2024-02-03",
    .updateRideStatus (some (jwtSign exDriverCaller)) "r-1" "completed" "2024-02-04" ]

/-- The store with the seeded admin and the three users, and no ride yet. -/
def exDbWithAdmin : Db :=
  { exDbNoRides with
    users := seededAdmin "u-root" "hash-root" "2024-01-01" :: exDbNoRides.users }

/-- The passenger books and the admin sets the ride, which has no driver, to
'in-progress'. -/
def exAdminStartsPending : List Request :=
  [ .createRide (some (jwtSign exPassengerCaller)) exBooking "r-1" "2024-02-01" exDrawDistance exDrawEta,
    .updateRideStatus (some (jwtSign exAdminCaller)) "r-1" "in-progress" "2024-02-02" ]

/-- The first driver registers. -/
def exRegisterDriver : Request :=
  .register
    { email := some "dan@example.com", password := some "secret", name := some "Dan",
      phone := some "+675-2", role := some "driver", vehicleType := some "suv",
      licensePlate := some "PNG-1" }
    "u-dan" "2024-01-02" (fun pw => "hash-" ++ pw)

/-- The first driver registers; a second registration with the same email arrived while
the first waited for its hash, when the store was still empty, and is pushed after it. -/
def exOverlappingRegisters : List Request :=
  [ exRegisterDriver,
    .registerOverlapped initialDb exRegistration "u-dup" "2024-01-02" (fun pw => "hash-" ++ pw) ]

/-- A registration with the email of the default admin. -/
def exRegistrationAdminEmail : RegisterBody :=
  { email := some "admin@diwaifox.com", password := some "secret", name := some "Eve",
    phone := some "+675-3", role := some "passenger", vehicleType := none,
    licensePlate := none }

/-- The start-up push of the default admin; a registration with the admin's email
arrived before it, when the store was still empty, and is pushed after it. -/
def exRegisterDuringStartup : List Request :=
  [ .seedAdmin "u-root" "hash-root" "2024-01-01",
    .registerOverlapped initialDb exRegistrationAdminEmail "u-eve" "2024-01-01"
      (fun pw => "hash-" ++ pw) ]

/-- A registration with the admin's email is served in full, and then the start-up push
happens. -/
def exRegisterBeforeStartup : List Request :=
  [ .register exRegistrationAdminEmail "u-eve" "2024-01-01" (fun pw => "hash-" ++ pw),
    .seedAdmin "u-root" "hash-root" "2024-01-01" ]

/-- The first driver registers and then sends the status 'busy'. -/
def exBusyDriver : List Request :=
  [ exRegisterDriver, .setDriverStatus (some (jwtSign exDriverCaller)) "busy" ]

/-- A registration of a driver that names no vehicle and no licence plate. -/
def exDriverWithoutVehicle : RegisterBody :=
  { email := some "fay@example.com", password := some "secret", name := some "Fay",
    phone := some "+675-4", role := some "driver", vehicleType := none,
    licensePlate := none }

/-- A token payload with the passenger's id and the role driver; no route issues it. -/
def exForgedCaller : Caller := { id := "u-pat", email := "pat@example.com", role := "driver" }

/-- The passenger registers and books a ride; the ride is accepted and completed under a
token that carries the passenger's id and the role driver. -/
def exForgedDriverRun : List Request :=
  [ .register
      { email := some "pat@example.com", password := some "secret", name := some "Pat",
        phone := some "+675-1", role := some "passenger", vehicleType := none,
        licensePlate := none }
      "u-pat" "2024-01-01" (fun pw => "hash-" ++ pw),
    .createRide (some (jwtSign exPassengerCaller)) exBooking "r-1" "2024-02-01" exDrawDistance
      exDrawEta,
    .acceptRide (some (jwtSign exForgedCaller)) "r-1" "2024-02-02",
    .updateRideStatus (some (jwtSign exForgedCaller)) "r-1" "completed" "2024-02-03" ]

/-- The first driver registers, books a ride, accepts it and completes it. -/
def exEarningRun : List Request :=
  [ exRegisterDriver,
    .createRide (some (jwtSign exDriverCaller)) exBooking "r-1" "2024-02-01" exDrawDistance exDrawEta,
    .acceptRide (some (jwtSign exDriverCaller)) "r-1" "2024-02-02",
    .updateRideStatus (some (jwtSign exDriverCaller)) "r-1" "completed" "2024-02-03" ]

/-! ## Lemmas on `updateFound` -/

theorem updateFound_length {α : Type} (p : α → Bool) (f : α → α) (xs : List α) :
    (updateFound p f xs).length = xs.length := by
  induction xs with
  | nil => rfl
  | cons x xs ih =>
    by_cases hx : p x = true
    · simp [updateFound, hx]
    · simp [updateFound, hx, ih]

/-- When no element satisfies `p`, nothing is assigned. -/
theorem updateFound_of_find_none {α : Type} (p : α → Bool) (f : α → α) (xs : List α)
    (h : xs.find? p = none) : updateFound p f xs = xs := by
  induction xs with
  | nil => rfl
  | cons x xs ih =>
    by_cases hx : p x = true
    · simp [List.find?, hx] at h
    · simp only [List.find?, Bool.not_eq_true] at h hx
      rw [hx] at h
      simp [updateFound, hx, ih h]

/-- The element found is at the first position satisfying `p`; exactly that position is
assigned. -/
theorem updateFound_of_find_some {α : Type} (p : α → Bool) (f : α → α) (xs : List α) (x : α)
    (h : xs.find? p = some x) :
    ∃ i : Nat, xs[i]? = some x ∧ (∀ (j : Nat) (y : α), j < i → xs[j]? = some y → p y = false) ∧
      (updateFound p f xs)[i]? = some (f x) ∧
      ∀ j : Nat, j ≠ i → (updateFound p f xs)[j]? = xs[j]? := by
  induction xs with
  | nil => simp at h
  | cons a xs ih =>
    by_cases ha : p a = true
    · simp only [List.find?, ha, Option.some.injEq] at h
      subst h
      refine ⟨0, by simp, by intro j y hj; omega, by simp [updateFound, ha], ?_⟩
      intro j hj
      cases j with
      | zero => exact absurd rfl hj
      | succ j => simp [updateFound, ha]
    · simp only [Bool.not_eq_true] at ha
      simp only [List.find?, ha] at h
      obtain ⟨i, h1, h2, h3, h4⟩ := ih h
      refine ⟨i + 1, by simpa using h1, ?_, by simpa [updateFound, ha] using h3, ?_⟩
      · intro j y hj hy
        cases j with
        | zero =>
          simp only [List.getElem?_cons_zero, Option.some.injEq] at hy
          subst hy
          exact ha
        | succ j =>
          simp only [List.getElem?_cons_succ] at hy
          exact h2 j y (by omega) hy
      · intro j hj
        cases j with
        | zero => simp [updateFound, ha]
        | succ j =>
          simp only [updateFound, ha, Bool.false_eq_true, if_false, List.getElem?_cons_succ]
          exact h4 j (by omega)

/-- After the assignment, a lookup by a predicate the assignment preserves finds the
assigned element. -/
theorem find_updateFound {α : Type} (p : α → Bool) (f : α → α) (xs : List α) (x : α)
    (h : xs.find? p = some x) (hf : p (f x) = true) :
    (updateFound p f xs).find? p = some (f x) := by
  induction xs with
  | nil => simp at h
  | cons a xs ih =>
    by_cases ha : p a = true
    · simp only [List.find?, ha, Option.some.injEq] at h
      subst h
      simp [updateFound, ha, List.find?, hf]
    · simp only [Bool.not_eq_true] at ha
      simp only [List.find?, ha] at h
      simp [updateFound, ha, List.find?, ih h]

/-- Where keys are unique, assigning to the element found by key is a map that
changes the elements with that key and no other. -/
theorem updateFound_eq_map {α κ : Type} [DecidableEq κ] (key : α → κ) (k : κ)
    (p : α → Bool) (f : α → α) (hp : ∀ x, p x = true ↔ key x = k) (xs : List α)
    (h : (xs.map key).Nodup) :
    updateFound p f xs = xs.map (fun x => if key x = k then f x else x) := by
  induction xs with
  | nil => rfl
  | cons x xs ih =>
    rw [List.map_cons, List.nodup_cons] at h
    by_cases hx : key x = k
    · have hpx : p x = true := (hp x).2 hx
      have hrest : xs.map (fun y => if key y = k then f y else y) = xs := by
        conv_rhs => rw [← List.map_id xs]
        apply List.map_congr_left
        intro y hy
        have : key y ≠ k := by
          intro hyk
          exact h.1 (by rw [hx, ← hyk]; exact List.mem_map_of_mem key hy)
        simp [this]
      simp [updateFound, hpx, hx, hrest]
    · have hpx : p x = false := by
        cases hq : p x with
        | false => rfl
        | true => exact absurd ((hp x).1 hq) hx
      simp [updateFound, hpx, hx, ih h.2]

/-! ## Rounding to a double -/

/-- Rounding does not go below the floor. -/
theorem floor_le_roundHalfEven (z : ℚ) : ⌊z⌋ ≤ roundHalfEven z := by
  unfold roundHalfEven
  split_ifs <;> omega

/-- Rounding does not go above the floor plus one. -/
theorem roundHalfEven_le_floor_succ (z : ℚ) : roundHalfEven z ≤ ⌊z⌋ + 1 := by
  unfold roundHalfEven
  split_ifs <;> omega

/-- An integer rounds to itself. -/
theorem roundHalfEven_intCast (m : ℤ) : roundHalfEven (m : ℚ) = m := by
  unfold roundHalfEven
  simp

/-- Rounding does not go below an integer that is not above the number. -/
theorem le_roundHalfEven (m : ℤ) (z : ℚ) (h : (m : ℚ) ≤ z) : m ≤ roundHalfEven z :=
  le_trans (Int.le_floor.mpr h) (floor_le_roundHalfEven z)

/-- Rounding does not go above an integer that is not below the number. -/
theorem roundHalfEven_le (m : ℤ) (z : ℚ) (h : z ≤ (m : ℚ)) : roundHalfEven z ≤ m := by
  by_cases hz : z = (m : ℚ)
  · rw [hz, roundHalfEven_intCast]
  · have hlt : z < (m : ℚ) := lt_of_le_of_ne h hz
    have : ⌊z⌋ < m := Int.floor_lt.mpr hlt
    have := roundHalfEven_le_floor_succ z
    omega

/-- The spacing is positive. -/
theorem ulp_pos (x : ℚ) : 0 < ulp x := by
  unfold ulp
  positivity


/-- A power of two is positive. -/
theorem two_zpow_pos (k : ℤ) : (0 : ℚ) < (2 : ℚ) ^ k := by positivity

/-- A natural power of two times a power of two. -/
theorem two_pow_mul_zpow (t : ℕ) (k : ℤ) :
    ((2 ^ t : ℤ) : ℚ) * (2 : ℚ) ^ k = (2 : ℚ) ^ ((t : ℤ) + k) := by
  push_cast
  rw [← zpow_natCast, ← zpow_add₀ (by norm_num)]

/-- The spacing at `x`, from the binade `x` lies in. -/
theorem ulp_of_bounds (x : ℚ) (E : ℤ) (h1 : (2 : ℚ) ^ E ≤ |x|) (h2 : |x| < (2 : ℚ) ^ (E + 1)) :
    ulp x = (2 : ℚ) ^ (max E (-1022) - 52) := by
  have hpos : 0 < |x| := lt_of_lt_of_le (two_zpow_pos E) h1
  have hle : E ≤ Int.log 2 |x| :=
    (Int.zpow_le_iff_le_log (by norm_num) hpos).1 (by exact_mod_cast h1)
  have hlt : Int.log 2 |x| < E + 1 :=
    (Int.lt_zpow_iff_log_lt (by norm_num) hpos).1 (by exact_mod_cast h2)
  have : Int.log 2 |x| = E := by omega
  unfold ulp
  rw [this]

/-- The double nearest to `x`, from the binade and the rounded multiple of the spacing. -/
theorem toDouble_of_bounds (x : ℚ) (E n : ℤ) (h1 : (2 : ℚ) ^ E ≤ |x|)
    (h2 : |x| < (2 : ℚ) ^ (E + 1))
    (hn : roundHalfEven (x / (2 : ℚ) ^ (max E (-1022) - 52)) = n) :
    toDouble x = (n : ℚ) * (2 : ℚ) ^ (max E (-1022) - 52) := by
  unfold toDouble
  rw [ulp_of_bounds x E h1 h2, hn]

/-- A number less than half above an integer rounds down to it. -/
theorem roundHalfEven_of_lt (z : ℚ) (n : ℤ) (h1 : (n : ℚ) ≤ z) (h2 : z - n < 1 / 2) :
    roundHalfEven z = n := by
  have hf : ⌊z⌋ = n := by
    rw [Int.floor_eq_iff]
    constructor
    · exact h1
    · linarith
  unfold roundHalfEven
  rw [hf, if_pos h2]

/-- A number more than half above an integer rounds up from it. -/
theorem roundHalfEven_of_gt (z : ℚ) (n : ℤ) (h1 : 1 / 2 < z - n) (h2 : z < n + 1) :
    roundHalfEven z = n + 1 := by
  have hf : ⌊z⌋ = n := by
    rw [Int.floor_eq_iff]
    constructor
    · linarith
    · exact h2
  unfold roundHalfEven
  rw [hf, if_neg (by linarith), if_pos h1]

/-- A number half above an integer rounds to the even one of the two neighbours. -/
theorem roundHalfEven_of_tie (z : ℚ) (n : ℤ) (h : z = n + 1 / 2) :
    roundHalfEven z = if n % 2 = 0 then n else n + 1 := by
  have hf : ⌊z⌋ = n := by
    rw [Int.floor_eq_iff]
    constructor <;> rw [h] <;> linarith
  unfold roundHalfEven
  rw [hf, if_neg (by rw [h]; norm_num), if_neg (by rw [h]; norm_num)]

/-- Zero is its own double. -/
theorem toDouble_zero : toDouble 0 = 0 := by
  unfold toDouble
  simp [roundHalfEven]

/-- Zero is a double. -/
theorem isDouble_zero : isDouble 0 := ⟨0, 0, by simp, by simp, by norm_num⟩

/-- Rounding gives a double. -/
theorem isDouble_toDouble (x : ℚ) : isDouble (toDouble x) := by
  refine ⟨roundHalfEven (x / ulp x), max (Int.log 2 |x|) (-1022) - 52, rfl, ?_, ?_⟩
  · have hq := ulp_pos x
    have hbound : |x| / ulp x ≤ ((2 ^ 53 : ℤ) : ℚ) := by
      rw [div_le_iff₀ hq]
      have h1 : |x| < (2 : ℚ) ^ (Int.log 2 |x| + 1) := by
        have := Int.lt_zpow_succ_log_self (b := 2) (by norm_num) |x|
        exact_mod_cast this
      have h2 : (2 : ℚ) ^ (Int.log 2 |x| + 1) ≤ (2 : ℚ) ^ (max (Int.log 2 |x|) (-1022) + 1) :=
        zpow_le_zpow_right₀ (by norm_num) (by omega)
      have h3 : ((2 ^ 53 : ℤ) : ℚ) * ulp x = (2 : ℚ) ^ (max (Int.log 2 |x|) (-1022) + 1) := by
        unfold ulp
        rw [two_pow_mul_zpow]
        congr 1
        push_cast
        ring
      rw [h3]
      linarith
    have habs : |x / ulp x| = |x| / ulp x := by
      rw [abs_div, abs_of_pos hq]
    rw [abs_le]
    constructor
    · have : -((2 ^ 53 : ℤ) : ℚ) ≤ x / ulp x := by
        have := neg_abs_le (x / ulp x)
        rw [habs] at this
        linarith
      have h := le_roundHalfEven (-(2 ^ 53)) (x / ulp x) (by push_cast; push_cast at this; linarith)
      exact h
    · have : x / ulp x ≤ ((2 ^ 53 : ℤ) : ℚ) := by
        have := le_abs_self (x / ulp x)
        rw [habs] at this
        linarith
      exact roundHalfEven_le (2 ^ 53) (x / ulp x) (by push_cast; push_cast at this; linarith)
  · omega

/-- Rounding to nearest never goes below a double that is not above the number. -/
theorem le_toDouble (e y : ℚ) (he : isDouble e) (h0 : 0 ≤ e) (hey : e ≤ y) :
    e ≤ toDouble y := by
  rcases eq_or_lt_of_le (le_trans h0 hey) with hy | hy
  · rw [← hy, toDouble_zero]
    rw [← hy] at hey
    exact hey
  · obtain ⟨n, k, hnk, hn, hk⟩ := he
    have hq := ulp_pos y
    have habs : |y| = y := abs_of_pos hy
    have hlog : (2 : ℚ) ^ Int.log 2 |y| ≤ y := by
      have := Int.zpow_log_le_self (b := 2) (r := |y|) (by norm_num) (by rw [habs]; exact hy)
      rw [habs] at this ⊢
      exact_mod_cast this
    by_cases hcase : max (Int.log 2 |y|) (-1022) - 52 ≤ k
    · -- the double is a multiple of the spacing at `y`
      obtain ⟨t, ht⟩ := Int.eq_ofNat_of_zero_le (show 0 ≤ k - (max (Int.log 2 |y|) (-1022) - 52) by omega)
      have hmul : e = ((n * 2 ^ t : ℤ) : ℚ) * ulp y := by
        unfold ulp
        rw [hnk]
        push_cast
        rw [mul_assoc, ← zpow_natCast, ← zpow_add₀ (by norm_num)]
        congr 2
        omega
      have hdiv : ((n * 2 ^ t : ℤ) : ℚ) ≤ y / ulp y := by
        rw [le_div_iff₀ hq, ← hmul]
        exact hey
      have := le_roundHalfEven _ _ hdiv
      unfold toDouble
      rw [hmul]
      exact mul_le_mul_of_nonneg_right (by exact_mod_cast this) (le_of_lt hq)
    · -- the double lies below the binade of `y`
      have hL : -1022 < Int.log 2 |y| := by omega
      have hK : max (Int.log 2 |y|) (-1022) - 52 = Int.log 2 |y| - 52 := by omega
      have hulp : ulp y = (2 : ℚ) ^ (Int.log 2 |y| - 52) := by
        unfold ulp
        rw [hK]
      have he2 : e ≤ (2 : ℚ) ^ Int.log 2 |y| := by
        have hn' : (n : ℚ) ≤ ((2 ^ 53 : ℤ) : ℚ) := by
          exact_mod_cast le_trans (le_abs_self n) hn
        calc e = (n : ℚ) * (2 : ℚ) ^ k := hnk
          _ ≤ ((2 ^ 53 : ℤ) : ℚ) * (2 : ℚ) ^ k :=
            mul_le_mul_of_nonneg_right hn' (le_of_lt (two_zpow_pos k))
          _ = (2 : ℚ) ^ (53 + k) := by
            rw [two_pow_mul_zpow]
            norm_num
          _ ≤ (2 : ℚ) ^ Int.log 2 |y| := zpow_le_zpow_right₀ (by norm_num) (by omega)
      have hpow : (2 : ℚ) ^ Int.log 2 |y| = ((2 ^ 52 : ℤ) : ℚ) * ulp y := by
        rw [hulp, two_pow_mul_zpow]
        congr 1
        push_cast
        ring
      have hdiv : ((2 ^ 52 : ℤ) : ℚ) ≤ y / ulp y := by
        rw [le_div_iff₀ hq, ← hpow]
        exact hlog
      have := le_roundHalfEven _ _ hdiv
      calc e ≤ (2 : ℚ) ^ Int.log 2 |y| := he2
        _ = ((2 ^ 52 : ℤ) : ℚ) * ulp y := hpow
        _ ≤ toDouble y := by
          unfold toDouble
          exact mul_le_mul_of_nonneg_right (by exact_mod_cast this) (le_of_lt hq)

/-- The double nearest to a number that is not negative is not negative. -/
theorem toDouble_nonneg (y : ℚ) (hy : 0 ≤ y) : 0 ≤ toDouble y :=
  le_toDouble 0 y isDouble_zero (le_refl 0) hy

/-- A double is written with a significand below `2 ^ 53`. -/
theorem isDouble_strict (e : ℚ) (he : isDouble e) :
    ∃ n k : ℤ, e = (n : ℚ) * (2 : ℚ) ^ k ∧ |n| < 2 ^ 53 ∧ -1074 ≤ k := by
  obtain ⟨n, k, hnk, hn, hk⟩ := he
  rcases lt_or_eq_of_le hn with hlt | heq
  · exact ⟨n, k, hnk, hlt, hk⟩
  · have h2 : (2 : ℚ) ^ (k + 1) = 2 * (2 : ℚ) ^ k := by
      rw [zpow_add₀ (by norm_num), zpow_one, mul_comm]
    rcases abs_eq (by norm_num : (0 : ℤ) ≤ 2 ^ 53) |>.mp heq with h | h
    · refine ⟨2 ^ 52, k + 1, ?_, by norm_num, by omega⟩
      rw [hnk, h, h2]
      push_cast
      ring
    · refine ⟨-2 ^ 52, k + 1, ?_, by norm_num, by omega⟩
      rw [hnk, h, h2]
      push_cast
      ring

/-- Rounding leaves a double as it is. -/
theorem toDouble_of_isDouble (e : ℚ) (he : isDouble e) : toDouble e = e := by
  by_cases h0 : e = 0
  · rw [h0, toDouble_zero]
  · obtain ⟨n, k, hnk, hn, hk⟩ := isDouble_strict e he
    have hpos : 0 < |e| := abs_pos.mpr h0
    have hlt : |e| < (2 : ℚ) ^ (53 + k) := by
      have hn' : |(n : ℚ)| < ((2 ^ 53 : ℤ) : ℚ) := by
        have : ((|n| : ℤ) : ℚ) < ((2 ^ 53 : ℤ) : ℚ) := by exact_mod_cast hn
        rwa [Int.cast_abs] at this
      rw [hnk, abs_mul, abs_of_pos (two_zpow_pos k)]
      calc |(n : ℚ)| * (2 : ℚ) ^ k < ((2 ^ 53 : ℤ) : ℚ) * (2 : ℚ) ^ k :=
            mul_lt_mul_of_pos_right hn' (two_zpow_pos k)
        _ = (2 : ℚ) ^ (53 + k) := by
            rw [two_pow_mul_zpow]
            norm_num
    have hL : Int.log 2 |e| < 53 + k :=
      (Int.lt_zpow_iff_log_lt (by norm_num) hpos).1 (by exact_mod_cast hlt)
    obtain ⟨t, ht⟩ := Int.eq_ofNat_of_zero_le
      (show 0 ≤ k - (max (Int.log 2 |e|) (-1022) - 52) by omega)
    have hmul : e = ((n * 2 ^ t : ℤ) : ℚ) * ulp e := by
      have hu : ulp e = (2 : ℚ) ^ (max (Int.log 2 |e|) (-1022) - 52) := rfl
      rw [hu]
      conv_lhs => rw [hnk]
      push_cast
      rw [mul_assoc, ← zpow_natCast, ← zpow_add₀ (by norm_num)]
      congr 2
      omega
    have hq := ulp_pos e
    have hdiv : e / ulp e = ((n * 2 ^ t : ℤ) : ℚ) := by
      rw [div_eq_iff (ne_of_gt hq)]
      exact hmul
    unfold toDouble
    rw [hdiv, roundHalfEven_intCast, ← hmul]

/-! ## JavaScript numbers -/

/-- The JavaScript number for a rational whose nearest double is in range. -/
theorem ofRat_of_toDouble (q d : ℚ) (h : toDouble q = d) (hd : |d| < 2 ^ 1024) :
    JsNum.ofRat q = .num d := by
  unfold JsNum.ofRat
  rw [h, if_neg (not_le.mpr hd)]

/-- A double in range stands for itself. -/
theorem ofRat_of_isDouble (e : ℚ) (he : isDouble e) (hlt : |e| < 2 ^ 1024) :
    JsNum.ofRat e = .num e :=
  ofRat_of_toDouble e e (toDouble_of_isDouble e he) hlt

/-- The number a rational in a number field stands for. -/
theorem toNumber_num (q : ℚ) : (JsNum.num q).toNumber = JsNum.ofRat q := rfl

/-- The sum of two numbers whose doubles and whose rounded sum are in range. -/
theorem add_num_num (a b x y s : ℚ) (ha : toDouble a = x) (hx : |x| < 2 ^ 1024)
    (hb : toDouble b = y) (hy : |y| < 2 ^ 1024) (hs : toDouble (x + y) = s)
    (hs' : |s| < 2 ^ 1024) : (JsNum.num a).add (.num b) = .num s := by
  unfold JsNum.add
  rw [toNumber_num, toNumber_num, ofRat_of_toDouble a x ha hx, ofRat_of_toDouble b y hb hy]
  exact ofRat_of_toDouble (x + y) s hs hs'

/-- The JavaScript number for a rational that is not negative is not negative. -/
theorem ofRat_isNonneg (q : ℚ) (hq : 0 ≤ q) : (JsNum.ofRat q).isNonneg := by
  unfold JsNum.ofRat
  split_ifs with h
  · right
    rw [decide_eq_false (not_lt.mpr hq)]
  · left
    refine ⟨toDouble q, rfl, toDouble_nonneg q hq, isDouble_toDouble q, ?_⟩
    have := not_le.mp h
    exact lt_of_le_of_lt (le_abs_self _) this

/-- Adding a number that is not negative to earnings that are not negative gives earnings
that are not negative and not lower. -/
theorem add_isNonneg (n : JsNum) (f : ℚ) (hn : n.isNonneg) (hf : 0 ≤ f) :
    (n.add (.num f)).isNonneg ∧ n.le (n.add (.num f)) = true := by
  rcases hn with ⟨e, he, h0, hd, hlt⟩ | hinf
  · have hee : (JsNum.num e).toNumber = .num e :=
      ofRat_of_isDouble e hd (by rw [abs_of_nonneg h0]; exact hlt)
    rcases ofRat_isNonneg f hf with ⟨y, hy, hy0, hyd, hylt⟩ | hyinf
    · have hadd : n.add (.num f) = JsNum.ofRat (e + y) := by
        rw [he]
        unfold JsNum.add
        rw [hee, toNumber_num, hy]
      rcases ofRat_isNonneg (e + y) (add_nonneg h0 hy0) with ⟨s, hs, hs0, hsd, hslt⟩ | hsinf
      · have hes : e ≤ s := by
          have hs2 : JsNum.ofRat (e + y) = .num (toDouble (e + y)) := by
            unfold JsNum.ofRat at hs ⊢
            split_ifs at hs ⊢ with h
            rfl
          rw [hs2] at hs
          have : toDouble (e + y) = s := JsNum.num.inj hs
          rw [← this]
          exact le_toDouble e (e + y) hd h0 (by linarith)
        refine ⟨Or.inl ⟨s, by rw [hadd, hs], hs0, hsd, hslt⟩, ?_⟩
        rw [hadd, hs, he]
        unfold JsNum.le
        rw [hee, toNumber_num, ofRat_of_isDouble s hsd (by rw [abs_of_nonneg hs0]; exact hslt)]
        exact decide_eq_true hes
      · refine ⟨Or.inr (by rw [hadd, hsinf]), ?_⟩
        rw [hadd, hsinf, he]
        unfold JsNum.le
        rw [hee]
        rfl
    · have hadd : n.add (.num f) = .inf false := by
        rw [he]
        unfold JsNum.add
        rw [hee, toNumber_num, hyinf]
      refine ⟨Or.inr hadd, ?_⟩
      rw [hadd, he]
      unfold JsNum.le
      rw [hee]
      rfl
  · rcases ofRat_isNonneg f hf with ⟨y, hy, -⟩ | hyinf
    · have hadd : n.add (.num f) = .inf false := by
        rw [hinf]
        unfold JsNum.add
        rw [toNumber_num, hy]
        rfl
      exact ⟨Or.inr hadd, by rw [hadd, hinf]; rfl⟩
    · have hadd : n.add (.num f) = .inf false := by
        rw [hinf]
        unfold JsNum.add
        rw [toNumber_num, hyinf]
        rfl
      exact ⟨Or.inr hadd, by rw [hadd, hinf]; rfl⟩

/-- A number that is not negative is at most itself. -/
theorem le_refl_of_isNonneg (n : JsNum) (hn : n.isNonneg) : n.le n = true := by
  rcases hn with ⟨e, he, h0, hd, hlt⟩ | hinf
  · rw [he]
    unfold JsNum.le
    rw [toNumber_num, ofRat_of_isDouble e hd (by rw [abs_of_nonneg h0]; exact hlt)]
    exact decide_eq_true (le_refl e)
  · rw [hinf]
    rfl

/-- The number 0 is not negative. -/
theorem isNonneg_zero : (JsNum.num 0).isNonneg :=
  Or.inl ⟨0, rfl, le_refl 0, isDouble_zero, by norm_num⟩

/-! ## The doubles of some decimals -/

/-- The double for 8.1. -/
theorem toDouble_81_10 : toDouble (81 / 10) = 4559894622712627 / 2 ^ 49 := by
  rw [toDouble_of_bounds (81 / 10) 3 4559894622712627 (by norm_num [abs_of_pos])
    (by norm_num [abs_of_pos])
    (roundHalfEven_of_lt _ _ (by norm_num [zpow_neg]) (by norm_num [zpow_neg]))]
  norm_num [zpow_neg]

/-- The double for 16.2. -/
theorem toDouble_81_5 : toDouble (81 / 5) = 4559894622712627 / 2 ^ 48 := by
  rw [toDouble_of_bounds (81 / 5) 4 4559894622712627 (by norm_num [abs_of_pos])
    (by norm_num [abs_of_pos])
    (roundHalfEven_of_lt _ _ (by norm_num [zpow_neg]) (by norm_num [zpow_neg]))]
  norm_num [zpow_neg]

/-- The doubles for 16.2 and 8.1 add up to 24.299999999999997: the exact sum lies half-way
between two doubles and goes to the even one. -/
theorem toDouble_sum :
    toDouble (4559894622712627 / 2 ^ 48 + 4559894622712627 / 2 ^ 49) =
      6839841934068940 / 2 ^ 48 := by
  rw [toDouble_of_bounds _ 4 6839841934068940 (by norm_num [abs_of_pos])
    (by norm_num [abs_of_pos])
    (by rw [roundHalfEven_of_tie _ 6839841934068940 (by norm_num [zpow_neg])]; norm_num)]
  norm_num [zpow_neg]

/-- The double for 24.3. -/
theorem toDouble_243_10 : toDouble (243 / 10) = 6839841934068941 / 2 ^ 48 := by
  rw [toDouble_of_bounds _ (4) 6839841934068941
    (by norm_num [abs_of_pos, zpow_neg])
    (by norm_num [abs_of_pos, zpow_neg])
    (by rw [roundHalfEven_of_gt _ 6839841934068940
      (by norm_num [zpow_neg])
      (by norm_num [zpow_neg])]; norm_num)]
  norm_num [zpow_neg]

/-- The double 24.299999999999997 and the double for 8.1 add up to the double for 32.4. -/
theorem toDouble_sum4 :
    toDouble (6839841934068940 / 2 ^ 48 + 4559894622712627 / 2 ^ 49) =
      4559894622712627 / 2 ^ 47 := by
  rw [toDouble_of_bounds _ (5) 4559894622712627
    (by norm_num [abs_of_pos, zpow_neg])
    (by norm_num [abs_of_pos, zpow_neg])
    (by rw [roundHalfEven_of_gt _ 4559894622712626
      (by norm_num [zpow_neg])
      (by norm_num [zpow_neg])]; norm_num)]
  norm_num [zpow_neg]

/-- The doubles for 32.4 and 8.1 add up to 40.5. -/
theorem toDouble_sum5 :
    toDouble (4559894622712627 / 2 ^ 47 + 4559894622712627 / 2 ^ 49) =
      81 / 2 := by
  rw [toDouble_of_bounds _ (5) 5699868278390784
    (by norm_num [abs_of_pos, zpow_neg])
    (by norm_num [abs_of_pos, zpow_neg])
    (by rw [roundHalfEven_of_gt _ 5699868278390783
      (by norm_num [zpow_neg])
      (by norm_num [zpow_neg])]; norm_num)]
  norm_num [zpow_neg]

/-- The doubles for 40.5 and 8.1 add up to the double for 48.6. -/
theorem toDouble_sum6 :
    toDouble (81 / 2 + 4559894622712627 / 2 ^ 49) =
      6839841934068941 / 2 ^ 47 := by
  rw [toDouble_of_bounds _ (5) 6839841934068941
    (by norm_num [abs_of_pos, zpow_neg])
    (by norm_num [abs_of_pos, zpow_neg])
    (by rw [roundHalfEven_of_gt _ 6839841934068940
      (by norm_num [zpow_neg])
      (by norm_num [zpow_neg])]; norm_num)]
  norm_num [zpow_neg]

/-- Six times the double for 8.1 is rounded to 48.599999999999994. -/
theorem toDouble_6_times :
    toDouble (6 * (4559894622712627 / 2 ^ 49)) =
      6839841934068940 / 2 ^ 47 := by
  rw [toDouble_of_bounds _ (5) 6839841934068940
    (by norm_num [abs_of_pos, zpow_neg])
    (by norm_num [abs_of_pos, zpow_neg])
    (by rw [roundHalfEven_of_tie _ 6839841934068940 (by norm_num [zpow_neg])]; norm_num)]
  norm_num [zpow_neg]

/-- The double for 0.1. -/
theorem toDouble_1_10 : toDouble (1 / 10) = 7205759403792794 / 2 ^ 56 := by
  rw [toDouble_of_bounds _ (-4) 7205759403792794
    (by norm_num [abs_of_pos, zpow_neg])
    (by norm_num [abs_of_pos, zpow_neg])
    (by rw [roundHalfEven_of_gt _ 7205759403792793
      (by norm_num [zpow_neg])
      (by norm_num [zpow_neg])]; norm_num)]
  norm_num [zpow_neg]

/-- The double for 0.2. -/
theorem toDouble_1_5 : toDouble (1 / 5) = 7205759403792794 / 2 ^ 55 := by
  rw [toDouble_of_bounds _ (-3) 7205759403792794
    (by norm_num [abs_of_pos, zpow_neg])
    (by norm_num [abs_of_pos, zpow_neg])
    (by rw [roundHalfEven_of_gt _ 7205759403792793
      (by norm_num [zpow_neg])
      (by norm_num [zpow_neg])]; norm_num)]
  norm_num [zpow_neg]

/-- The doubles for 0.1 and 0.2 add up to 0.30000000000000004. -/
theorem toDouble_sum_dimes :
    toDouble (7205759403792794 / 2 ^ 56 + 7205759403792794 / 2 ^ 55) =
      5404319552844596 / 2 ^ 54 := by
  rw [toDouble_of_bounds _ (-2) 5404319552844596
    (by norm_num [abs_of_pos, zpow_neg])
    (by norm_num [abs_of_pos, zpow_neg])
    (by rw [roundHalfEven_of_tie _ 5404319552844595 (by norm_num [zpow_neg])]; norm_num)]
  norm_num [zpow_neg]

/-- A number written as a significand of at most 53 bits times a power of two is a
double. -/
theorem isDouble_of_eq (x : ℚ) (n k : ℤ) (h : x = (n : ℚ) * (2 : ℚ) ^ k) (hn : |n| ≤ 2 ^ 53)
    (hk : -1074 ≤ k) : isDouble x := ⟨n, k, h, hn, hk⟩

/-- The double for 8.1 is a double. -/
theorem isDouble_d81 : isDouble (4559894622712627 / 2 ^ 49) :=
  isDouble_of_eq _ 4559894622712627 (-49) (by norm_num [zpow_neg]) (by norm_num) (by norm_num)

/-- The double for 16.2 is a double. -/
theorem isDouble_d162 : isDouble (4559894622712627 / 2 ^ 48) :=
  isDouble_of_eq _ 4559894622712627 (-48) (by norm_num [zpow_neg]) (by norm_num) (by norm_num)

/-! ## Completing a ride -/

/-- C1, amended. In a store with unique user ids, a permitted status update to
'completed' of a ride whose `driverId` is the id of a stored user succeeds and replaces
that user's earnings by the JavaScript sum of the earnings and the ride's fare: for
numbers in the range of the doubles it is the sum of the two doubles rounded to the
nearest double, which is the exact sum where the earnings, the fare and their sum are
doubles.  Every other field of that user and every other user stay as they were. -/
theorem completed_credits_assigned_driver (db : Db) (caller : Caller) (id now : String)
    (ride : Ride) (d : String)
    (hids : (db.users.map (fun u => u.id)).Nodup)
    (hride : db.rides.find? (fun r => r.id == id) = some ride)
    (hdriver : ride.driverId = some d)
    (hstored : ∃ u ∈ db.users, u.id = d)
    (hperm : caller.role = "admin" ∨ (caller.role = "driver" ∧ caller.id = d)) :
    (∃ reply, (putRideStatus db caller id "completed" now).1 = .ok 200 reply) ∧
    (putRideStatus db caller id "completed" now).2.users =
      db.users.map (fun u =>
        if u.id = d then { u with earnings := u.earnings.add (.num ride.fare) } else u) ∧
    ∃ (i : Nat) (u : User), db.users[i]? = some u ∧ u.id = d ∧
      (putRideStatus db caller id "completed" now).2.users[i]? =
        some { u with earnings := u.earnings.add (.num ride.fare) } ∧
      (∀ e : ℚ, u.earnings = .num e →
        |toDouble e| < 2 ^ 1024 → |toDouble ride.fare| < 2 ^ 1024 →
        |toDouble (toDouble e + toDouble ride.fare)| < 2 ^ 1024 →
        u.earnings.add (.num ride.fare) =
          .num (toDouble (toDouble e + toDouble ride.fare))) ∧
      (∀ e : ℚ, u.earnings = .num e → isDouble e → isDouble ride.fare →
        isDouble (e + ride.fare) → |e| < 2 ^ 1024 → |ride.fare| < 2 ^ 1024 →
        |e + ride.fare| < 2 ^ 1024 →
        u.earnings.add (.num ride.fare) = .num (e + ride.fare)) ∧
      ∀ j : Nat, j ≠ i →
        (putRideStatus db caller id "completed" now).2.users[j]? = db.users[j]? := by
  have hauth : ¬ (caller.role ≠ "admin" ∧
      (caller.role ≠ "driver" ∨ ride.driverId ≠ some caller.id)) := by
    rcases hperm with h | ⟨h1, h2⟩
    · simp [h]
    · simp [h1, h2, hdriver]
  have hrun : putRideStatus db caller id "completed" now =
      (.ok 200 ⟨"Ride status updated", { ride with status := "completed", endTime := some now }⟩,
        { db with
          rides := updateFound (fun r => r.id == id)
            (fun r => { r with status := "completed", endTime := some now }) db.rides
          users := updateFound (fun u => some u.id == ride.driverId)
            (fun u => { u with earnings := u.earnings.add (.num ride.fare) }) db.users }) := by
    unfold putRideStatus
    rw [hride]
    simp only []
    rw [if_neg hauth, if_pos trivial]
  have husers : (putRideStatus db caller id "completed" now).2.users =
      db.users.map (fun u =>
        if u.id = d then { u with earnings := u.earnings.add (.num ride.fare) } else u) := by
    rw [hrun, hdriver]
    exact updateFound_eq_map (fun u : User => u.id) d (fun u => some u.id == some d) _
      (by intro u; simp) db.users hids
  refine ⟨?_, husers, ?_⟩
  · rw [hrun]
    exact ⟨_, rfl⟩
  · obtain ⟨u, hu, hud⟩ := hstored
    obtain ⟨i, hi, hiu⟩ := List.getElem_of_mem hu
    have hget : db.users[i]? = some u := by rw [List.getElem?_eq_getElem hi, hiu]
    refine ⟨i, u, hget, hud, ?_, ?_, ?_, ?_⟩
    · rw [husers, List.getElem?_map, hget]
      simp [hud]
    · intro e he h1 h2 h3
      rw [he]
      exact add_num_num e ride.fare _ _ _ rfl h1 rfl h2 rfl h3
    · intro e he hde hdf hds h1 h2 h3
      rw [he]
      exact add_num_num e ride.fare e ride.fare (e + ride.fare) (toDouble_of_isDouble e hde) h1
        (toDouble_of_isDouble _ hdf) h2 (toDouble_of_isDouble _ hds) h3
    · intro j hj
      rw [husers, List.getElem?_map]
      cases hjv : db.users[j]? with
      | none => rfl
      | some v =>
        have hvd : v.id ≠ d := by
          intro hvd
          have hj1 : j < db.users.length := by
            by_contra hlt
            rw [List.getElem?_eq_none (by omega)] at hjv
            exact absurd hjv (by simp)
          have hjeq : db.users[j] = v := by
            rw [List.getElem?_eq_getElem hj1] at hjv
            exact Option.some.inj hjv
          have hj2 : j < (db.users.map (fun u => u.id)).length := by simpa using hj1
          have hi2 : i < (db.users.map (fun u => u.id)).length := by simpa using hi
          have hsame : (db.users.map (fun u => u.id))[j] = (db.users.map (fun u => u.id))[i] := by
            simp [hjeq, hiu, hvd, hud]
          exact hj ((@List.Nodup.getElem_inj_iff _ _ hids j hj2 i hi2).1 hsame)
        simp [hvd]

theorem completed_credits_assigned_driver_witness :
    (exDbAccepted.users.map (fun u => u.id)).Nodup ∧
    exDbAccepted.rides.find? (fun r => r.id == "r-1") = some exRideAccepted ∧
    (putRideStatus exDbAccepted exDriverCaller "r-1" "completed" "2024-02-05").2.users =
      [exPassenger, { exDriver with earnings := .num (45 / 2) }, exDriver2] := by
  refine ⟨by decide, by rfl, ?_⟩
  rw [(completed_credits_assigned_driver exDbAccepted exDriverCaller "r-1" "2024-02-05"
    exRideAccepted "u-dan" (by decide) (by rfl) rfl ⟨exDriver, by simp [exDbAccepted, exDb], rfl⟩
    (Or.inr ⟨rfl, rfl⟩)).2.1]
  have hadd : (JsNum.num 10).add (.num (25 / 2)) = .num (45 / 2) :=
    add_num_num 10 (25 / 2) 10 (25 / 2) (45 / 2)
      (toDouble_of_isDouble _ (isDouble_of_eq _ 10 0 (by norm_num) (by norm_num) (by norm_num)))
      (by norm_num [abs_of_pos])
      (toDouble_of_isDouble _
        (isDouble_of_eq _ 25 (-1) (by norm_num [zpow_neg]) (by norm_num) (by norm_num)))
      (by norm_num [abs_of_pos])
      (by
        have h : (10 + 25 / 2 : ℚ) = 45 / 2 := by norm_num
        rw [h]
        exact toDouble_of_isDouble _
          (isDouble_of_eq _ 45 (-1) (by norm_num [zpow_neg]) (by norm_num) (by norm_num)))
      (by norm_num [abs_of_pos])
  simp [exDbAccepted, exDb, exPassenger, exDriver, exDriver2, exRideAccepted, exRide, hadd]

/-! ## Accepting a ride -/

/-- The three failing paths and the succeeding path of `putRideAccept`, case by case. -/
theorem putRideAccept_cases (db : Db) (caller : Caller) (id now : String) :
    (caller.role ≠ "driver" →
      putRideAccept db caller id now = (.error 403 "Only drivers can accept rides", db)) ∧
    (caller.role = "driver" → db.rides.find? (fun r => r.id == id) = none →
      putRideAccept db caller id now = (.error 404 "Ride not found", db)) ∧
    (caller.role = "driver" → ∀ ride : Ride, db.rides.find? (fun r => r.id == id) = some ride →
      ride.status ≠ "pending" →
      putRideAccept db caller id now = (.error 400 "Ride is not available", db)) ∧
    (caller.role = "driver" → ∀ ride : Ride, db.rides.find? (fun r => r.id == id) = some ride →
      ride.status = "pending" →
      putRideAccept db caller id now =
        (.ok 200 ⟨"Ride accepted",
            { ride with driverId := some caller.id, status := "accepted", startTime := some now }⟩,
          { db with rides := (updateFound (fun r => r.id == id)
              (fun r => { r with driverId := some caller.id, status := "accepted",
                                 startTime := some now }) db.rides) })) := by
  refine ⟨?_, ?_, ?_, ?_⟩
  · intro h
    unfold putRideAccept
    rw [if_pos h]
  · intro h hnone
    unfold putRideAccept
    rw [if_neg (not_not.mpr h), hnone]
  · intro h ride hsome hst
    unfold putRideAccept
    rw [if_neg (not_not.mpr h), hsome]
    simp only []
    rw [if_pos hst]
  · intro h ride hsome hst
    unfold putRideAccept
    rw [if_neg (not_not.mpr h), hsome]
    simp only []
    rw [if_neg (not_not.mpr hst)]

/-- A successful accept comes from the succeeding path only. -/
theorem putRideAccept_ok_iff (db : Db) (caller : Caller) (id now : String) :
    (∃ code reply, (putRideAccept db caller id now).1 = .ok code reply) ↔
      (caller.role = "driver" ∧
        ∃ ride : Ride, db.rides.find? (fun r => r.id == id) = some ride ∧
          ride.status = "pending") := by
  obtain ⟨h403, h404, h400, h200⟩ := putRideAccept_cases db caller id now
  constructor
  · rintro ⟨code, reply, hok⟩
    by_cases hrole : caller.role = "driver"
    · refine ⟨hrole, ?_⟩
      cases hfind : db.rides.find? (fun r => r.id == id) with
      | none =>
        rw [h404 hrole hfind] at hok
        exact absurd hok (by simp)
      | some ride =>
        by_cases hst : ride.status = "pending"
        · exact ⟨ride, rfl, hst⟩
        · rw [h400 hrole ride hfind hst] at hok
          exact absurd hok (by simp)
    · rw [h403 hrole] at hok
      exact absurd hok (by simp)
  · rintro ⟨hrole, ride, hfind, hst⟩
    rw [h200 hrole ride hfind hst]
    exact ⟨_, _, rfl⟩

/-- C2. Two accept requests by drivers on a pending ride, one right after the other:
the first succeeds; the second answers 400 'Ride is not available' and changes nothing,
so the ride keeps the `driverId`, `status` and `startTime` the first acceptance set. -/
theorem second_accept_conflicts (db : Db) (first second : Caller) (id now now' : String)
    (ride : Ride)
    (hride : db.rides.find? (fun r => r.id == id) = some ride)
    (hpending : ride.status = "pending")
    (hfirst : first.role = "driver") (hsecond : second.role = "driver") :
    (∃ reply, (putRideAccept db first id now).1 = .ok 200 reply) ∧
    (putRideAccept (putRideAccept db first id now).2 second id now').1 =
      .error 400 "Ride is not available" ∧
    (putRideAccept (putRideAccept db first id now).2 second id now').2 =
      (putRideAccept db first id now).2 ∧
    ∃ r : Ride,
      (putRideAccept (putRideAccept db first id now).2 second id now').2.rides.find?
        (fun r => r.id == id) = some r ∧
      r.driverId = some first.id ∧ r.status = "accepted" ∧ r.startTime = some now := by
  have hrun := (putRideAccept_cases db first id now).2.2.2 hfirst ride hride hpending
  have hid : ride.id = id := by
    have := List.find?_some hride
    simpa using this
  have hfind' : (putRideAccept db first id now).2.rides.find? (fun r => r.id == id) =
      some { ride with driverId := some first.id, status := "accepted",
                       startTime := some now } := by
    rw [hrun]
    exact find_updateFound (fun r => r.id == id)
      (fun r => { r with driverId := some first.id, status := "accepted",
                         startTime := some now }) db.rides ride hride (by simpa using hid)
  have hrun' := (putRideAccept_cases (putRideAccept db first id now).2 second id now').2.2.1
    hsecond _ hfind' (by simp)
  refine ⟨?_, ?_, ?_, ?_⟩
  · rw [hrun]
    exact ⟨_, rfl⟩
  · rw [hrun']
  · rw [hrun']
  · rw [hrun']
    exact ⟨_, hfind', rfl, rfl, rfl⟩

theorem second_accept_conflicts_witness :
    exDb.rides.find? (fun r => r.id == "r-1") = some exRide ∧
    (putRideAccept exDb exDriverCaller "r-1" "2024-02-02").2 = exDbAccepted ∧
    putRideAccept exDbAccepted exDriver2Caller "r-1" "2024-02-03" =
      (.error 400 "Ride is not available", exDbAccepted) := by
  have h := second_accept_conflicts exDb exDriverCaller exDriver2Caller "r-1" "2024-02-02"
    "2024-02-03" exRide (by rfl) rfl rfl rfl
  have h1 : (putRideAccept exDb exDriverCaller "r-1" "2024-02-02").2 = exDbAccepted := by rfl
  rw [h1] at h
  exact ⟨by rfl, h1, Prod.ext h.2.1 h.2.2.1⟩

/-- C3. Accept succeeds exactly when the caller is a driver and the ride looked up by
the given id exists and is pending.  It answers 403 to a caller who is not a driver, 404
to a driver naming an id no ride has, 400 to a driver naming a ride that is not pending;
a failing accept leaves the whole store, the ride ledger included, unchanged. -/
theorem accept_succeeds_iff (db : Db) (caller : Caller) (id now : String) :
    ((∃ code reply, (putRideAccept db caller id now).1 = .ok code reply) ↔
      (caller.role = "driver" ∧
        ∃ ride : Ride, db.rides.find? (fun r => r.id == id) = some ride ∧
          ride.status = "pending")) ∧
    (db.rides.find? (fun r => r.id == id) = none ↔ ∀ r ∈ db.rides, r.id ≠ id) ∧
    (caller.role ≠ "driver" →
      (putRideAccept db caller id now).1 = .error 403 "Only drivers can accept rides") ∧
    (caller.role = "driver" → (∀ r ∈ db.rides, r.id ≠ id) →
      (putRideAccept db caller id now).1 = .error 404 "Ride not found") ∧
    (caller.role = "driver" → ∀ ride : Ride,
      db.rides.find? (fun r => r.id == id) = some ride → ride.status ≠ "pending" →
      (putRideAccept db caller id now).1 = .error 400 "Ride is not available") ∧
    (∀ code msg, (putRideAccept db caller id now).1 = .error code msg →
      (putRideAccept db caller id now).2 = db) := by
  obtain ⟨h403, h404, h400, h200⟩ := putRideAccept_cases db caller id now
  have hnone : db.rides.find? (fun r => r.id == id) = none ↔ ∀ r ∈ db.rides, r.id ≠ id := by
    simp [List.find?_eq_none]
  refine ⟨putRideAccept_ok_iff db caller id now, hnone, ?_, ?_, ?_, ?_⟩
  · intro hrole
    rw [h403 hrole]
  · intro hrole hno
    rw [h404 hrole (hnone.2 hno)]
  · intro hrole ride hfind hst
    rw [h400 hrole ride hfind hst]
  · intro code msg herr
    by_cases hrole : caller.role = "driver"
    · cases hfind : db.rides.find? (fun r => r.id == id) with
      | none => rw [h404 hrole hfind]
      | some ride =>
        by_cases hst : ride.status = "pending"
        · rw [h200 hrole ride hfind hst] at herr
          exact absurd herr (by simp)
        · rw [h400 hrole ride hfind hst]
    · rw [h403 hrole]

/-- C4. After a successful accept, the ride the lookup found (the first ride of the
ledger with the given id) has `driverId` equal to the caller's id, status 'accepted' and
`startTime` stamped; every other field of it is as before, every other position of the
ledger holds the ride it held, and users, payments and settings are untouched. -/
theorem accept_sets_driver_and_status (db : Db) (caller : Caller) (id now : String)
    (code : Nat) (reply : RideReply)
    (hok : (putRideAccept db caller id now).1 = .ok code reply) :
    ∃ (i : Nat) (r : Ride),
      db.rides[i]? = some r ∧ r.id = id ∧
      (∀ (j : Nat) (y : Ride), j < i → db.rides[j]? = some y → y.id ≠ id) ∧
      (putRideAccept db caller id now).2.rides[i]? = some reply.ride ∧
      reply.ride.driverId = some caller.id ∧ reply.ride.status = "accepted" ∧
      reply.ride.startTime = some now ∧
      reply.ride =
        { r with driverId := some caller.id, status := "accepted", startTime := some now } ∧
      reply.ride.id = r.id ∧ reply.ride.passengerId = r.passengerId ∧
      reply.ride.fare = r.fare ∧ reply.ride.distance = r.distance ∧
      reply.ride.eta = r.eta ∧ reply.ride.paymentStatus = r.paymentStatus ∧
      reply.ride.endTime = r.endTime ∧
      (∀ j : Nat, j ≠ i → (putRideAccept db caller id now).2.rides[j]? = db.rides[j]?) ∧
      (putRideAccept db caller id now).2.rides.length = db.rides.length ∧
      (putRideAccept db caller id now).2.users = db.users ∧
      (putRideAccept db caller id now).2.payments = db.payments ∧
      (putRideAccept db caller id now).2.settings = db.settings := by
  obtain ⟨hrole, ride, hfind, hst⟩ :=
    (putRideAccept_ok_iff db caller id now).1 ⟨code, reply, hok⟩
  have hrun := (putRideAccept_cases db caller id now).2.2.2 hrole ride hfind hst
  have hreply : reply.ride =
      { ride with driverId := some caller.id, status := "accepted", startTime := some now } := by
    rw [hrun] at hok
    simp only [Response.ok.injEq] at hok
    rw [← hok.2]
  obtain ⟨i, h1, h2, h3, h4⟩ := updateFound_of_find_some (fun r => r.id == id)
    (fun r => { r with driverId := some caller.id, status := "accepted",
                       startTime := some now }) db.rides ride hfind
  have hid : ride.id = id := by
    have := List.find?_some hfind
    simpa using this
  refine ⟨i, ride, h1, hid, ?_, ?_, ?_, ?_, ?_, hreply, ?_, ?_, ?_, ?_, ?_, ?_, ?_, ?_, ?_, ?_,
    ?_, ?_⟩
  · intro j y hj hy
    simpa using h2 j y hj hy
  · rw [hrun, hreply]
    exact h3
  all_goals first
    | (rw [hrun]; exact h4)
    | (rw [hrun]; exact updateFound_length _ _ _)
    | rw [hreply]
    | rw [hrun]

theorem accept_sets_driver_and_status_witness :
    (putRideAccept exDb exDriverCaller "r-1" "2024-02-02").1 =
      .ok 200 ⟨"Ride accepted", exRideAccepted⟩ ∧
    ∃ (i : Nat) (r : Ride), exDb.rides[i]? = some r ∧ r.id = "r-1" ∧
      (putRideAccept exDb exDriverCaller "r-1" "2024-02-02").2.rides[i]? =
        some exRideAccepted ∧
      ∀ j : Nat, j ≠ i →
        (putRideAccept exDb exDriverCaller "r-1" "2024-02-02").2.rides[j]? = exDb.rides[j]? := by
  have hok : (putRideAccept exDb exDriverCaller "r-1" "2024-02-02").1 =
      .ok 200 ⟨"Ride accepted", exRideAccepted⟩ := by rfl
  obtain ⟨i, r, h1, h2, -, h4, -, -, -, -, -, -, -, -, -, -, -, h5, -⟩ :=
    accept_sets_driver_and_status exDb exDriverCaller "r-1" "2024-02-02" 200
      ⟨"Ride accepted", exRideAccepted⟩ hok
  exact ⟨hok, i, r, h1, h2, h4, h5⟩

/-! ## Booking a ride: fare and eta -/

/-- A booking whose three required fields are present and non-empty is stored. -/
theorem postRides_ok (db : Db) (caller : Caller) (body : RideBody) (uuid now : String)
    (rDistance rEta : ℚ) (pickup dest vt : String)
    (hpickup : body.pickupLocation = some pickup) (hdest : body.destination = some dest)
    (hvt : body.vehicleType = some vt)
    (hne : pickup ≠ "" ∧ dest ≠ "" ∧ vt ≠ "") :
    ∃ reply : RideReply,
      postRides db caller body uuid now rDistance rEta =
        (.ok 201 reply, { db with rides := db.rides ++ [reply.ride] }) ∧
      reply.ride.fare = toFixed2 (baseFare + distance rDistance * perKmRate vt) ∧
      reply.ride.eta = eta rEta ∧ reply.ride.vehicleType = vt ∧
      reply.ride.status = "pending" ∧ reply.ride.driverId = none := by
  unfold postRides
  rw [hpickup, hdest, hvt]
  simp only []
  rw [if_neg (by simp [hne.1, hne.2.1, hne.2.2])]
  exact ⟨_, rfl, rfl, rfl, rfl, rfl, rfl⟩

/-- On a non-negative amount below `10^21`, `toFixed2` is the spec's rounding. -/
theorem toFixed2_eq_round (x : ℚ) (h0 : 0 ≤ x) (h1 : x < 10 ^ 21) :
    toFixed2 x = roundTo2Decimals x := by
  unfold toFixed2 roundTo2Decimals
  rw [if_neg (not_lt.mpr h0), if_neg (not_le.mpr h1), round_eq]

/-- Rounding to hundredths stays between two bounds that are themselves hundredths. -/
theorem toFixed2_between (x : ℚ) (a b : ℤ) (h0 : 0 ≤ x) (h1 : x < 10 ^ 21)
    (ha : (a : ℚ) / 100 ≤ x) (hb : x ≤ (b : ℚ) / 100) :
    (a : ℚ) / 100 ≤ toFixed2 x ∧ toFixed2 x ≤ (b : ℚ) / 100 := by
  unfold toFixed2
  rw [if_neg (not_lt.mpr h0), if_neg (not_le.mpr h1)]
  have hfa : a ≤ ⌊x * 100 + 1 / 2⌋ := by
    apply Int.le_floor.mpr
    linarith
  have hfb : ⌊x * 100 + 1 / 2⌋ ≤ b := by
    have : ⌊x * 100 + 1 / 2⌋ < b + 1 := by
      apply Int.floor_lt.mpr
      push_cast
      linarith
    omega
  have hfa' : (a : ℚ) ≤ ((⌊x * 100 + 1 / 2⌋ : ℤ) : ℚ) := by exact_mod_cast hfa
  have hfb' : ((⌊x * 100 + 1 / 2⌋ : ℤ) : ℚ) ≤ (b : ℚ) := by exact_mod_cast hfb
  constructor
  · exact div_le_div_of_nonneg_right hfa' (by norm_num)
  · exact div_le_div_of_nonneg_right hfb' (by norm_num)

/-- The three values of `perKmRate`. -/
theorem perKmRate_cases (vt : String) :
    (vt = "sedan" ∧ perKmRate vt = 2) ∨ (vt = "suv" ∧ perKmRate vt = 3) ∨
      (vt ≠ "sedan" ∧ vt ≠ "suv" ∧ perKmRate vt = 3 / 2) := by
  unfold perKmRate
  by_cases h1 : vt = "sedan"
  · left
    exact ⟨h1, by rw [if_pos h1]⟩
  · by_cases h2 : vt = "suv"
    · right; left
      exact ⟨h2, by rw [if_neg h1, if_pos h2]⟩
    · right; right
      exact ⟨h1, h2, by rw [if_neg h1, if_neg h2]⟩

/-- C5. For every vehicle type and every distance `d` with `2 ≤ d < 22` (the draw is then
`(d - 2) / 20`, in `[0, 1)`), the ride is created and its stored fare is `5 + d × rate`
rounded to 2 decimal places, within half a hundredth of the exact amount, where the rate
is 2 for 'sedan', 3 for 'suv' and 1.5 for every other vehicle type. -/
theorem fare_eq_rounded_formula (db : Db) (caller : Caller) (body : RideBody)
    (uuid now : String) (rEta : ℚ) (pickup dest vt : String) (d : ℚ)
    (hpickup : body.pickupLocation = some pickup) (hdest : body.destination = some dest)
    (hvt : body.vehicleType = some vt)
    (hne : pickup ≠ "" ∧ dest ≠ "" ∧ vt ≠ "")
    (hd2 : 2 ≤ d) (hd22 : d < 22) :
    0 ≤ (d - 2) / 20 ∧ (d - 2) / 20 < 1 ∧ distance ((d - 2) / 20) = d ∧
    ∃ reply : RideReply,
      postRides db caller body uuid now ((d - 2) / 20) rEta =
        (.ok 201 reply, { db with rides := db.rides ++ [reply.ride] }) ∧
      (vt = "sedan" → reply.ride.fare = roundTo2Decimals (5 + d * 2)) ∧
      (vt = "suv" → reply.ride.fare = roundTo2Decimals (5 + d * 3)) ∧
      (vt ≠ "sedan" → vt ≠ "suv" → reply.ride.fare = roundTo2Decimals (5 + d * (3 / 2))) ∧
      |reply.ride.fare - (5 + d * perKmRate vt)| ≤ 1 / 200 := by
  have hdist : distance ((d - 2) / 20) = d := by
    unfold distance
    ring
  obtain ⟨reply, hrun, hfare, -⟩ :=
    postRides_ok db caller body uuid now ((d - 2) / 20) rEta pickup dest vt hpickup hdest hvt hne
  rw [hdist] at hfare
  have hrate : 0 ≤ perKmRate vt ∧ perKmRate vt ≤ 3 := by
    rcases perKmRate_cases vt with ⟨-, h⟩ | ⟨-, h⟩ | ⟨-, -, h⟩ <;> rw [h] <;> norm_num
  have hx0 : 0 ≤ baseFare + d * perKmRate vt := by
    unfold baseFare
    nlinarith [hrate.1]
  have hx1 : baseFare + d * perKmRate vt < 10 ^ 21 := by
    unfold baseFare
    nlinarith [hrate.1, hrate.2]
  have hround : reply.ride.fare = roundTo2Decimals (5 + d * perKmRate vt) := by
    rw [hfare, toFixed2_eq_round _ hx0 hx1]
    rfl
  refine ⟨by linarith, by linarith, hdist, reply, hrun, ?_, ?_, ?_, ?_⟩
  · intro h
    rw [hround, h]
    rfl
  · intro h
    rw [hround, h]
    rfl
  · intro h1 h2
    rw [hround]
    unfold perKmRate
    rw [if_neg h1, if_neg h2]
  · rw [hround]
    unfold roundTo2Decimals
    have h := abs_sub_round ((5 + d * perKmRate vt) * 100)
    rw [abs_sub_comm] at h
    have h100 : ((round ((5 + d * perKmRate vt) * 100) : ℤ) : ℚ) / 100 - (5 + d * perKmRate vt) =
        (((round ((5 + d * perKmRate vt) * 100) : ℤ) : ℚ) - (5 + d * perKmRate vt) * 100) / 100 := by
      ring
    rw [h100, abs_div]
    have : |(100 : ℚ)| = 100 := by norm_num
    rw [this]
    linarith

theorem fare_eq_rounded_formula_witness :
    (2 : ℚ) ≤ 5 / 2 ∧ (5 / 2 : ℚ) < 22 ∧
    ∃ reply : RideReply,
      postRides exDb exPassengerCaller exBooking "r-3" "2024-03-01" ((5 / 2 - 2) / 20) (1 / 2) =
        (.ok 201 reply, { exDb with rides := exDb.rides ++ [reply.ride] }) ∧
      reply.ride.fare = 25 / 2 := by
  obtain ⟨-, -, -, reply, hrun, -, hsuv, -, -⟩ :=
    fare_eq_rounded_formula exDb exPassengerCaller exBooking "r-3" "2024-03-01" (1 / 2)
      "A" "B" "suv" (5 / 2) rfl rfl rfl (by decide) (by norm_num) (by norm_num)
  refine ⟨by norm_num, by norm_num, reply, hrun, ?_⟩
  rw [hsuv rfl]
  unfold roundTo2Decimals
  have h : ((5 : ℚ) + 5 / 2 * 3) * 100 = ((1250 : ℤ) : ℚ) := by norm_num
  rw [h, round_intCast]
  norm_num

/-- C6. For every draw in `[0, 1)` the distance lies in `[2, 22)`, and the fare of the
booked ride, exact or rounded to 2 decimal places, lies between `5 + 2 × rate` and
`5 + 22 × rate` for the vehicle's rate; for 'suv' the stored fare is between 11 and 71. -/
theorem fare_within_bounds (db : Db) (caller : Caller) (body : RideBody)
    (uuid now : String) (rDistance rEta : ℚ) (pickup dest vt : String)
    (hpickup : body.pickupLocation = some pickup) (hdest : body.destination = some dest)
    (hvt : body.vehicleType = some vt)
    (hne : pickup ≠ "" ∧ dest ≠ "" ∧ vt ≠ "")
    (hr0 : 0 ≤ rDistance) (hr1 : rDistance < 1) :
    2 ≤ distance rDistance ∧ distance rDistance < 22 ∧
    5 + 2 * perKmRate vt ≤ baseFare + distance rDistance * perKmRate vt ∧
    baseFare + distance rDistance * perKmRate vt ≤ 5 + 22 * perKmRate vt ∧
    ∃ reply : RideReply,
      postRides db caller body uuid now rDistance rEta =
        (.ok 201 reply, { db with rides := db.rides ++ [reply.ride] }) ∧
      5 + 2 * perKmRate vt ≤ reply.ride.fare ∧ reply.ride.fare ≤ 5 + 22 * perKmRate vt ∧
      (vt = "suv" → 11 ≤ reply.ride.fare ∧ reply.ride.fare ≤ 71) := by
  have hd2 : 2 ≤ distance rDistance := by
    unfold distance
    linarith
  have hd22 : distance rDistance < 22 := by
    unfold distance
    linarith
  obtain ⟨reply, hrun, hfare, -⟩ :=
    postRides_ok db caller body uuid now rDistance rEta pickup dest vt hpickup hdest hvt hne
  have hbounds : 5 + 2 * perKmRate vt ≤ reply.ride.fare ∧
      reply.ride.fare ≤ 5 + 22 * perKmRate vt ∧
      5 + 2 * perKmRate vt ≤ baseFare + distance rDistance * perKmRate vt ∧
      baseFare + distance rDistance * perKmRate vt ≤ 5 + 22 * perKmRate vt := by
    rw [hfare]
    unfold baseFare
    rcases perKmRate_cases vt with ⟨-, h⟩ | ⟨-, h⟩ | ⟨-, -, h⟩
    · rw [h]
      have hb := toFixed2_between (5 + distance rDistance * 2) 900 4900 (by linarith)
        (by linarith) (by norm_num; linarith) (by norm_num; linarith)
      norm_num at hb ⊢
      exact ⟨hb.1, hb.2, by linarith, by linarith⟩
    · rw [h]
      have hb := toFixed2_between (5 + distance rDistance * 3) 1100 7100 (by linarith)
        (by linarith) (by norm_num; linarith) (by norm_num; linarith)
      norm_num at hb ⊢
      exact ⟨hb.1, hb.2, by linarith, by linarith⟩
    · rw [h]
      have hb := toFixed2_between (5 + distance rDistance * (3 / 2)) 800 3800 (by linarith)
        (by linarith) (by norm_num; linarith) (by norm_num; linarith)
      norm_num at hb ⊢
      exact ⟨hb.1, hb.2, by linarith, by linarith⟩
  refine ⟨hd2, hd22, hbounds.2.2.1, hbounds.2.2.2, reply, hrun, hbounds.1, hbounds.2.1, ?_⟩
  intro hsuv
  have h3 : perKmRate vt = 3 := by
    rw [hsuv]
    rfl
  have h1 := hbounds.1
  have h2 := hbounds.2.1
  rw [h3] at h1 h2
  constructor <;> linarith

theorem fare_within_bounds_witness :
    (0 : ℚ) ≤ 999 / 1000 ∧ (999 / 1000 : ℚ) < 1 ∧
    ∃ reply : RideReply,
      (postRides exDb exPassengerCaller exBooking "r-3" "2024-03-01" (999 / 1000) (1 / 2)).1 =
        .ok 201 reply ∧
      11 ≤ reply.ride.fare ∧ reply.ride.fare ≤ 71 := by
  obtain ⟨-, -, -, -, reply, hrun, -, -, hsuv⟩ :=
    fare_within_bounds exDb exPassengerCaller exBooking "r-3" "2024-03-01" (999 / 1000) (1 / 2)
      "A" "B" "suv" rfl rfl rfl (by decide) (by norm_num) (by norm_num)
  exact ⟨by norm_num, by norm_num, reply, by rw [hrun], hsuv rfl⟩

/-- Bounds of `eta` for a draw in `[0, 1)`. -/
theorem eta_range (r : ℚ) (h0 : 0 ≤ r) (h1 : r < 1) : 5 ≤ eta r ∧ eta r ≤ 19 := by
  unfold eta
  have hlo : (0 : ℤ) ≤ ⌊r * 15⌋ := Int.floor_nonneg.mpr (by linarith)
  have hhi : ⌊r * 15⌋ < 15 := Int.floor_lt.mpr (by push_cast; linarith)
  omega

/-- C7. For every draw in `[0, 1)`, the eta stored on the booked ride is an integer
between 5 and 20. -/
theorem eta_between_5_and_20 (db : Db) (caller : Caller) (body : RideBody)
    (uuid now : String) (rDistance rEta : ℚ) (pickup dest vt : String)
    (hpickup : body.pickupLocation = some pickup) (hdest : body.destination = some dest)
    (hvt : body.vehicleType = some vt)
    (hne : pickup ≠ "" ∧ dest ≠ "" ∧ vt ≠ "")
    (hr0 : 0 ≤ rEta) (hr1 : rEta < 1) :
    5 ≤ eta rEta ∧ eta rEta ≤ 20 ∧
    ∃ reply : RideReply,
      (postRides db caller body uuid now rDistance rEta).1 = .ok 201 reply ∧
      reply.ride.eta = eta rEta ∧ 5 ≤ reply.ride.eta ∧ reply.ride.eta ≤ 20 := by
  obtain ⟨reply, hrun, -, heta, -⟩ :=
    postRides_ok db caller body uuid now rDistance rEta pickup dest vt hpickup hdest hvt hne
  have h := eta_range rEta hr0 hr1
  refine ⟨h.1, by omega, reply, by rw [hrun], heta, ?_, ?_⟩
  · rw [heta]
    exact h.1
  · rw [heta]
    omega

theorem eta_between_5_and_20_witness :
    (0 : ℚ) ≤ 1 / 2 ∧ (1 / 2 : ℚ) < 1 ∧ eta (1 / 2) = 12 ∧
    ∃ reply : RideReply,
      (postRides exDb exPassengerCaller exBooking "r-3" "2024-03-01" (999 / 1000) (1 / 2)).1 =
        .ok 201 reply ∧
      5 ≤ reply.ride.eta ∧ reply.ride.eta ≤ 20 := by
  obtain ⟨-, -, reply, hrun, -, h5, h20⟩ :=
    eta_between_5_and_20 exDb exPassengerCaller exBooking "r-3" "2024-03-01" (999 / 1000)
      (1 / 2) "A" "B" "suv" rfl rfl rfl (by decide) (by norm_num) (by norm_num)
  refine ⟨by norm_num, by norm_num, ?_, reply, hrun, h5, h20⟩
  unfold eta
  have h : ⌊(1 / 2 : ℚ) * 15⌋ = 7 := by
    rw [Int.floor_eq_iff]
    constructor <;> norm_num
  rw [h]
  rfl

/-- C8 fails on the code: no draw in `[0, 1)` gives the eta 20.  The etas the code can
compute are exactly the integers from 5 to 19; the largest draws give 19. -/
theorem eta_twenty_unreachable :
    (¬ ∃ r : ℚ, 0 ≤ r ∧ r < 1 ∧ eta r = 20) ∧
    (∀ n : ℤ, (∃ r : ℚ, 0 ≤ r ∧ r < 1 ∧ eta r = n) ↔ (5 ≤ n ∧ n ≤ 19)) ∧
    eta (999999 / 1000000) = 19 := by
  refine ⟨?_, ?_, ?_⟩
  · rintro ⟨r, h0, h1, h⟩
    have := eta_range r h0 h1
    omega
  · intro n
    constructor
    · rintro ⟨r, h0, h1, h⟩
      rw [← h]
      exact eta_range r h0 h1
    · rintro ⟨h5, h19⟩
      have hn5 : (5 : ℚ) ≤ (n : ℚ) := by exact_mod_cast h5
      have hn19 : (n : ℚ) ≤ 19 := by exact_mod_cast h19
      refine ⟨((n : ℚ) - 5) / 15, ?_, ?_, ?_⟩
      · apply div_nonneg <;> linarith
      · rw [div_lt_one (by norm_num)]
        linarith
      · unfold eta
        have h : ((n : ℚ) - 5) / 15 * 15 = ((n - 5 : ℤ) : ℚ) := by
          push_cast
          ring
        rw [h, Int.floor_intCast]
        omega
  · unfold eta
    have h : ⌊(999999 / 1000000 : ℚ) * 15⌋ = 14 := by
      rw [Int.floor_eq_iff]
      constructor <;> norm_num
    rw [h]
    rfl

/-! ## Listing rides -/

/-- C9. The rides listed for a caller are, in ledger order: all rides for an admin; for
a driver exactly the rides whose `driverId` is the caller's id or whose status is
'pending'; for any other role exactly the rides whose `passengerId` is the caller's id.
A driver's list holds no non-pending ride with another `driverId`.  Each listed ride
carries the passenger and driver records looked up by id, and the store is unchanged. -/
theorem rides_listed_by_role (db : Db) (caller : Caller) :
    ∃ list : List RideWithDetails,
      getRides db caller = (.ok 200 list, db) ∧
      (caller.role = "admin" → list.map (fun x => x.ride) = db.rides) ∧
      (caller.role = "driver" → list.map (fun x => x.ride) =
        db.rides.filter (fun r => decide (r.driverId = some caller.id ∨ r.status = "pending"))) ∧
      (caller.role ≠ "admin" → caller.role ≠ "driver" → list.map (fun x => x.ride) =
        db.rides.filter (fun r => decide (r.passengerId = caller.id))) ∧
      (caller.role = "driver" → ∀ x ∈ list,
        ¬ (x.ride.status ≠ "pending" ∧ x.ride.driverId ≠ some caller.id)) ∧
      (∀ x ∈ list, x.ride ∈ db.rides ∧
        x.passenger = db.users.find? (fun u => u.id == x.ride.passengerId) ∧
        x.driver = if truthy x.ride.driverId then
          db.users.find? (fun u => some u.id == x.ride.driverId) else none) := by
  have hmap : ∀ l : List Ride,
      (l.map (fun ride =>
        ({ ride := ride
           passenger := db.users.find? (fun u => u.id == ride.passengerId)
           driver := if truthy ride.driverId then
             db.users.find? (fun u => some u.id == ride.driverId) else none } :
          RideWithDetails))).map (fun x => x.ride) = l := by
    intro l
    rw [List.map_map]
    conv_rhs => rw [← List.map_id l]
    apply List.map_congr_left
    intro a _
    rfl
  have hdriver : caller.role = "driver" → visibleRides db caller =
      db.rides.filter (fun r => decide (r.driverId = some caller.id ∨ r.status = "pending")) := by
    intro h
    unfold visibleRides
    rw [if_neg (by rw [h]; decide), if_pos h]
    apply List.filter_congr
    intro r _
    rw [Bool.eq_iff_iff]
    simp
  have hsub : ∀ r ∈ visibleRides db caller, r ∈ db.rides := by
    intro r hr
    unfold visibleRides at hr
    split_ifs at hr
    · exact hr
    · exact (List.mem_filter.mp hr).1
    · exact (List.mem_filter.mp hr).1
  refine ⟨_, rfl, ?_, ?_, ?_, ?_, ?_⟩
  · intro h
    rw [hmap]
    unfold visibleRides
    rw [if_pos h]
  · intro h
    rw [hmap, hdriver h]
  · intro h1 h2
    rw [hmap]
    unfold visibleRides
    rw [if_neg h1, if_neg h2]
    apply List.filter_congr
    intro r _
    rw [Bool.eq_iff_iff]
    simp
  · intro h x hx
    obtain ⟨r, hr, hrx⟩ := List.mem_map.mp hx
    rw [hdriver h] at hr
    have hp := (List.mem_filter.mp hr).2
    rw [← hrx]
    simp only [decide_eq_true_eq] at hp
    rintro ⟨hst, hdrv⟩
    rcases hp with hp | hp
    · exact hdrv hp
    · exact hst hp
  · intro x hx
    obtain ⟨r, hr, hrx⟩ := List.mem_map.mp hx
    rw [← hrx]
    exact ⟨hsub r hr, rfl, rfl⟩

/-! ## Registration -/

/-- C10. A register request whose five required fields are present and non-empty and
whose email equals, character for character, the email of a stored user answers
400 'User already exists' and leaves the store, the user list included, unchanged. -/
theorem register_existing_email_conflicts (db : Db) (body : RegisterBody) (uuid now : String)
    (hash : String → String) (email password name phone role : String)
    (hemail : body.email = some email) (hpassword : body.password = some password)
    (hname : body.name = some name) (hphone : body.phone = some phone)
    (hrole : body.role = some role)
    (hne : email ≠ "" ∧ password ≠ "" ∧ name ≠ "" ∧ phone ≠ "" ∧ role ≠ "")
    (hstored : ∃ u ∈ db.users, u.email = email) :
    postAuthRegister db body uuid now hash = (.error 400 "User already exists", db) ∧
    (postAuthRegister db body uuid now hash).2.users = db.users := by
  have hrun : postAuthRegister db body uuid now hash =
      (.error 400 "User already exists", db) := by
    obtain ⟨u, hu, hue⟩ := hstored
    have hfind : ∃ v, db.users.find? (fun u => u.email == email) = some v := by
      cases hf : db.users.find? (fun u => u.email == email) with
      | some v => exact ⟨v, rfl⟩
      | none =>
        rw [List.find?_eq_none] at hf
        exact absurd (by simpa using hue) (hf u hu)
    obtain ⟨v, hv⟩ := hfind
    unfold postAuthRegister
    rw [hemail, hpassword, hname, hphone, hrole]
    simp only []
    rw [if_neg (by simp [hne.1, hne.2.1, hne.2.2.1, hne.2.2.2.1, hne.2.2.2.2]), hv]
  exact ⟨hrun, by rw [hrun]⟩

theorem register_existing_email_conflicts_witness :
    (∃ u ∈ exDb.users, u.email = "dan@example.com") ∧
    postAuthRegister exDb exRegistration "u-new" "2024-03-01" (fun pw => "hash-" ++ pw) =
      (.error 400 "User already exists", exDb) :=
  ⟨⟨exDriver, by simp [exDb], rfl⟩,
    (register_existing_email_conflicts exDb exRegistration "u-new" "2024-03-01"
      (fun pw => "hash-" ++ pw) "dan@example.com" "secret" "Danny" "+675-9" "passenger"
      rfl rfl rfl rfl rfl (by decide) ⟨exDriver, by simp [exDb], rfl⟩).1⟩

/-! ## What one request does to the ride ledger -/

/-- An assignment that keeps a projection of every element keeps the list of
projections. -/
theorem map_updateFound {α β : Type} (g : α → β) (p : α → Bool) (f : α → α)
    (hg : ∀ x, g (f x) = g x) (xs : List α) :
    (updateFound p f xs).map g = xs.map g := by
  induction xs with
  | nil => rfl
  | cons x xs ih =>
    by_cases hx : p x = true
    · simp [updateFound, hx, hg]
    · simp [updateFound, hx, ih]

/-- After an assignment, an element of the list is an old element or the assigned
one. -/
theorem mem_updateFound {α : Type} (p : α → Bool) (f : α → α) (xs : List α) (x : α)
    (hx : x ∈ updateFound p f xs) :
    x ∈ xs ∨ ∃ y, xs.find? p = some y ∧ x = f y := by
  induction xs with
  | nil => simp [updateFound] at hx
  | cons a xs ih =>
    by_cases ha : p a = true
    · simp only [updateFound, ha, if_true, List.mem_cons] at hx
      rcases hx with hx | hx
      · right
        exact ⟨a, by simp [List.find?, ha], hx⟩
      · left
        exact List.mem_cons_of_mem _ hx
    · simp only [Bool.not_eq_true] at ha
      simp only [updateFound, ha, Bool.false_eq_true, if_false, List.mem_cons] at hx
      rcases hx with hx | hx
      · left
        rw [hx]
        exact List.mem_cons_self _ _
      · rcases ih hx with h | ⟨y, hy, hxy⟩
        · left
          exact List.mem_cons_of_mem _ h
        · right
          exact ⟨y, by simp [List.find?, ha, hy], hxy⟩

/-- A route behind the middleware either is refused, or runs for the token's user. -/
theorem withUser_cases (db : Db) (token : Option Token) (handler : Caller → Db) :
    withUser db token handler = db ∨
      ∃ caller, authenticateToken token = .ok caller ∧
        withUser db token handler = handler caller := by
  unfold withUser
  cases h : authenticateToken token with
  | error e => left; rfl
  | ok caller => right; exact ⟨caller, rfl, rfl⟩

/-- The status handler, path by path. -/
theorem putRideStatus_cases (db : Db) (caller : Caller) (id status now : String) :
    (db.rides.find? (fun r => r.id == id) = none →
      putRideStatus db caller id status now = (.error 404 "Ride not found", db)) ∧
    (∀ ride : Ride, db.rides.find? (fun r => r.id == id) = some ride →
      ¬ mayUpdateStatus caller ride →
      putRideStatus db caller id status now = (.error 403 "Access denied", db)) ∧
    (∀ ride : Ride, db.rides.find? (fun r => r.id == id) = some ride →
      mayUpdateStatus caller ride → status = "completed" →
      putRideStatus db caller id status now =
        (.ok 200 ⟨"Ride status updated", { ride with status := status, endTime := some now }⟩,
          { db with
            rides := (updateFound (fun r => r.id == id)
              (fun r => { r with status := status, endTime := some now }) db.rides)
            users := (updateFound (fun u => some u.id == ride.driverId)
              (fun u => { u with earnings := u.earnings.add (.num ride.fare) }) db.users) })) ∧
    (∀ ride : Ride, db.rides.find? (fun r => r.id == id) = some ride →
      mayUpdateStatus caller ride → status ≠ "completed" →
      putRideStatus db caller id status now =
        (.ok 200 ⟨"Ride status updated", { ride with status := status }⟩,
          { db with
            rides := (updateFound (fun r => r.id == id)
              (fun r => { r with status := status }) db.rides) })) := by
  have hauth : ∀ ride : Ride, mayUpdateStatus caller ride ↔
      ¬ (caller.role ≠ "admin" ∧
        (caller.role ≠ "driver" ∨ ride.driverId ≠ some caller.id)) := by
    intro ride
    unfold mayUpdateStatus
    by_cases h1 : caller.role = "admin" <;> by_cases h2 : caller.role = "driver" <;>
      by_cases h3 : ride.driverId = some caller.id <;> simp [h1, h2, h3]
  refine ⟨?_, ?_, ?_, ?_⟩
  · intro hnone
    unfold putRideStatus
    rw [hnone]
  · intro ride hsome hno
    unfold putRideStatus
    rw [hsome]
    simp only []
    rw [if_pos (not_not.mp (mt (hauth ride).2 hno))]
  · intro ride hsome hmay hst
    unfold putRideStatus
    rw [hsome]
    simp only []
    rw [if_neg ((hauth ride).1 hmay), if_pos hst]
  · intro ride hsome hmay hst
    unfold putRideStatus
    rw [hsome]
    simp only []
    rw [if_neg ((hauth ride).1 hmay), if_neg hst]

/-- The handlers that only read return the database they were given. -/
theorem readers_keep_db (db : Db) (caller : Caller) :
    (∀ body compare, (postAuthLogin db body compare).2 = db) ∧
    (∀ email, (postAuthResetPassword db email).2 = db) ∧
    (getRides db caller).2 = db ∧
    (∀ id, (getRide db caller id).2 = db) ∧
    (getPayments db caller).2 = db ∧
    (getUsers db caller).2 = db ∧
    (getUsersMe db caller).2 = db ∧
    (∀ now toDateString fraction,
      (getAdminStats db caller now toDateString fraction).2 = db) ∧
    (getAdminSettings db caller).2 = db ∧
    (∀ now, (getHealth db now).2 = db) := by
  refine ⟨?_, ?_, rfl, ?_, ?_, ?_, ?_, ?_, ?_, fun _ => rfl⟩
  · intro body compare
    unfold postAuthLogin
    repeat' split
    all_goals rfl
  · intro email
    unfold postAuthResetPassword
    repeat' split
    all_goals rfl
  · intro id
    unfold getRide
    repeat' split
    all_goals rfl
  · unfold getPayments
    repeat' split
    all_goals rfl
  · unfold getUsers
    repeat' split
    all_goals rfl
  · unfold getUsersMe
    repeat' split
    all_goals rfl
  · intro now toDateString fraction
    unfold getAdminStats
    repeat' split
    all_goals rfl
  · unfold getAdminSettings
    repeat' split
    all_goals rfl

/-- The handlers that write users or settings leave the rides as they are. -/
theorem user_writers_keep_rides (db : Db) (caller : Caller) :
    (∀ body uuid now hash, (postAuthRegister db body uuid now hash).2.rides = db.rides) ∧
    (∀ body, (putUsersMe db caller body).2.rides = db.rides) ∧
    (∀ status, (putDriversStatus db caller status).2.rides = db.rides) ∧
    (∀ body, (putAdminSettings db caller body).2.rides = db.rides) ∧
    (∀ seen body uuid now hash,
      (postAuthRegisterOverlapped seen db body uuid now hash).2.rides = db.rides) := by
  refine ⟨?_, ?_, ?_, ?_, ?_⟩
  · intro body uuid now hash
    unfold postAuthRegister
    repeat' split
    all_goals rfl
  · intro body
    unfold putUsersMe
    repeat' split
    all_goals rfl
  · intro status
    unfold putDriversStatus
    repeat' split
    all_goals rfl
  · intro body
    unfold putAdminSettings
    repeat' split
    all_goals rfl
  · intro seen body uuid now hash
    unfold postAuthRegisterOverlapped
    repeat' split
    all_goals rfl

/-- The payment handler, path by path. -/
theorem postPayments_cases (db : Db) (caller : Caller) (body : PaymentBody)
    (uuid now : String) (nowMs : Nat) :
    (body.rideId = none →
      postPayments db caller body uuid now nowMs = (.error 404 "Ride not found", db)) ∧
    (∀ rideId : String, body.rideId = some rideId →
      db.rides.find? (fun r => r.id == rideId) = none →
      postPayments db caller body uuid now nowMs = (.error 404 "Ride not found", db)) ∧
    (∀ (rideId : String) (ride : Ride), body.rideId = some rideId →
      db.rides.find? (fun r => r.id == rideId) = some ride →
      ride.passengerId ≠ caller.id → caller.role ≠ "admin" →
      postPayments db caller body uuid now nowMs = (.error 403 "Access denied", db)) ∧
    (∀ (rideId : String) (ride : Ride), body.rideId = some rideId →
      db.rides.find? (fun r => r.id == rideId) = some ride →
      (ride.passengerId = caller.id ∨ caller.role = "admin") →
      postPayments db caller body uuid now nowMs =
        (.ok 201 ⟨"Payment processed successfully",
            { id := uuid, rideId := rideId, passengerId := caller.id, amount := body.amount,
              method := body.method, status := "completed",
              transactionId := "TXN-" ++ toString nowMs, createdAt := now }⟩,
          { db with
            payments := db.payments ++
              [{ id := uuid, rideId := rideId, passengerId := caller.id, amount := body.amount,
                 method := body.method, status := "completed",
                 transactionId := "TXN-" ++ toString nowMs, createdAt := now }]
            rides := (updateFound (fun r => r.id == rideId)
              (fun r => { r with paymentStatus := "completed" }) db.rides) })) := by
  refine ⟨?_, ?_, ?_, ?_⟩
  · intro h
    unfold postPayments
    rw [h]
  · intro rideId h hnone
    unfold postPayments
    rw [h]
    simp only []
    rw [hnone]
  · intro rideId ride h hsome h1 h2
    unfold postPayments
    rw [h]
    simp only []
    rw [hsome]
    simp only []
    rw [if_pos ⟨h1, h2⟩]
  · intro rideId ride h hsome hperm
    unfold postPayments
    rw [h]
    simp only []
    rw [hsome]
    simp only []
    rw [if_neg (by
      rintro ⟨h1, h2⟩
      rcases hperm with hp | hp
      · exact h1 hp
      · exact h2 hp)]

/-- What one request does to the ride ledger: nothing; or it appends a pending ride
without driver and end time; or it assigns, through the lookup by id, an acceptance to a
pending ride, a status (with the end time when the status is 'completed') by a permitted
caller, or a completed payment status. -/
theorem step_rides_shape (db : Db) (req : Request) :
    (step db req).rides = db.rides ∨
    (∃ r : Ride, (step db req).rides = db.rides ++ [r] ∧
      r.driverId = none ∧ r.status = "pending" ∧ r.endTime = none ∧
      ∃ (token : Option Token) (body : RideBody) (uuid now : String) (rDistance rEta : Draw)
        (vt : String),
        req = .createRide token body uuid now rDistance rEta ∧
        r.fare = fare vt rDistance.val) ∨
    (∃ (id : String) (ride : Ride) (c now : String),
      db.rides.find? (fun r => r.id == id) = some ride ∧ ride.status = "pending" ∧
      (step db req).rides = updateFound (fun r => r.id == id)
        (fun r => { r with driverId := some c, status := "accepted", startTime := some now })
        db.rides ∧
      ∃ (token : Option Token) (caller : Caller),
        req = .acceptRide token id now ∧ authenticateToken token = .ok caller ∧
        caller.role = "driver" ∧ c = caller.id) ∨
    (∃ (token : Option Token) (id status now : String) (caller : Caller) (ride : Ride),
      req = .updateRideStatus token id status now ∧ authenticateToken token = .ok caller ∧
      db.rides.find? (fun r => r.id == id) = some ride ∧ mayUpdateStatus caller ride ∧
      (step db req).rides = updateFound (fun r => r.id == id)
        (fun r => { r with
          status := status
          endTime := if status = "completed" then some now else r.endTime })
        db.rides) ∨
    (∃ (id : String) (ride : Ride),
      db.rides.find? (fun r => r.id == id) = some ride ∧
      (step db req).rides = updateFound (fun r => r.id == id)
        (fun r => { r with paymentStatus := "completed" }) db.rides) := by
  have hread := fun caller => readers_keep_db db caller
  have hwrite := fun caller => user_writers_keep_rides db caller
  cases req with
  | register body uuid now hash =>
    left
    exact (hwrite ⟨"", "", ""⟩).1 body uuid now hash
  | login body compare =>
    left
    show (postAuthLogin db body compare).2.rides = db.rides
    rw [(hread ⟨"", "", ""⟩).1]
  | resetPassword email =>
    left
    show (postAuthResetPassword db email).2.rides = db.rides
    rw [(hread ⟨"", "", ""⟩).2.1]
  | health now => left; rfl
  | registerOverlapped seen body uuid now hash =>
    left
    exact (hwrite ⟨"", "", ""⟩).2.2.2.2 seen body uuid now hash
  | seedAdmin uuid hashedPassword now => left; rfl
  | createRide token body uuid now rDistance rEta =>
    rcases withUser_cases db token
      (fun caller => (postRides db caller body uuid now rDistance.val rEta.val).2) with
      h | ⟨caller, -, h⟩
    · left
      show (withUser db token _).rides = db.rides
      rw [h]
    · show (withUser db token _).rides = db.rides ∨ (∃ r : Ride, (withUser db token _).rides = _ ∧ _) ∨ _
      rw [h]
      unfold postRides
      split
      · split
        · left; rfl
        · right; left
          exact ⟨_, rfl, rfl, rfl, rfl, token, body, uuid, now, rDistance, rEta, _, rfl, rfl⟩
      · left; rfl
  | acceptRide token id now =>
    rcases withUser_cases db token
      (fun caller => (putRideAccept db caller id now).2) with h | ⟨caller, hauth, h⟩
    · left
      show (withUser db token _).rides = db.rides
      rw [h]
    · obtain ⟨h403, h404, h400, h200⟩ := putRideAccept_cases db caller id now
      by_cases hrole : caller.role = "driver"
      · cases hfind : db.rides.find? (fun r => r.id == id) with
        | none =>
          left
          show (withUser db token _).rides = db.rides
          rw [h, h404 hrole hfind]
        | some ride =>
          by_cases hst : ride.status = "pending"
          · right; right; left
            refine ⟨id, ride, caller.id, now, hfind, hst, ?_, token, caller, rfl, hauth, hrole,
              rfl⟩
            show (withUser db token _).rides = _
            rw [h, h200 hrole ride hfind hst]
          · left
            show (withUser db token _).rides = db.rides
            rw [h, h400 hrole ride hfind hst]
      · left
        show (withUser db token _).rides = db.rides
        rw [h, h403 hrole]
  | updateRideStatus token id status now =>
    rcases withUser_cases db token
      (fun caller => (putRideStatus db caller id status now).2) with h | ⟨caller, hauth, h⟩
    · left
      show (withUser db token _).rides = db.rides
      rw [h]
    · obtain ⟨h404, h403, hdone, hother⟩ := putRideStatus_cases db caller id status now
      cases hfind : db.rides.find? (fun r => r.id == id) with
      | none =>
        left
        show (withUser db token _).rides = db.rides
        rw [h, h404 hfind]
      | some ride =>
        by_cases hmay : mayUpdateStatus caller ride
        · right; right; right; left
          refine ⟨token, id, status, now, caller, ride, rfl, hauth, hfind, hmay, ?_⟩
          show (withUser db token _).rides = _
          rw [h]
          by_cases hst : status = "completed"
          · rw [hdone ride hfind hmay hst]
            simp only [hst, if_true]
          · rw [hother ride hfind hmay hst]
            simp only [hst, if_false]
        · left
          show (withUser db token _).rides = db.rides
          rw [h, h403 ride hfind hmay]
  | submitPayment token body uuid now nowMs =>
    rcases withUser_cases db token
      (fun caller => (postPayments db caller body uuid now nowMs).2) with h | ⟨caller, -, h⟩
    · left
      show (withUser db token _).rides = db.rides
      rw [h]
    · obtain ⟨hnone, h404, h403, h201⟩ := postPayments_cases db caller body uuid now nowMs
      cases hid : body.rideId with
      | none =>
        left
        show (withUser db token _).rides = db.rides
        rw [h, hnone hid]
      | some rideId =>
        cases hfind : db.rides.find? (fun r => r.id == rideId) with
        | none =>
          left
          show (withUser db token _).rides = db.rides
          rw [h, h404 rideId hid hfind]
        | some ride =>
          by_cases hperm : ride.passengerId = caller.id ∨ caller.role = "admin"
          · right; right; right; right
            refine ⟨rideId, ride, hfind, ?_⟩
            show (withUser db token _).rides = _
            rw [h, h201 rideId ride hid hfind hperm]
          · left
            show (withUser db token _).rides = db.rides
            rw [h, h403 rideId ride hid hfind (fun hp => hperm (Or.inl hp))
              (fun hp => hperm (Or.inr hp))]
  | listRides token =>
    left
    rcases withUser_cases db token (fun caller => (getRides db caller).2) with h | ⟨caller, -, h⟩
    · show (withUser db token _).rides = db.rides
      rw [h]
    · show (withUser db token _).rides = db.rides
      rw [h, (hread caller).2.2.1]
  | getRide token id =>
    left
    rcases withUser_cases db token (fun caller => (getRide db caller id).2) with
      h | ⟨caller, -, h⟩
    · show (withUser db token _).rides = db.rides
      rw [h]
    · show (withUser db token _).rides = db.rides
      rw [h, (hread caller).2.2.2.1]
  | listPayments token =>
    left
    rcases withUser_cases db token (fun caller => (getPayments db caller).2) with
      h | ⟨caller, -, h⟩
    · show (withUser db token _).rides = db.rides
      rw [h]
    · show (withUser db token _).rides = db.rides
      rw [h, (hread caller).2.2.2.2.1]
  | listUsers token =>
    left
    rcases withUser_cases db token (fun caller => (getUsers db caller).2) with
      h | ⟨caller, -, h⟩
    · show (withUser db token _).rides = db.rides
      rw [h]
    · show (withUser db token _).rides = db.rides
      rw [h, (hread caller).2.2.2.2.2.1]
  | getProfile token =>
    left
    rcases withUser_cases db token (fun caller => (getUsersMe db caller).2) with
      h | ⟨caller, -, h⟩
    · show (withUser db token _).rides = db.rides
      rw [h]
    · show (withUser db token _).rides = db.rides
      rw [h, (hread caller).2.2.2.2.2.2.1]
  | updateProfile token body =>
    left
    rcases withUser_cases db token (fun caller => (putUsersMe db caller body).2) with
      h | ⟨caller, -, h⟩
    · show (withUser db token _).rides = db.rides
      rw [h]
    · show (withUser db token _).rides = db.rides
      rw [h, (hwrite caller).2.1]
  | setDriverStatus token status =>
    left
    rcases withUser_cases db token (fun caller => (putDriversStatus db caller status).2) with
      h | ⟨caller, -, h⟩
    · show (withUser db token _).rides = db.rides
      rw [h]
    · show (withUser db token _).rides = db.rides
      rw [h, (hwrite caller).2.2.1]
  | adminStats token now toDateString fraction =>
    left
    rcases withUser_cases db token
      (fun caller => (getAdminStats db caller now toDateString fraction).2) with
      h | ⟨caller, -, h⟩
    · show (withUser db token _).rides = db.rides
      rw [h]
    · show (withUser db token _).rides = db.rides
      rw [h, (hread caller).2.2.2.2.2.2.2.1]
  | updateSettings token body =>
    left
    rcases withUser_cases db token (fun caller => (putAdminSettings db caller body).2) with
      h | ⟨caller, -, h⟩
    · show (withUser db token _).rides = db.rides
      rw [h]
    · show (withUser db token _).rides = db.rides
      rw [h, (hwrite caller).2.2.2.1]
  | getSettings token =>
    left
    rcases withUser_cases db token (fun caller => (getAdminSettings db caller).2) with
      h | ⟨caller, -, h⟩
    · show (withUser db token _).rides = db.rides
      rw [h]
    · show (withUser db token _).rides = db.rides
      rw [h, (hread caller).2.2.2.2.2.2.2.2.1]

/-! ## What one request does to the user list -/

/-- The handlers that write rides or settings leave the users as they are. -/
theorem ride_writers_keep_users (db : Db) (caller : Caller) :
    (∀ body uuid now rDistance rEta,
      (postRides db caller body uuid now rDistance rEta).2.users = db.users) ∧
    (∀ id now, (putRideAccept db caller id now).2.users = db.users) ∧
    (∀ body uuid now nowMs, (postPayments db caller body uuid now nowMs).2.users = db.users) ∧
    (∀ body, (putAdminSettings db caller body).2.users = db.users) := by
  refine ⟨?_, ?_, ?_, ?_⟩
  · intro body uuid now rDistance rEta
    unfold postRides
    repeat' split
    all_goals rfl
  · intro id now
    unfold putRideAccept
    repeat' split
    all_goals rfl
  · intro body uuid now nowMs
    unfold postPayments
    repeat' split
    all_goals rfl
  · intro body
    unfold putAdminSettings
    repeat' split
    all_goals rfl

/-- A registration during whose wait no other request is served is one whose checks ran
on the store it pushes onto. -/
theorem postAuthRegister_eq_overlapped (db : Db) (body : RegisterBody) (uuid now : String)
    (hash : String → String) :
    postAuthRegister db body uuid now hash =
      postAuthRegisterOverlapped db db body uuid now hash := rfl

/-- Registration leaves the users as they are or appends one user, whose email no user of
the store met on arrival has and whose earnings are the number 0. -/
theorem postAuthRegisterOverlapped_users (seen db : Db) (body : RegisterBody)
    (uuid now : String) (hash : String → String) :
    (postAuthRegisterOverlapped seen db body uuid now hash).2.users = db.users ∨
    ∃ u : User,
      (postAuthRegisterOverlapped seen db body uuid now hash).2.users = db.users ++ [u] ∧
      (∀ v ∈ seen.users, v.email ≠ u.email) ∧ u.id = uuid ∧ some u.email = body.email ∧
      some u.role = body.role ∧ u.earnings = .num 0 ∧
      u.status = (if u.role = "driver" then "offline" else "active") := by
  unfold postAuthRegisterOverlapped
  split
  · rename_i email password name phone role hemail hpassword hname hphone hrole
    split
    · left; rfl
    · split
      · left; rfl
      · rename_i hnone
        right
        refine ⟨_, rfl, ?_, rfl, hemail.symm, hrole.symm, rfl, rfl⟩
        intro v hv
        have := List.find?_eq_none.mp hnone v hv
        simpa using this
  · left; rfl

/-- Registration leaves the users as they are or appends one user, whose email no
stored user has and whose earnings are the number 0. -/
theorem postAuthRegister_users (db : Db) (body : RegisterBody) (uuid now : String)
    (hash : String → String) :
    (postAuthRegister db body uuid now hash).2.users = db.users ∨
    ∃ u : User, (postAuthRegister db body uuid now hash).2.users = db.users ++ [u] ∧
      (∀ v ∈ db.users, v.email ≠ u.email) ∧ u.id = uuid ∧ some u.email = body.email ∧
      some u.role = body.role ∧ u.earnings = .num 0 ∧
      u.status = (if u.role = "driver" then "offline" else "active") := by
  unfold postAuthRegister
  split
  · rename_i email password name phone role hemail hpassword hname hphone hrole
    split
    · left; rfl
    · split
      · left; rfl
      · rename_i hnone
        right
        refine ⟨_, rfl, ?_, rfl, hemail.symm, hrole.symm, rfl, rfl⟩
        intro v hv
        have := List.find?_eq_none.mp hnone v hv
        simpa using this
  · left; rfl

/-- What one request does to the user list: nothing; or it appends a newly registered
user, whose email no user of the store that the registration met has; or it assigns,
through a lookup by id, the fare of a ride of the ledger to the earnings, the fields of a
profile update, or a driver status; or it is the start-up push of the default admin. -/
theorem step_users_shape (db : Db) (req : Request) :
    (step db req).users = db.users ∨
    (∃ (u : User) (seen : Db), (step db req).users = db.users ++ [u] ∧
      (∀ v ∈ seen.users, v.email ≠ u.email) ∧ u.earnings = .num 0 ∧
      u.status = (if u.role = "driver" then "offline" else "active") ∧
      ∃ (body : RegisterBody) (uuid now : String) (hash : String → String),
        (req = .register body uuid now hash ∧ seen = db ∨
          req = .registerOverlapped seen body uuid now hash) ∧ u.id = uuid ∧
        some u.role = body.role) ∨
    (∃ ride : Ride, ride ∈ db.rides ∧
      (step db req).users = updateFound (fun u => some u.id == ride.driverId)
        (fun u => { u with earnings := u.earnings.add (.num ride.fare) }) db.users) ∨
    (∃ (id : String) (name phone : String → String)
      (vehicleType licensePlate : User → Option String),
      (step db req).users = updateFound (fun u => u.id == id)
        (fun u => { u with name := name u.name, phone := phone u.phone,
                           vehicleType := vehicleType u, licensePlate := licensePlate u })
        db.users) ∨
    (∃ (id status : String),
      (step db req).users = updateFound (fun u => u.id == id)
        (fun u => { u with status := status }) db.users ∧
      ∃ token : Option Token, req = .setDriverStatus token status) ∨
    (∃ (uuid hashedPassword now : String), req = .seedAdmin uuid hashedPassword now ∧
      (step db req).users = db.users ++ [seededAdmin uuid hashedPassword now]) := by
  have hread := fun caller => readers_keep_db db caller
  have hwrite := fun caller => ride_writers_keep_users db caller
  cases req with
  | register body uuid now hash =>
    rcases postAuthRegister_users db body uuid now hash with h | ⟨u, h1, h2, h5, -, h6, h3, h4⟩
    · left; exact h
    · right; left
      exact ⟨u, db, h1, h2, h3, h4, body, uuid, now, hash, Or.inl ⟨rfl, rfl⟩, h5, h6⟩
  | registerOverlapped seen body uuid now hash =>
    rcases postAuthRegisterOverlapped_users seen db body uuid now hash with
      h | ⟨u, h1, h2, h5, -, h6, h3, h4⟩
    · left; exact h
    · right; left
      exact ⟨u, seen, h1, h2, h3, h4, body, uuid, now, hash, Or.inr rfl, h5, h6⟩
  | seedAdmin uuid hashedPassword now =>
    right; right; right; right; right
    exact ⟨uuid, hashedPassword, now, rfl, rfl⟩
  | login body compare =>
    left
    show (postAuthLogin db body compare).2.users = db.users
    rw [(hread ⟨"", "", ""⟩).1]
  | resetPassword email =>
    left
    show (postAuthResetPassword db email).2.users = db.users
    rw [(hread ⟨"", "", ""⟩).2.1]
  | health now => left; rfl
  | createRide token body uuid now rDistance rEta =>
    left
    rcases withUser_cases db token
      (fun caller => (postRides db caller body uuid now rDistance.val rEta.val).2) with
      h | ⟨caller, -, h⟩
    · show (withUser db token _).users = db.users
      rw [h]
    · show (withUser db token _).users = db.users
      rw [h, (hwrite caller).1]
  | acceptRide token id now =>
    left
    rcases withUser_cases db token
      (fun caller => (putRideAccept db caller id now).2) with h | ⟨caller, -, h⟩
    · show (withUser db token _).users = db.users
      rw [h]
    · show (withUser db token _).users = db.users
      rw [h, (hwrite caller).2.1]
  | submitPayment token body uuid now nowMs =>
    left
    rcases withUser_cases db token
      (fun caller => (postPayments db caller body uuid now nowMs).2) with h | ⟨caller, -, h⟩
    · show (withUser db token _).users = db.users
      rw [h]
    · show (withUser db token _).users = db.users
      rw [h, (hwrite caller).2.2.1]
  | updateSettings token body =>
    left
    rcases withUser_cases db token (fun caller => (putAdminSettings db caller body).2) with
      h | ⟨caller, -, h⟩
    · show (withUser db token _).users = db.users
      rw [h]
    · show (withUser db token _).users = db.users
      rw [h, (hwrite caller).2.2.2]
  | updateRideStatus token id status now =>
    rcases withUser_cases db token
      (fun caller => (putRideStatus db caller id status now).2) with h | ⟨caller, -, h⟩
    · left
      show (withUser db token _).users = db.users
      rw [h]
    · obtain ⟨h404, h403, hdone, hother⟩ := putRideStatus_cases db caller id status now
      cases hfind : db.rides.find? (fun r => r.id == id) with
      | none =>
        left
        show (withUser db token _).users = db.users
        rw [h, h404 hfind]
      | some ride =>
        by_cases hmay : mayUpdateStatus caller ride
        · by_cases hst : status = "completed"
          · right; right; left
            refine ⟨ride, List.mem_of_find?_eq_some hfind, ?_⟩
            show (withUser db token _).users = _
            rw [h, hdone ride hfind hmay hst]
          · left
            show (withUser db token _).users = db.users
            rw [h, hother ride hfind hmay hst]
        · left
          show (withUser db token _).users = db.users
          rw [h, h403 ride hfind hmay]
  | updateProfile token body =>
    rcases withUser_cases db token (fun caller => (putUsersMe db caller body).2) with
      h | ⟨caller, -, h⟩
    · left
      show (withUser db token _).users = db.users
      rw [h]
    · cases hfind : db.users.find? (fun u => u.id == caller.id) with
      | none =>
        left
        show (withUser db token _).users = db.users
        rw [h]
        unfold putUsersMe
        rw [hfind]
      | some user =>
        right; right; right; left
        refine ⟨caller.id,
          fun old => if truthy body.name then body.name.getD old else old,
          fun old => if truthy body.phone then body.phone.getD old else old,
          fun u => if truthy body.vehicleType ∧ u.role = "driver" then body.vehicleType
            else u.vehicleType,
          fun u => if truthy body.licensePlate ∧ u.role = "driver" then body.licensePlate
            else u.licensePlate, ?_⟩
        show (withUser db token _).users = _
        rw [h]
        unfold putUsersMe
        rw [hfind]
  | setDriverStatus token status =>
    rcases withUser_cases db token (fun caller => (putDriversStatus db caller status).2) with
      h | ⟨caller, -, h⟩
    · left
      show (withUser db token _).users = db.users
      rw [h]
    · by_cases hrole : caller.role = "driver"
      · cases hfind : db.users.find? (fun u => u.id == caller.id) with
        | none =>
          left
          show (withUser db token _).users = db.users
          rw [h]
          unfold putDriversStatus
          rw [if_neg (not_not.mpr hrole), hfind]
        | some user =>
          right; right; right; right; left
          refine ⟨caller.id, status, ?_, token, rfl⟩
          show (withUser db token _).users = _
          rw [h]
          unfold putDriversStatus
          rw [if_neg (not_not.mpr hrole), hfind]
      · left
        show (withUser db token _).users = db.users
        rw [h]
        unfold putDriversStatus
        rw [if_pos hrole]
  | listRides token =>
    left
    rcases withUser_cases db token (fun caller => (getRides db caller).2) with h | ⟨caller, -, h⟩
    · show (withUser db token _).users = db.users
      rw [h]
    · show (withUser db token _).users = db.users
      rw [h, (hread caller).2.2.1]
  | getRide token id =>
    left
    rcases withUser_cases db token (fun caller => (getRide db caller id).2) with
      h | ⟨caller, -, h⟩
    · show (withUser db token _).users = db.users
      rw [h]
    · show (withUser db token _).users = db.users
      rw [h, (hread caller).2.2.2.1]
  | listPayments token =>
    left
    rcases withUser_cases db token (fun caller => (getPayments db caller).2) with
      h | ⟨caller, -, h⟩
    · show (withUser db token _).users = db.users
      rw [h]
    · show (withUser db token _).users = db.users
      rw [h, (hread caller).2.2.2.2.1]
  | listUsers token =>
    left
    rcases withUser_cases db token (fun caller => (getUsers db caller).2) with
      h | ⟨caller, -, h⟩
    · show (withUser db token _).users = db.users
      rw [h]
    · show (withUser db token _).users = db.users
      rw [h, (hread caller).2.2.2.2.2.1]
  | getProfile token =>
    left
    rcases withUser_cases db token (fun caller => (getUsersMe db caller).2) with
      h | ⟨caller, -, h⟩
    · show (withUser db token _).users = db.users
      rw [h]
    · show (withUser db token _).users = db.users
      rw [h, (hread caller).2.2.2.2.2.2.1]
  | adminStats token now toDateString fraction =>
    left
    rcases withUser_cases db token
      (fun caller => (getAdminStats db caller now toDateString fraction).2) with
      h | ⟨caller, -, h⟩
    · show (withUser db token _).users = db.users
      rw [h]
    · show (withUser db token _).users = db.users
      rw [h, (hread caller).2.2.2.2.2.2.2.1]
  | getSettings token =>
    left
    rcases withUser_cases db token (fun caller => (getAdminSettings db caller).2) with
      h | ⟨caller, -, h⟩
    · show (withUser db token _).users = db.users
      rw [h]
    · show (withUser db token _).users = db.users
      rw [h, (hread caller).2.2.2.2.2.2.2.2.1]

/-! ## Email uniqueness -/

/-- A list of users with pairwise different emails satisfies `emailsUnique`. -/
theorem emailsUnique_of_nodup (db : Db) (h : (db.users.map (fun u => u.email)).Nodup) :
    emailsUnique db := by
  intro i j u v hi hj he
  have hi1 : i < db.users.length := by
    by_contra hlt
    rw [List.getElem?_eq_none (by omega)] at hi
    exact absurd hi (by simp)
  have hj1 : j < db.users.length := by
    by_contra hlt
    rw [List.getElem?_eq_none (by omega)] at hj
    exact absurd hj (by simp)
  have hiu : db.users[i] = u := by
    rw [List.getElem?_eq_getElem hi1] at hi
    exact Option.some.inj hi
  have hjv : db.users[j] = v := by
    rw [List.getElem?_eq_getElem hj1] at hj
    exact Option.some.inj hj
  have hi2 : i < (db.users.map (fun u => u.email)).length := by simpa using hi1
  have hj2 : j < (db.users.map (fun u => u.email)).length := by simpa using hj1
  have hsame : (db.users.map (fun u => u.email))[i] = (db.users.map (fun u => u.email))[j] := by
    simp [hiu, hjv, he]
  exact (@List.Nodup.getElem_inj_iff _ _ h i hi2 j hj2).1 hsame

/-- One request that pushes no unchecked email keeps the emails pairwise different. -/
theorem step_keeps_emails (db : Db) (req : Request)
    (h : (db.users.map (fun u => u.email)).Nodup) (hreq : checksEmail db req) :
    ((step db req).users.map (fun u => u.email)).Nodup := by
  have happend : ∀ u : User, (∀ v ∈ db.users, v.email ≠ u.email) →
      ((db.users ++ [u]).map (fun u => u.email)).Nodup := by
    intro u hfresh
    rw [List.map_append, List.nodup_append]
    refine ⟨h, by simp, ?_⟩
    intro e he hu
    obtain ⟨v, hv, hve⟩ := List.mem_map.mp he
    simp only [List.map_cons, List.map_nil, List.mem_singleton] at hu
    exact hfresh v hv (by rw [hve, hu])
  rcases step_users_shape db req with hs |
    ⟨u, seen, hs, hfresh, -, -, body, uuid, now, hash, hkind, -, -⟩ | ⟨ride, -, hs⟩ |
    ⟨id, name, phone, vehicleType, licensePlate, hs⟩ | ⟨id, status, hs, -⟩ |
    ⟨uuid, hashedPassword, now, hseed, hs⟩
  · rw [hs]
    exact h
  · rw [hs]
    apply happend
    rcases hkind with ⟨-, hseen⟩ | hover
    · rw [hseen] at hfresh
      exact hfresh
    · rw [hover] at hreq
      intro v hv hve
      have hmem : v.email ∈ seen.users.map (fun u => u.email) := by
        rw [show seen.users.map (fun u => u.email) = db.users.map (fun u => u.email) from hreq]
        exact List.mem_map_of_mem (fun u => u.email) hv
      obtain ⟨w, hw, hwe⟩ := List.mem_map.mp hmem
      exact hfresh w hw (by rw [hwe, hve])
  · rw [hs, map_updateFound (fun u : User => u.email)]
    · exact h
    · intro x
      rfl
  · rw [hs, map_updateFound (fun u : User => u.email)]
    · exact h
    · intro x
      rfl
  · rw [hs, map_updateFound (fun u : User => u.email)]
    · exact h
    · intro x
      rfl
  · rw [hs]
    apply happend
    rw [hseed] at hreq
    exact hreq

/-- A list of requests that push no unchecked email keeps the emails pairwise
different. -/
theorem run_keeps_emails (reqs : List Request) :
    ∀ db : Db, (db.users.map (fun u => u.email)).Nodup → respects checksEmail db reqs →
      ((run db reqs).users.map (fun u => u.email)).Nodup := by
  induction reqs with
  | nil => intro db h _; exact h
  | cons req rest ih =>
    intro db h hres
    exact ih (step db req) (step_keeps_emails db req h hres.1) hres.2

/-- C11 fails on the code: a registration that arrives while another with the same email
waits for its hash passes the check as well, and both users are stored; the same happens
to a registration with the admin's email around the start-up push, which is not checked
at all.  Where every push happens onto a store that holds the emails that were checked,
no two stored users have the same email, from the empty store and from the store with the
seeded admin. -/
theorem emails_not_unique_after_overlap :
    (run initialDb exOverlappingRegisters).users.map (fun u => (u.id, u.email)) =
      [("u-dan", "dan@example.com"), ("u-dup", "dan@example.com")] ∧
    ¬ emailsUnique (run initialDb exOverlappingRegisters) ∧
    (run initialDb exRegisterDuringStartup).users.map (fun u => (u.id, u.email)) =
      [("u-root", "admin@diwaifox.com"), ("u-eve", "admin@diwaifox.com")] ∧
    ¬ emailsUnique (run initialDb exRegisterDuringStartup) ∧
    (run initialDb exRegisterBeforeStartup).users.map (fun u => (u.id, u.email)) =
      [("u-eve", "admin@diwaifox.com"), ("u-root", "admin@diwaifox.com")] ∧
    ¬ emailsUnique (run initialDb exRegisterBeforeStartup) ∧
    (∀ (reqs : List Request) (uuid hashedPassword now : String),
      (respects checksEmail initialDb reqs →
        emailsUnique (run initialDb reqs) ∧
        ((run initialDb reqs).users.map (fun u => u.email)).Nodup) ∧
      (respects checksEmail (seededDb uuid hashedPassword now) reqs →
        emailsUnique (run (seededDb uuid hashedPassword now) reqs) ∧
        ((run (seededDb uuid hashedPassword now) reqs).users.map
          (fun u => u.email)).Nodup)) := by
  have hdup : ∀ (db : Db) (a b : String × String) (e : String),
      db.users.map (fun u => (u.id, u.email)) = [a, b] → a.2 = e → b.2 = e →
      ¬ emailsUnique db := by
    intro db a b e hm ha hb hall
    have hlen : db.users.length = 2 := by
      have := congrArg List.length hm
      simpa using this
    have h0 : 0 < db.users.length := by omega
    have h1 : 1 < db.users.length := by omega
    have hm0 : (db.users.map (fun u => (u.id, u.email)))[0]? = some a := by rw [hm]; rfl
    have hm1 : (db.users.map (fun u => (u.id, u.email)))[1]? = some b := by rw [hm]; rfl
    rw [List.getElem?_map, List.getElem?_eq_getElem h0] at hm0
    rw [List.getElem?_map, List.getElem?_eq_getElem h1] at hm1
    have he0 : (db.users[0]).email = e := by
      have := Option.some.inj hm0
      rw [← ha, ← this]
    have he1 : (db.users[1]).email = e := by
      have := Option.some.inj hm1
      rw [← hb, ← this]
    have := hall 0 1 _ _ (List.getElem?_eq_getElem h0) (List.getElem?_eq_getElem h1)
      (by rw [he0, he1])
    exact absurd this (by decide)
  have h1 : (run initialDb exOverlappingRegisters).users.map (fun u => (u.id, u.email)) =
      [("u-dan", "dan@example.com"), ("u-dup", "dan@example.com")] := by rfl
  have h2 : (run initialDb exRegisterDuringStartup).users.map (fun u => (u.id, u.email)) =
      [("u-root", "admin@diwaifox.com"), ("u-eve", "admin@diwaifox.com")] := by rfl
  have h3 : (run initialDb exRegisterBeforeStartup).users.map (fun u => (u.id, u.email)) =
      [("u-eve", "admin@diwaifox.com"), ("u-root", "admin@diwaifox.com")] := by rfl
  refine ⟨h1, hdup _ _ _ _ h1 rfl rfl, h2, hdup _ _ _ _ h2 rfl rfl, h3,
    hdup _ _ _ _ h3 rfl rfl, ?_⟩
  intro reqs uuid hashedPassword now
  constructor
  · intro hres
    have h0 := run_keeps_emails reqs initialDb (by simp [initialDb]) hres
    exact ⟨emailsUnique_of_nodup _ h0, h0⟩
  · intro hres
    have h0 := run_keeps_emails reqs (seededDb uuid hashedPassword now)
      (by simp [seededDb, initialDb]) hres
    exact ⟨emailsUnique_of_nodup _ h0, h0⟩

/-! ## Login -/

/-- C12 fails on the code: a login that names a stored email and sends no password is
answered 500 'Server error', because the password check rejects a missing password and
the handler's `catch` answers, while the same login with an email that no user has is
answered 400 'Invalid credentials'.  Where the password check answers that the password
does not match, the two failures are identical; no failure changes the store. -/
theorem login_failures_differ_without_password :
    postAuthLogin exDb exLoginNoPassword exCompare = (.error 500 "Server error", exDb) ∧
    postAuthLogin exDb exLoginUnknownNoPassword exCompare =
      (.error 400 "Invalid credentials", exDb) ∧
    (∀ (db : Db) (unknown known : LoginBody)
      (compare compare' : Option String → Option String → Option Bool) (user : User),
      (∀ u ∈ db.users, some u.email ≠ unknown.email) →
      db.users.find? (fun u => some u.email == known.email) = some user →
      postAuthLogin db unknown compare = (.error 400 "Invalid credentials", db) ∧
      (compare' known.password user.password = some false →
        postAuthLogin db known compare' = (.error 400 "Invalid credentials", db) ∧
        (postAuthLogin db unknown compare).1 = (postAuthLogin db known compare').1) ∧
      (compare' known.password user.password = none →
        postAuthLogin db known compare' = (.error 500 "Server error", db) ∧
        (postAuthLogin db unknown compare).1 ≠ (postAuthLogin db known compare').1) ∧
      (known.password = none → (∀ stored, compare' none stored = none) →
        postAuthLogin db known compare' = (.error 500 "Server error", db))) := by
  refine ⟨by rfl, by rfl, ?_⟩
  intro db unknown known compare compare' user hunknown hknown
  have hnone : db.users.find? (fun u => some u.email == unknown.email) = none := by
    rw [List.find?_eq_none]
    intro u hu
    simpa using hunknown u hu
  have h1 : postAuthLogin db unknown compare = (.error 400 "Invalid credentials", db) := by
    unfold postAuthLogin
    rw [hnone]
  have h500 : compare' known.password user.password = none →
      postAuthLogin db known compare' = (.error 500 "Server error", db) := by
    intro hrej
    unfold postAuthLogin
    rw [hknown]
    simp only []
    rw [hrej]
  refine ⟨h1, ?_, ?_, ?_⟩
  · intro hwrong
    have h2 : postAuthLogin db known compare' = (.error 400 "Invalid credentials", db) := by
      unfold postAuthLogin
      rw [hknown]
      simp only []
      rw [hwrong]
    exact ⟨h2, by rw [h1, h2]⟩
  · intro hrej
    refine ⟨h500 hrej, ?_⟩
    rw [h1, h500 hrej]
    simp
  · intro hpw hcontract
    apply h500
    rw [hpw]
    exact hcontract user.password

/-- Where emails are pairwise different, the lookup by a stored user's email finds that
user. -/
theorem stored_user_found_by_email (users : List User) (user : User) (hu : user ∈ users)
    (h : (users.map (fun u => u.email)).Nodup) :
    users.find? (fun u => some u.email == some user.email) = some user := by
  induction users with
  | nil => simp at hu
  | cons a rest ih =>
    rw [List.map_cons, List.nodup_cons] at h
    rcases List.mem_cons.mp hu with hua | hur
    · rw [hua]
      simp [List.find?]
    · have hne : a.email ≠ user.email := by
        intro he
        exact h.1 (by rw [he]; exact List.mem_map_of_mem (fun u => u.email) hur)
      simp only [List.find?]
      have hb : (some a.email == some user.email) = false := by simpa using hne
      rw [hb]
      exact ih hur h.2

/-- C13. When the lookup by email finds a stored user and the password check accepts
the password, login answers 200 with that user (password removed) and a token that
`authenticateToken` accepts and decodes to the stored user's id, email and role; the
store is unchanged. -/
theorem login_token_round_trip (db : Db) (body : LoginBody)
    (compare : Option String → Option String → Option Bool) (user : User)
    (hfound : db.users.find? (fun u => some u.email == body.email) = some user)
    (hpassword : compare body.password user.password = some true) :
    ∃ reply : AuthReply,
      postAuthLogin db body compare = (.ok 200 reply, db) ∧
      reply.message = "Login successful" ∧
      reply.user = { user with password := none } ∧
      jwtVerify reply.token = some ⟨user.id, user.email, user.role⟩ ∧
      authenticateToken (some reply.token) = .ok ⟨user.id, user.email, user.role⟩ ∧
      some user.email = body.email ∧ user ∈ db.users := by
  have hrun : postAuthLogin db body compare =
      (.ok 200 ⟨"Login successful", jwtSign ⟨user.id, user.email, user.role⟩,
        { user with password := none }⟩, db) := by
    unfold postAuthLogin
    rw [hfound]
    simp only []
    rw [hpassword]
  have hverify : jwtVerify (jwtSign ⟨user.id, user.email, user.role⟩) =
      some ⟨user.id, user.email, user.role⟩ := by
    unfold jwtVerify jwtSign
    rw [if_pos rfl]
  refine ⟨_, hrun, rfl, rfl, hverify, ?_, ?_, List.mem_of_find?_eq_some hfound⟩
  · unfold authenticateToken
    simp only []
    rw [hverify]
  · have := List.find?_some hfound
    simpa using this

theorem login_token_round_trip_witness :
    ∃ reply : AuthReply,
      postAuthLogin exDb exLogin exCompare = (.ok 200 reply, exDb) ∧
      authenticateToken (some reply.token) = .ok exDriverCaller := by
  obtain ⟨reply, h1, -, -, -, h2, -⟩ :=
    login_token_round_trip exDb exLogin exCompare exDriver (by rfl) (by rfl)
  exact ⟨reply, h1, h2⟩

/-! ## Payments -/

/-- C14. Payment submission answers 404 when no ride of the ledger has the given
`rideId`, and 403 when the ride found has another passenger and the caller is not an
admin; in both cases the store (payments and rides included) is unchanged. -/
theorem payment_failures (db : Db) (caller : Caller) (body : PaymentBody)
    (uuid now : String) (nowMs : Nat) :
    ((∀ r ∈ db.rides, some r.id ≠ body.rideId) →
      postPayments db caller body uuid now nowMs = (.error 404 "Ride not found", db)) ∧
    (∀ (rideId : String) (ride : Ride), body.rideId = some rideId →
      db.rides.find? (fun r => r.id == rideId) = some ride →
      ride.passengerId ≠ caller.id → caller.role ≠ "admin" →
      postPayments db caller body uuid now nowMs = (.error 403 "Access denied", db)) ∧
    (∀ code msg, (postPayments db caller body uuid now nowMs).1 = .error code msg →
      (postPayments db caller body uuid now nowMs).2 = db) := by
  obtain ⟨hnone, h404, h403, h201⟩ := postPayments_cases db caller body uuid now nowMs
  refine ⟨?_, h403, ?_⟩
  · intro hno
    cases hid : body.rideId with
    | none => exact hnone hid
    | some rideId =>
      apply h404 rideId hid
      rw [List.find?_eq_none]
      intro r hr
      have := hno r hr
      rw [hid] at this
      simpa using this
  · intro code msg herr
    cases hid : body.rideId with
    | none => rw [hnone hid]
    | some rideId =>
      cases hfind : db.rides.find? (fun r => r.id == rideId) with
      | none => rw [h404 rideId hid hfind]
      | some ride =>
        by_cases hperm : ride.passengerId = caller.id ∨ caller.role = "admin"
        · rw [h201 rideId ride hid hfind hperm] at herr
          exact absurd herr (by simp)
        · rw [h403 rideId ride hid hfind (fun hp => hperm (Or.inl hp))
            (fun hp => hperm (Or.inr hp))]

/-- C15. For a ride found by the given `rideId` and a caller who is its passenger or an
admin, payment submission answers 201 for any amount and method and any earlier payments:
it appends one payment with status 'completed' and the given `rideId`, amount and method,
keeps the earlier payments, sets the `paymentStatus` of the ride found to 'completed' and
changes no other ride and no user.  A second submission succeeds as well and leaves two
records for the ride. -/
theorem payment_always_recorded (db : Db) (caller : Caller) (body : PaymentBody)
    (uuid now : String) (nowMs : Nat) (uuid' now' : String) (nowMs' : Nat)
    (rideId : String) (ride : Ride)
    (hid : body.rideId = some rideId)
    (hride : db.rides.find? (fun r => r.id == rideId) = some ride)
    (hperm : ride.passengerId = caller.id ∨ caller.role = "admin") :
    ∃ payment payment' : Payment,
      (postPayments db caller body uuid now nowMs).1 =
        .ok 201 ⟨"Payment processed successfully", payment⟩ ∧
      payment.status = "completed" ∧ payment.rideId = rideId ∧
      payment.amount = body.amount ∧ payment.method = body.method ∧
      (postPayments db caller body uuid now nowMs).2.payments = db.payments ++ [payment] ∧
      (∃ i : Nat, db.rides[i]? = some ride ∧
        (postPayments db caller body uuid now nowMs).2.rides[i]? =
          some { ride with paymentStatus := "completed" } ∧
        ∀ j : Nat, j ≠ i →
          (postPayments db caller body uuid now nowMs).2.rides[j]? = db.rides[j]?) ∧
      (postPayments db caller body uuid now nowMs).2.users = db.users ∧
      (postPayments (postPayments db caller body uuid now nowMs).2 caller body uuid' now'
          nowMs').1 = .ok 201 ⟨"Payment processed successfully", payment'⟩ ∧
      payment'.status = "completed" ∧ payment'.rideId = rideId ∧
      payment'.amount = body.amount ∧ payment'.method = body.method ∧
      (postPayments (postPayments db caller body uuid now nowMs).2 caller body uuid' now'
          nowMs').2.payments = db.payments ++ [payment, payment'] := by
  have hrun := (postPayments_cases db caller body uuid now nowMs).2.2.2 rideId ride hid hride
    hperm
  have hidr : ride.id = rideId := by
    have := List.find?_some hride
    simpa using this
  have hride' : (postPayments db caller body uuid now nowMs).2.rides.find?
      (fun r => r.id == rideId) = some { ride with paymentStatus := "completed" } := by
    rw [hrun]
    exact find_updateFound (fun r => r.id == rideId)
      (fun r => { r with paymentStatus := "completed" }) db.rides ride hride
      (by simpa using hidr)
  have hrun' := (postPayments_cases (postPayments db caller body uuid now nowMs).2 caller body
    uuid' now' nowMs').2.2.2 rideId _ hid hride' hperm
  obtain ⟨i, h1, -, h3, h4⟩ := updateFound_of_find_some (fun r => r.id == rideId)
    (fun r => { r with paymentStatus := "completed" }) db.rides ride hride
  refine ⟨_, _, by rw [hrun], rfl, rfl, rfl, rfl, by rw [hrun], ⟨i, h1, ?_, ?_⟩, by rw [hrun],
    by rw [hrun'], rfl, rfl, rfl, rfl, ?_⟩
  · rw [hrun]
    exact h3
  · rw [hrun]
    exact h4
  · rw [hrun', hrun]
    simp

theorem payment_always_recorded_witness :
    exDb.rides.find? (fun r => r.id == "r-1") = some exRide ∧
    ∃ payment payment' : Payment,
      (postPayments (postPayments exDb exPassengerCaller exPaymentBody "p-1" "2024-02-05" 1).2
        exPassengerCaller exPaymentBody "p-2" "2024-02-06" 2).2.payments =
        [payment, payment'] ∧
      payment.rideId = "r-1" ∧ payment'.rideId = "r-1" := by
  obtain ⟨payment, payment', -, -, h1, -, -, -, -, -, -, -, h2, -, -, h3⟩ :=
    payment_always_recorded exDb exPassengerCaller exPaymentBody "p-1" "2024-02-05" 1
      "p-2" "2024-02-06" 2 "r-1" exRide rfl (by rfl) (Or.inl rfl)
  exact ⟨by rfl, payment, payment', h3, h1, h2⟩

/-! ## Admin statistics -/

/-- The sum of two number fields as values. -/
theorem jsAdd_num (fraction : ℚ → String) (a b : JsNum) :
    jsAdd fraction (.num a) (.num b) = some (.num (a.add b)) := rfl

/-- Where every amount is a number field, the revenue is the amounts added up from 0 in
the order of the store with the addition of doubles. -/
theorem totalRevenue_nums (fraction : ℚ → String) (payments : List Payment) :
    ∀ (start : JsNum) (ns : List JsNum), payments.map (fun p => p.amount) = ns.map JsValue.num →
      payments.foldlM (fun sum p => jsAdd fraction sum p.amount) (.num start) =
        some (.num (ns.foldl JsNum.add start)) := by
  induction payments with
  | nil =>
    intro start ns hns
    cases ns with
    | nil => rfl
    | cons n ns => simp at hns
  | cons p payments ih =>
    intro start ns hns
    cases ns with
    | nil => simp at hns
    | cons n ns =>
      simp only [List.map_cons, List.cons.injEq] at hns
      rw [List.foldlM_cons, hns.1, jsAdd_num]
      exact ih (start.add n) ns hns.2

/-- Where every amount is a number field, `null` or a boolean, the revenue is the amounts,
`null` counted as 0, `true` as 1 and `false` as 0, added up from 0 in the order of the
store with the addition of doubles. -/
theorem totalRevenue_primitives (fraction : ℚ → String) (payments : List Payment) :
    ∀ start : JsNum,
      (∀ p ∈ payments,
        (∃ n, p.amount = .num n) ∨ p.amount = .null ∨ ∃ b, p.amount = .bool b) →
      payments.foldlM (fun sum p => jsAdd fraction sum p.amount) (.num start) =
        some (.num ((payments.map (fun p => p.amount.asNumber)).foldl JsNum.add start)) := by
  induction payments with
  | nil => intro start _; rfl
  | cons p payments ih =>
    intro start hall
    have hstep : jsAdd fraction (.num start) p.amount =
        some (.num (start.add p.amount.asNumber)) := by
      rcases hall p (List.mem_cons_self _ _) with ⟨n, hn⟩ | hn | ⟨b, hn⟩ <;> rw [hn] <;> rfl
    rw [List.foldlM_cons, hstep]
    exact ih _ (fun q hq => hall q (List.mem_cons_of_mem _ hq))

/-- Where an amount is an object that cannot be made primitive, the sum throws. -/
theorem totalRevenue_throws (fraction : ℚ → String) (payments : List Payment) :
    ∀ start : JsValue, (∃ p ∈ payments, p.amount = .object none) →
      payments.foldlM (fun sum p => jsAdd fraction sum p.amount) start = none := by
  induction payments with
  | nil =>
    intro start h
    obtain ⟨p, hp, -⟩ := h
    exact absurd hp (by simp)
  | cons q payments ih =>
    intro start h
    obtain ⟨p, hp, hamount⟩ := h
    rw [List.foldlM_cons]
    rcases List.mem_cons.mp hp with hpq | hpq
    · have hnone : jsAdd fraction start q.amount = none := by
        rw [← hpq, hamount]
        unfold jsAdd
        cases start.toPrimitive <;> rfl
      rw [hnone]
      rfl
    · cases hq : jsAdd fraction start q.amount with
      | none => rfl
      | some sum => exact ih sum ⟨p, hpq, hamount⟩

/-- A sum that is a string stays a string. -/
theorem totalRevenue_stays_string (fraction : ℚ → String) (payments : List Payment) :
    ∀ (t : String) (revenue : JsValue),
      payments.foldlM (fun sum p => jsAdd fraction sum p.amount) (.str t) = some revenue →
      ∃ t' : String, revenue = .str t' := by
  induction payments with
  | nil =>
    intro t revenue h
    exact ⟨t, (Option.some.inj h).symm⟩
  | cons q payments ih =>
    intro t revenue h
    rw [List.foldlM_cons] at h
    cases hq : q.amount.toPrimitive with
    | none =>
      have hnone : jsAdd fraction (.str t) q.amount = none := by
        unfold jsAdd
        rw [hq]
        rfl
      rw [hnone] at h
      exact absurd h (by simp)
    | some y =>
      have hsome : jsAdd fraction (.str t) q.amount = some (.str (t ++ y.toStr fraction)) := by
        unfold jsAdd
        rw [hq]
        cases y <;> rfl
      rw [hsome] at h
      exact ih _ revenue h

/-- Where an amount is a string, or an object or array that becomes one, the revenue is a
string. -/
theorem totalRevenue_string (fraction : ℚ → String) (payments : List Payment) :
    ∀ (start revenue : JsValue),
      (∃ p ∈ payments, ∃ s : String, p.amount = .str s ∨ p.amount = .object (some s)) →
      payments.foldlM (fun sum p => jsAdd fraction sum p.amount) start = some revenue →
      ∃ t : String, revenue = .str t := by
  induction payments with
  | nil =>
    intro start revenue h _
    obtain ⟨p, hp, -⟩ := h
    exact absurd hp (by simp)
  | cons q payments ih =>
    intro start revenue h hrev
    obtain ⟨p, hp, s, hamount⟩ := h
    rw [List.foldlM_cons] at hrev
    rcases List.mem_cons.mp hp with hpq | hpq
    · have hprim : q.amount.toPrimitive = some (.str s) := by
        rw [← hpq]
        rcases hamount with h | h <;> rw [h] <;> rfl
      cases hstart : start.toPrimitive with
      | none =>
        have hnone : jsAdd fraction start q.amount = none := by
          unfold jsAdd
          rw [hstart]
        rw [hnone] at hrev
        exact absurd hrev (by simp)
      | some x =>
        have hstr : ∃ t : String, jsAdd fraction start q.amount = some (.str t) := by
          unfold jsAdd
          rw [hstart, hprim]
          cases x <;> exact ⟨_, rfl⟩
        obtain ⟨t, ht⟩ := hstr
        rw [ht] at hrev
        exact totalRevenue_stays_string fraction payments t revenue hrev
    · cases hq : jsAdd fraction start q.amount with
      | none =>
        rw [hq] at hrev
        exact absurd hrev (by simp)
      | some sum =>
        rw [hq] at hrev
        exact ih sum revenue ⟨p, hpq, s, hamount⟩ hrev

/-- Adding up doubles whose partial sums are doubles too gives the exact sum. -/
theorem foldl_add_exact (qs : List ℚ) :
    ∀ start : ℚ, (∀ q ∈ qs, isDouble q ∧ |q| < 2 ^ 1024) →
      (∀ k : Nat, k ≤ qs.length →
        isDouble (start + (qs.take k).sum) ∧ |start + (qs.take k).sum| < 2 ^ 1024) →
      (qs.map JsNum.num).foldl JsNum.add (.num start) = .num (start + qs.sum) := by
  induction qs with
  | nil => intro start _ _; simp
  | cons q qs ih =>
    intro start hq hsum
    have h0 := hsum 0 (Nat.zero_le _)
    have h1 := hsum 1 (by simp)
    simp only [List.take_zero, List.sum_nil, add_zero] at h0
    simp only [List.take_succ_cons, List.take_zero, List.sum_cons, List.sum_nil, add_zero] at h1
    have hstep : (JsNum.num start).add (.num q) = .num (start + q) :=
      add_num_num start q start q (start + q) (toDouble_of_isDouble _ h0.1) h0.2
        (toDouble_of_isDouble _ (hq q (List.mem_cons_self _ _)).1)
        (hq q (List.mem_cons_self _ _)).2 (toDouble_of_isDouble _ h1.1) h1.2
    simp only [List.map_cons, List.foldl_cons, List.sum_cons]
    rw [hstep, ih (start + q) (fun x hx => hq x (List.mem_cons_of_mem _ hx)), add_assoc]
    intro k hk
    have := hsum (k + 1) (by simpa using hk)
    simpa [List.take_succ_cons, List.sum_cons, add_assoc] using this

/-- An integer of magnitude up to `2^53` is written with its decimal digits. -/
theorem toStr_int (fraction : ℚ → String) (n : ℤ) (hn : |n| ≤ 2 ^ 53) :
    (JsNum.num (n : ℚ)).toStr fraction = toString n := by
  have hq : |(n : ℚ)| ≤ 2 ^ 53 := by
    have : ((|n| : ℤ) : ℚ) ≤ ((2 ^ 53 : ℤ) : ℚ) := by exact_mod_cast hn
    rw [Int.cast_abs] at this
    exact_mod_cast this
  have hof : (JsNum.num (n : ℚ)).toNumber = .num (n : ℚ) :=
    ofRat_of_isDouble _ (isDouble_of_eq _ n 0 (by simp) hn (by norm_num))
      (lt_of_le_of_lt hq (by norm_num))
  unfold JsNum.toStr
  simp only []
  rw [hof]
  simp only []
  unfold numberToString
  rw [if_pos ⟨Rat.den_intCast n, hq⟩, Rat.num_intCast]

/-- C16, amended. The statistics request changes nothing.  A caller who is not an
admin gets 403.  For an admin, `totalRevenue` is the amounts of all payment records added
up from 0 with JavaScript's `+` in the order of the store, and the request fails with 500
when such a `+` throws, as it does on an amount that cannot be made primitive.  Where all
amounts are numbers this is their sum in the arithmetic of doubles, `null` counting as 0
and a boolean as 1 or 0, and it is the exact sum where the amounts and the sums of the
first `k` of them are doubles; where an amount is a string it is a string.  `totalRides`
is the number of rides, `completedRides` and `activeRides`
the numbers of rides with status 'completed' and 'in-progress', `totalDrivers` and
`totalPassengers` the numbers of users with these roles, `onlineDrivers` the number of
users with role driver and status 'online'; none of these depends on the clock. -/
theorem admin_stats_reduce_store (db : Db) (caller : Caller) (now : String)
    (toDateString : String → String) (fraction : ℚ → String) :
    (getAdminStats db caller now toDateString fraction).2 = db ∧
    (caller.role ≠ "admin" →
      (getAdminStats db caller now toDateString fraction).1 =
        .error 403 "Admin access required") ∧
    (caller.role = "admin" →
      (totalRevenue fraction db.payments = none →
        (getAdminStats db caller now toDateString fraction).1 =
          .error 500 "Internal Server Error") ∧
      ∀ revenue : JsValue, totalRevenue fraction db.payments = some revenue →
        ∃ stats : Stats,
          (getAdminStats db caller now toDateString fraction).1 = .ok 200 stats ∧
          stats.totalRevenue = revenue ∧
          stats.totalRides = db.rides.length ∧
          stats.completedRides =
            (db.rides.filter (fun r => decide (r.status = "completed"))).length ∧
          stats.activeRides =
            (db.rides.filter (fun r => decide (r.status = "in-progress"))).length ∧
          stats.totalDrivers =
            (db.users.filter (fun u => decide (u.role = "driver"))).length ∧
          stats.totalPassengers =
            (db.users.filter (fun u => decide (u.role = "passenger"))).length ∧
          stats.onlineDrivers =
            (db.users.filter
              (fun u => decide (u.role = "driver" ∧ u.status = "online"))).length ∧
          ∀ (now' : String) (toDateString' : String → String),
            ∃ stats' : Stats,
              (getAdminStats db caller now' toDateString' fraction).1 = .ok 200 stats' ∧
              stats'.totalRevenue = stats.totalRevenue ∧
              stats'.totalRides = stats.totalRides ∧
              stats'.completedRides = stats.completedRides ∧
              stats'.activeRides = stats.activeRides ∧
              stats'.totalDrivers = stats.totalDrivers ∧
              stats'.totalPassengers = stats.totalPassengers ∧
              stats'.onlineDrivers = stats.onlineDrivers) ∧
    totalRevenue fraction db.payments =
      db.payments.foldlM (fun sum p => jsAdd fraction sum p.amount) (.num (.num 0)) ∧
    (∀ ns : List JsNum, db.payments.map (fun p => p.amount) = ns.map JsValue.num →
      totalRevenue fraction db.payments = some (.num (ns.foldl JsNum.add (.num 0)))) ∧
    (∀ qs : List ℚ,
      db.payments.map (fun p => p.amount) = qs.map (fun q => JsValue.num (.num q)) →
      (∀ q ∈ qs, isDouble q ∧ |q| < 2 ^ 1024) →
      (∀ k : Nat, k ≤ qs.length →
        isDouble (qs.take k).sum ∧ |(qs.take k).sum| < 2 ^ 1024) →
      totalRevenue fraction db.payments = some (.num (.num qs.sum))) ∧
    ((∀ p ∈ db.payments,
        (∃ n, p.amount = .num n) ∨ p.amount = .null ∨ ∃ b, p.amount = .bool b) →
      totalRevenue fraction db.payments =
        some (.num ((db.payments.map (fun p => p.amount.asNumber)).foldl JsNum.add
          (.num 0)))) ∧
    ((∃ p ∈ db.payments, p.amount = .object none) →
      totalRevenue fraction db.payments = none) ∧
    (∀ revenue : JsValue, totalRevenue fraction db.payments = some revenue →
      (∃ p ∈ db.payments, ∃ s : String, p.amount = .str s ∨ p.amount = .object (some s)) →
      ∃ t : String, revenue = .str t) := by
  have hnums : ∀ ns : List JsNum, db.payments.map (fun p => p.amount) = ns.map JsValue.num →
      totalRevenue fraction db.payments = some (.num (ns.foldl JsNum.add (.num 0))) :=
    fun ns hns => totalRevenue_nums fraction db.payments (.num 0) ns hns
  refine ⟨(readers_keep_db db caller).2.2.2.2.2.2.2.1 now toDateString fraction, ?_, ?_, rfl,
    hnums, ?_, totalRevenue_primitives fraction db.payments (.num 0),
    totalRevenue_throws fraction db.payments _,
    fun revenue hrev hstr => totalRevenue_string fraction db.payments _ revenue hstr hrev⟩
  · intro h
    unfold getAdminStats
    rw [if_pos h]
  · intro h
    constructor
    · intro hnone
      unfold getAdminStats
      rw [if_neg (not_not.mpr h), hnone]
    · intro revenue hrev
      have hrun : ∀ (n : String) (f : String → String),
          getAdminStats db caller n f fraction =
          (.ok 200
            { totalRides := db.rides.length
              completedRides := (db.rides.filter (fun r => r.status == "completed")).length
              activeRides := (db.rides.filter (fun r => r.status == "in-progress")).length
              totalRevenue := revenue
              totalDrivers := (db.users.filter (fun u => u.role == "driver")).length
              onlineDrivers :=
                (db.users.filter
                  (fun u => u.role == "driver" && u.status == "online")).length
              totalPassengers := (db.users.filter (fun u => u.role == "passenger")).length
              todayRides :=
                (db.rides.filter (fun r => f r.createdAt == f n)).length }, db) := by
        intro n f
        unfold getAdminStats
        rw [if_neg (not_not.mpr h), hrev]
      refine ⟨_, by rw [hrun], rfl, rfl, ?_, ?_, ?_, ?_, ?_, ?_⟩
      · show (db.rides.filter (fun r => r.status == "completed")).length = _
        congr 1
      · show (db.rides.filter (fun r => r.status == "in-progress")).length = _
        congr 1
      · show (db.users.filter (fun u => u.role == "driver")).length = _
        congr 1
      · show (db.users.filter (fun u => u.role == "passenger")).length = _
        congr 1
      · show (db.users.filter (fun u => u.role == "driver" && u.status == "online")).length = _
        congr 2
        funext u
        rw [Bool.eq_iff_iff]
        simp
      · intro now' toDateString'
        refine ⟨_, by rw [hrun], ?_⟩
        exact ⟨rfl, rfl, rfl, rfl, rfl, rfl, rfl⟩
  · intro qs hqs hq hsum
    have hns : db.payments.map (fun p => p.amount) = (qs.map JsNum.num).map JsValue.num := by
      rw [hqs, List.map_map]
      rfl
    rw [hnums _ hns, foldl_add_exact qs 0 hq (by simpa using hsum), zero_add]

/-! ## Permission to update a status -/

/-- C17. A status update of a ride found by id succeeds exactly when the caller is an
admin, or a driver whose id is the ride's `driverId`; any other caller gets 403
'Access denied' and the store (status, end time and earnings included) is unchanged. -/
theorem status_update_permission (db : Db) (caller : Caller) (id status now : String)
    (ride : Ride)
    (hride : db.rides.find? (fun r => r.id == id) = some ride) :
    ((∃ code reply, (putRideStatus db caller id status now).1 = .ok code reply) ↔
      (caller.role = "admin" ∨ (caller.role = "driver" ∧ ride.driverId = some caller.id))) ∧
    (¬ (caller.role = "admin" ∨ (caller.role = "driver" ∧ ride.driverId = some caller.id)) →
      putRideStatus db caller id status now = (.error 403 "Access denied", db)) ∧
    ((caller.role = "admin" ∨ (caller.role = "driver" ∧ ride.driverId = some caller.id)) →
      ∃ reply, (putRideStatus db caller id status now).1 = .ok 200 reply ∧
        reply.ride.status = status) := by
  obtain ⟨-, h403, hdone, hother⟩ := putRideStatus_cases db caller id status now
  have hok : mayUpdateStatus caller ride →
      ∃ reply, (putRideStatus db caller id status now).1 = .ok 200 reply ∧
        reply.ride.status = status := by
    intro hmay
    by_cases hst : status = "completed"
    · rw [hdone ride hride hmay hst]
      exact ⟨_, rfl, rfl⟩
    · rw [hother ride hride hmay hst]
      exact ⟨_, rfl, rfl⟩
  refine ⟨⟨?_, ?_⟩, ?_, hok⟩
  · rintro ⟨code, reply, h⟩
    by_contra hno
    rw [h403 ride hride hno] at h
    exact absurd h (by simp)
  · intro hmay
    obtain ⟨reply, h, -⟩ := hok hmay
    exact ⟨200, reply, h⟩
  · intro hno
    exact h403 ride hride hno

theorem status_update_permission_witness :
    exDbAccepted.rides.find? (fun r => r.id == "r-1") = some exRideAccepted ∧
    putRideStatus exDbAccepted exDriver2Caller "r-1" "completed" "2024-02-05" =
      (.error 403 "Access denied", exDbAccepted) ∧
    putRideStatus exDbAccepted exPassengerCaller "r-1" "cancelled" "2024-02-05" =
      (.error 403 "Access denied", exDbAccepted) ∧
    ∃ code reply, (putRideStatus exDbAccepted exDriverCaller "r-1" "in-progress"
      "2024-02-05").1 = .ok code reply :=
  ⟨by rfl,
    (status_update_permission exDbAccepted exDriver2Caller "r-1" "completed" "2024-02-05"
      exRideAccepted (by rfl)).2.1 (by decide),
    (status_update_permission exDbAccepted exPassengerCaller "r-1" "cancelled" "2024-02-05"
      exRideAccepted (by rfl)).2.1 (by decide),
    (status_update_permission exDbAccepted exDriverCaller "r-1" "in-progress" "2024-02-05"
      exRideAccepted (by rfl)).1.2 (by decide)⟩

theorem admin_stats_reduce_store_witness :
    exAdminCaller.role = "admin" ∧
    ∀ fraction : ℚ → String, ∃ stats : Stats,
      getAdminStats exDbPaid exAdminCaller "2024-03-01" (fun t => t) fraction =
        (.ok 200 stats, exDbPaid) ∧
      stats.totalRevenue = .num (.num (47 / 2)) ∧ stats.totalRides = 2 ∧
      stats.totalDrivers = 2 ∧ stats.totalPassengers = 1 := by
  refine ⟨rfl, ?_⟩
  intro fraction
  obtain ⟨hdb, -, h, -, hnums, -⟩ :=
    admin_stats_reduce_store exDbPaid exAdminCaller "2024-03-01" (fun t => t) fraction
  have h1 : (JsNum.num 0).add (.num (25 / 2)) = .num (25 / 2) :=
    add_num_num 0 (25 / 2) 0 (25 / 2) (25 / 2) toDouble_zero (by norm_num)
      (toDouble_of_isDouble _
        (isDouble_of_eq _ 25 (-1) (by norm_num [zpow_neg]) (by norm_num) (by norm_num)))
      (by norm_num [abs_of_pos])
      (by
        rw [zero_add]
        exact toDouble_of_isDouble _
          (isDouble_of_eq _ 25 (-1) (by norm_num [zpow_neg]) (by norm_num) (by norm_num)))
      (by norm_num [abs_of_pos])
  have h2 : (JsNum.num (25 / 2)).add (.num 11) = .num (47 / 2) :=
    add_num_num (25 / 2) 11 (25 / 2) 11 (47 / 2)
      (toDouble_of_isDouble _
        (isDouble_of_eq _ 25 (-1) (by norm_num [zpow_neg]) (by norm_num) (by norm_num)))
      (by norm_num [abs_of_pos])
      (toDouble_of_isDouble _ (isDouble_of_eq _ 11 0 (by norm_num) (by norm_num) (by norm_num)))
      (by norm_num [abs_of_pos])
      (by
        have h : (25 / 2 + 11 : ℚ) = 47 / 2 := by norm_num
        rw [h]
        exact toDouble_of_isDouble _
          (isDouble_of_eq _ 47 (-1) (by norm_num [zpow_neg]) (by norm_num) (by norm_num)))
      (by norm_num [abs_of_pos])
  have hrev : totalRevenue fraction exDbPaid.payments = some (.num (.num (47 / 2))) := by
    rw [hnums [.num (25 / 2), .num 11] rfl]
    simp only [List.foldl_cons, List.foldl_nil]
    rw [h1, h2]
  obtain ⟨stats, hstats, hsum, hrides, -, -, hdrivers, hpassengers, -⟩ := (h rfl).2 _ hrev
  refine ⟨stats, Prod.ext hstats hdb, hsum, hrides, ?_, ?_⟩
  · rw [hdrivers]
    decide
  · rw [hpassengers]
    decide

/-! ## Invariants of the ride ledger -/

/-- A property of rides that a new pending ride has and that an acceptance, a payment and
the status update at hand preserve holds for all rides after the request when it holds
for all rides before. -/
theorem step_rides_inv (P : Ride → Prop) (db : Db) (req : Request)
    (hnew : ∀ r : Ride, r.driverId = none → r.status = "pending" → r.endTime = none → P r)
    (haccept : ∀ (r : Ride) (c now : String), P r → r.status = "pending" →
      P { r with driverId := some c, status := "accepted", startTime := some now })
    (hstatus : ∀ (token : Option Token) (id status now : String) (caller : Caller)
      (ride : Ride), req = .updateRideStatus token id status now →
      authenticateToken token = .ok caller →
      db.rides.find? (fun r => r.id == id) = some ride → mayUpdateStatus caller ride →
      P ride →
      P { ride with
          status := status
          endTime := if status = "completed" then some now else ride.endTime })
    (hpay : ∀ r : Ride, P r → P { r with paymentStatus := "completed" })
    (hP : ∀ r ∈ db.rides, P r) :
    ∀ r ∈ (step db req).rides, P r := by
  intro r hr
  rcases step_rides_shape db req with hs | ⟨n, hs, h1, h2, h3, -⟩ |
    ⟨id, ride, c, now, hf, hst, hs, -⟩ |
    ⟨token, id, status, now, caller, ride, hreq, hauth, hf, hmay, hs⟩ | ⟨id, ride, hf, hs⟩
  · rw [hs] at hr
    exact hP r hr
  · rw [hs, List.mem_append, List.mem_singleton] at hr
    rcases hr with hr | hr
    · exact hP r hr
    · rw [hr]
      exact hnew n h1 h2 h3
  · rw [hs] at hr
    rcases mem_updateFound _ _ _ _ hr with hr | ⟨y, hy, hry⟩
    · exact hP r hr
    · rw [hf] at hy
      rw [hry, ← Option.some.inj hy]
      exact haccept ride c now (hP ride (List.mem_of_find?_eq_some hf)) hst
  · rw [hs] at hr
    rcases mem_updateFound _ _ _ _ hr with hr | ⟨y, hy, hry⟩
    · exact hP r hr
    · rw [hf] at hy
      rw [hry, ← Option.some.inj hy]
      exact hstatus token id status now caller ride hreq hauth hf hmay
        (hP ride (List.mem_of_find?_eq_some hf))
  · rw [hs] at hr
    rcases mem_updateFound _ _ _ _ hr with hr | ⟨y, hy, hry⟩
    · exact hP r hr
    · rw [hf] at hy
      rw [hry, ← Option.some.inj hy]
      exact hpay ride (hP ride (List.mem_of_find?_eq_some hf))

/-- Every list of requests in which no status update moves a ride into or out of
'pending' keeps the rule "no driver iff pending". -/
theorem run_keeps_driverRule (reqs : List Request) :
    ∀ db : Db, (∀ r ∈ db.rides, driverRule r) → respects keepsDriverRule db reqs →
      ∀ r ∈ (run db reqs).rides, driverRule r := by
  induction reqs with
  | nil => intro db h _; exact h
  | cons req rest ih =>
    intro db h hres
    apply ih (step db req) _ hres.2
    apply step_rides_inv driverRule db req _ _ _ _ h
    · intro r h1 h2 _
      exact ⟨fun _ => h2, fun _ => h1⟩
    · intro r c now _ _
      exact ⟨fun hn => absurd hn (by simp), fun hs => absurd hs (by simp)⟩
    · intro token id status now caller ride hreq hauth hf hmay _
      have hk := hres.1
      rw [hreq] at hk
      exact hk caller ride hauth hf hmay
    · intro r hr
      exact hr

/-- Every list of requests keeps "a completed ride has an end time"; where no status
update gives a ride with an end time another status than 'completed', it keeps "end time
iff completed". -/
theorem run_keeps_endTime (reqs : List Request) :
    ∀ db : Db,
      ((∀ r ∈ db.rides, r.status = "completed" → r.endTime ≠ none) →
        ∀ r ∈ (run db reqs).rides, r.status = "completed" → r.endTime ≠ none) ∧
      ((∀ r ∈ db.rides, endTimeRule r) → respects keepsEndTimeRule db reqs →
        ∀ r ∈ (run db reqs).rides, endTimeRule r) := by
  induction reqs with
  | nil => intro db; exact ⟨fun h => h, fun h _ => h⟩
  | cons req rest ih =>
    intro db
    constructor
    · intro h
      apply (ih (step db req)).1
      apply step_rides_inv (fun r => r.status = "completed" → r.endTime ≠ none) db req _ _ _ _ h
      · intro r _ h2 _ hc
        rw [h2] at hc
        exact absurd hc (by decide)
      · intro r c now _ _ hc
        exact absurd hc (by simp)
      · intro token id status now caller ride _ _ _ _ _ hc
        have hc' : status = "completed" := hc
        simp [hc']
      · intro r hr
        exact hr
    · intro h hres
      apply (ih (step db req)).2 _ hres.2
      apply step_rides_inv endTimeRule db req _ _ _ _ h
      · intro r _ h2 h3
        exact ⟨fun hn => absurd h3 hn, fun hc => by rw [h2] at hc; exact absurd hc (by decide)⟩
      · intro r c now hr hp
        have hnone : r.endTime = none := by
          by_contra hn
          have := hr.1 hn
          rw [hp] at this
          exact absurd this (by decide)
        exact ⟨fun hn => absurd hnone hn, fun hc => absurd hc (by simp)⟩
      · intro token id status now caller ride hreq hauth hf hmay _
        have hk := hres.1
        rw [hreq] at hk
        rcases hk caller ride hauth hf hmay with hc | hn
        · exact ⟨fun _ => hc, fun _ => by simp [hc]⟩
        · by_cases hc : status = "completed"
          · exact ⟨fun _ => hc, fun _ => by simp [hc]⟩
          · constructor
            · intro hset
              simp only [hc, if_false] at hset
              exact absurd hn hset
            · intro hc'
              exact absurd hc' hc
      · intro r hr
        exact hr

/-- C18 fails on the code: a driver who has accepted a ride can set it back to
'pending' (a pending ride with a driver), and an admin can give a ride without driver
another status, each by create, accept and status-update requests from an empty
ledger. -/
theorem driver_rule_broken_by_status_update :
    exDbNoRides.rides = [] ∧
    (∀ req ∈ exAcceptedThenPending, req.isRideRequest = true) ∧
    (¬ ∀ r ∈ (run exDbNoRides exAcceptedThenPending).rides,
      (r.driverId = none ↔ r.status = "pending")) ∧
    exDbWithAdmin.rides = [] ∧
    (∀ req ∈ exAdminStartsPending, req.isRideRequest = true) ∧
    (¬ ∀ r ∈ (run exDbWithAdmin exAdminStartsPending).rides,
      (r.driverId = none ↔ r.status = "pending")) := by
  refine ⟨rfl, ?_, ?_, rfl, ?_, ?_⟩
  · intro req hreq
    simp only [exAcceptedThenPending, List.mem_cons, List.mem_singleton, List.mem_nil_iff,
      or_false] at hreq
    rcases hreq with h | h | h <;> rw [h] <;> rfl
  · intro hall
    have hm : (run exDbNoRides exAcceptedThenPending).rides.map
        (fun r => (r.driverId, r.status)) = [(some "u-dan", "pending")] := by rfl
    cases hrs : (run exDbNoRides exAcceptedThenPending).rides with
    | nil =>
      rw [hrs] at hm
      exact absurd hm (by simp)
    | cons r rest =>
      rw [hrs] at hm hall
      simp only [List.map_cons, List.cons.injEq, Prod.mk.injEq] at hm
      have := (hall r (List.mem_cons_self _ _)).2 hm.1.2
      rw [hm.1.1] at this
      exact absurd this (by simp)
  · intro req hreq
    simp only [exAdminStartsPending, List.mem_cons, List.mem_singleton, List.mem_nil_iff,
      or_false] at hreq
    rcases hreq with h | h <;> rw [h] <;> rfl
  · intro hall
    have hm : (run exDbWithAdmin exAdminStartsPending).rides.map
        (fun r => (r.driverId, r.status)) = [(none, "in-progress")] := by rfl
    cases hrs : (run exDbWithAdmin exAdminStartsPending).rides with
    | nil =>
      rw [hrs] at hm
      exact absurd hm (by simp)
    | cons r rest =>
      rw [hrs] at hm hall
      simp only [List.map_cons, List.cons.injEq, Prod.mk.injEq] at hm
      have := (hall r (List.mem_cons_self _ _)).1 hm.1.1
      rw [hm.1.2] at this
      exact absurd this (by decide)

/-- C18, amended. From an empty ride ledger, after any list of requests (create, accept,
status update, or any other request of the API) in which no status update that is
carried out sets 'pending' on a ride that has a driver or another status on a ride that
has none, every ride has no driver exactly when its status is 'pending'. -/
theorem driver_rule_without_pending_moves (db : Db) (reqs : List Request)
    (hempty : db.rides = []) (hkeeps : respects keepsDriverRule db reqs) :
    ∀ r ∈ (run db reqs).rides, (r.driverId = none ↔ r.status = "pending") :=
  run_keeps_driverRule reqs db (by intro r hr; rw [hempty] at hr; exact absurd hr (by simp))
    hkeeps

theorem driver_rule_without_pending_moves_witness :
    exDbNoRides.rides = [] ∧ respects keepsDriverRule exDbNoRides exLifecycle ∧
    ∀ r ∈ (run exDbNoRides exLifecycle).rides, (r.driverId = none ↔ r.status = "pending") := by
  have hres : respects keepsDriverRule exDbNoRides exLifecycle := by
    unfold exLifecycle
    simp only [respects, keepsDriverRule, and_true, true_and]
    constructor
    · intro caller ride _ hfind _
      have hd : some ride.driverId = some (some "u-dan") :=
        (congrArg (Option.map Ride.driverId) hfind).symm
      rw [Option.some.inj hd]
      exact ⟨fun h => absurd h (by simp), fun h => absurd h (by decide)⟩
    · intro caller ride _ hfind _
      have hd : some ride.driverId = some (some "u-dan") :=
        (congrArg (Option.map Ride.driverId) hfind).symm
      rw [Option.some.inj hd]
      exact ⟨fun h => absurd h (by simp), fun h => absurd h (by decide)⟩
  exact ⟨rfl, hres, driver_rule_without_pending_moves exDbNoRides exLifecycle rfl hres⟩

/-- C19 fails on the code: a ride that was completed and then cancelled keeps its end
time, by create, accept and status-update requests from an empty ledger. -/
theorem end_time_rule_broken_by_status_update :
    exDbNoRides.rides = [] ∧
    (∀ req ∈ exCompletedThenCancelled, req.isRideRequest = true) ∧
    (¬ ∀ r ∈ (run exDbNoRides exCompletedThenCancelled).rides,
      (r.endTime ≠ none ↔ r.status = "completed")) := by
  refine ⟨rfl, ?_, ?_⟩
  · intro req hreq
    simp only [exCompletedThenCancelled, List.mem_cons, List.mem_singleton, List.mem_nil_iff,
      or_false] at hreq
    rcases hreq with h | h | h | h <;> rw [h] <;> rfl
  · intro hall
    have hm : (run exDbNoRides exCompletedThenCancelled).rides.map
        (fun r => (r.endTime, r.status)) = [(some "2024-02-03", "cancelled")] := by rfl
    cases hrs : (run exDbNoRides exCompletedThenCancelled).rides with
    | nil =>
      rw [hrs] at hm
      exact absurd hm (by simp)
    | cons r rest =>
      rw [hrs] at hm hall
      simp only [List.map_cons, List.cons.injEq, Prod.mk.injEq] at hm
      have := (hall r (List.mem_cons_self _ _)).1 (by rw [hm.1.1]; simp)
      rw [hm.1.2] at this
      exact absurd this (by decide)

/-- C19, amended. From an empty ride ledger, after any list of requests every ride with
status 'completed' has its end time set; and where no status update that is carried out
gives a ride that has an end time a status other than 'completed', a ride has its end
time set exactly when its status is 'completed'. -/
theorem end_time_rule_of_completed (db : Db) (reqs : List Request)
    (hempty : db.rides = []) :
    (∀ r ∈ (run db reqs).rides, r.status = "completed" → r.endTime ≠ none) ∧
    (respects keepsEndTimeRule db reqs →
      ∀ r ∈ (run db reqs).rides, (r.endTime ≠ none ↔ r.status = "completed")) := by
  constructor
  · exact (run_keeps_endTime reqs db).1
      (by intro r hr; rw [hempty] at hr; exact absurd hr (by simp))
  · intro hkeeps
    exact (run_keeps_endTime reqs db).2
      (by intro r hr; rw [hempty] at hr; exact absurd hr (by simp)) hkeeps

theorem end_time_rule_of_completed_witness :
    exDbNoRides.rides = [] ∧ respects keepsEndTimeRule exDbNoRides exLifecycle ∧
    (run exDbNoRides exLifecycle).rides.map (fun r => (r.status, r.endTime)) =
      [("completed", some "2024-02-04")] ∧
    ∀ r ∈ (run exDbNoRides exLifecycle).rides, (r.endTime ≠ none ↔ r.status = "completed") := by
  have hres : respects keepsEndTimeRule exDbNoRides exLifecycle := by
    unfold exLifecycle
    simp only [respects, keepsEndTimeRule, and_true, true_and]
    constructor
    · intro caller ride _ hfind _
      right
      have hd : some ride.endTime = some none :=
        (congrArg (Option.map Ride.endTime) hfind).symm
      exact Option.some.inj hd
    · intro caller ride _ _ _
      left
      trivial
  exact ⟨rfl, hres, by rfl,
    (end_time_rule_of_completed exDbNoRides exLifecycle rfl).2 hres⟩

/-! ## The fare of a stored ride -/

/-- One request keeps the id and the fare at every position of the ledger. -/
theorem step_keeps_fare (db : Db) (req : Request) (i : Nat) (r : Ride)
    (h : db.rides[i]? = some r) :
    ∃ r' : Ride, (step db req).rides[i]? = some r' ∧ r'.fare = r.fare ∧ r'.id = r.id := by
  have hupd : ∀ (p : Ride → Bool) (f : Ride → Ride),
      (∀ x, (f x).fare = x.fare ∧ (f x).id = x.id) →
      ∃ r' : Ride, (updateFound p f db.rides)[i]? = some r' ∧ r'.fare = r.fare ∧
        r'.id = r.id := by
    intro p f hf
    have hm := map_updateFound (fun x : Ride => (x.fare, x.id)) p f
      (fun x => by simp only [(hf x).1, (hf x).2]) db.rides
    have hi := congrArg (fun l => l[i]?) hm
    simp only [List.getElem?_map, h, Option.map_some'] at hi
    cases hx : (updateFound p f db.rides)[i]? with
    | none =>
      rw [hx] at hi
      exact absurd hi (by simp)
    | some r' =>
      rw [hx] at hi
      simp only [Option.map_some', Option.some.injEq, Prod.mk.injEq] at hi
      exact ⟨r', rfl, hi.1, hi.2⟩
  rcases step_rides_shape db req with hs | ⟨n, hs, -⟩ | ⟨id, ride, c, now, -, -, hs, -⟩ |
    ⟨token, id, status, now, caller, ride, -, -, -, -, hs⟩ | ⟨id, ride, -, hs⟩
  · rw [hs]
    exact ⟨r, h, rfl, rfl⟩
  · rw [hs]
    have hi : i < db.rides.length := by
      by_contra hlt
      rw [List.getElem?_eq_none (by omega)] at h
      exact absurd h (by simp)
    rw [List.getElem?_append_left hi]
    exact ⟨r, h, rfl, rfl⟩
  · rw [hs]
    exact hupd _ _ (fun x => ⟨rfl, rfl⟩)
  · rw [hs]
    exact hupd _ _ (fun x => ⟨rfl, rfl⟩)
  · rw [hs]
    exact hupd _ _ (fun x => ⟨rfl, rfl⟩)

/-- C20. A request of the API, whichever it is (accept, status update, payment, profile
update, driver status, settings, another booking, or any other), leaves every ride of
the ledger at its position with the fare and the id it had; so does every list of
requests. -/
theorem fare_immutable (db : Db) (req : Request) (reqs : List Request) (i : Nat) (r : Ride)
    (h : db.rides[i]? = some r) :
    (∃ r' : Ride, (step db req).rides[i]? = some r' ∧ r'.fare = r.fare ∧ r'.id = r.id) ∧
    (∃ r' : Ride, (run db reqs).rides[i]? = some r' ∧ r'.fare = r.fare ∧ r'.id = r.id) := by
  refine ⟨step_keeps_fare db req i r h, ?_⟩
  clear req
  induction reqs generalizing db r with
  | nil => exact ⟨r, h, rfl, rfl⟩
  | cons req rest ih =>
    obtain ⟨r1, h1, hf1, hi1⟩ := step_keeps_fare db req i r h
    obtain ⟨r2, h2, hf2, hi2⟩ := ih (step db req) r1 h1
    exact ⟨r2, h2, by rw [hf2, hf1], by rw [hi2, hi1]⟩

theorem fare_immutable_witness :
    exDb.rides[1]? = some exRide ∧
    (∃ r' : Ride,
      (step exDb (.acceptRide (some (jwtSign exDriverCaller)) "r-1" "2024-02-02")).rides[1]? =
        some r' ∧ r'.fare = 25 / 2) ∧
    (∃ r' : Ride,
      (run exDb [.acceptRide (some (jwtSign exDriverCaller)) "r-1" "2024-02-02",
        .updateRideStatus (some (jwtSign exDriverCaller)) "r-1" "completed" "2024-02-03",
        .submitPayment (some (jwtSign exPassengerCaller)) exPaymentBody "p-1" "2024-02-04" 1
        ]).rides[1]? = some r' ∧ r'.fare = 25 / 2) := by
  have h := fare_immutable exDb (.acceptRide (some (jwtSign exDriverCaller)) "r-1" "2024-02-02")
    [.acceptRide (some (jwtSign exDriverCaller)) "r-1" "2024-02-02",
      .updateRideStatus (some (jwtSign exDriverCaller)) "r-1" "completed" "2024-02-03",
      .submitPayment (some (jwtSign exPassengerCaller)) exPaymentBody "p-1" "2024-02-04" 1]
    1 exRide (by rfl)
  obtain ⟨⟨r1, h1, hf1, -⟩, ⟨r2, h2, hf2, -⟩⟩ := h
  exact ⟨by rfl, ⟨r1, h1, hf1⟩, ⟨r2, h2, hf2⟩⟩

/-! ## Registration: the required fields -/

/-- C21. Register answers 400 'All fields are required', and leaves the store unchanged,
whenever one of email, password, name, phone, role is absent or empty, whether or not the
email is stored.  It gives that answer only then: `vehicleType` and `licensePlate` play
no part in the check, so a driver who names neither is registered when the five fields
are there and the email is new. -/
theorem register_requires_five_fields (db : Db) (body : RegisterBody) (uuid now : String)
    (hash : String → String) :
    ((truthy body.email = false ∨ truthy body.password = false ∨ truthy body.name = false ∨
        truthy body.phone = false ∨ truthy body.role = false) →
      postAuthRegister db body uuid now hash = (.error 400 "All fields are required", db)) ∧
    ((postAuthRegister db body uuid now hash).1 = .error 400 "All fields are required" ↔
      (truthy body.email = false ∨ truthy body.password = false ∨ truthy body.name = false ∨
        truthy body.phone = false ∨ truthy body.role = false)) ∧
    (∀ vehicleType licensePlate : Option String,
      (postAuthRegister db
          { body with vehicleType := vehicleType, licensePlate := licensePlate }
          uuid now hash).1 = .error 400 "All fields are required" ↔
        (postAuthRegister db body uuid now hash).1 = .error 400 "All fields are required") ∧
    (truthy body.email = true → truthy body.password = true → truthy body.name = true →
      truthy body.phone = true → truthy body.role = true →
      (∀ u ∈ db.users, some u.email ≠ body.email) →
      ∃ reply : AuthReply,
        (postAuthRegister db body uuid now hash).1 = .ok 201 reply ∧
        some reply.user.role = body.role ∧
        (postAuthRegister db body uuid now hash).2.users.length = db.users.length + 1) := by
  have hfail : ∀ b : RegisterBody,
      (truthy b.email = false ∨ truthy b.password = false ∨ truthy b.name = false ∨
        truthy b.phone = false ∨ truthy b.role = false) →
      postAuthRegister db b uuid now hash = (.error 400 "All fields are required", db) := by
    intro b hb
    obtain ⟨email, password, name, phone, role, vt, lp⟩ := b
    unfold postAuthRegister
    cases email <;> cases password <;> cases name <;> cases phone <;> cases role <;>
      simp_all [truthy]
  have hpass : ∀ b : RegisterBody,
      ¬ (truthy b.email = false ∨ truthy b.password = false ∨ truthy b.name = false ∨
        truthy b.phone = false ∨ truthy b.role = false) →
      (postAuthRegister db b uuid now hash).1 ≠ .error 400 "All fields are required" := by
    intro b hb
    obtain ⟨email, password, name, phone, role, vt, lp⟩ := b
    unfold postAuthRegister
    cases email <;> cases password <;> cases name <;> cases phone <;> cases role <;>
      simp_all [truthy]
    split <;> simp
  have hiff : ∀ b : RegisterBody,
      (postAuthRegister db b uuid now hash).1 = .error 400 "All fields are required" ↔
      (truthy b.email = false ∨ truthy b.password = false ∨ truthy b.name = false ∨
        truthy b.phone = false ∨ truthy b.role = false) := by
    intro b
    constructor
    · intro h
      by_contra hno
      exact hpass b hno h
    · intro h
      rw [hfail b h]
  refine ⟨hfail body, hiff body, ?_, ?_⟩
  · intro vehicleType licensePlate
    rw [hiff, hiff]
  · intro h1 h2 h3 h4 h5 hnew
    clear hfail hpass hiff
    obtain ⟨email, password, name, phone, role, vt, lp⟩ := body
    cases email with
    | none => simp [truthy] at h1
    | some email =>
      cases password with
      | none => simp [truthy] at h2
      | some password =>
        cases name with
        | none => simp [truthy] at h3
        | some name =>
          cases phone with
          | none => simp [truthy] at h4
          | some phone =>
            cases role with
            | none => simp [truthy] at h5
            | some role =>
              have hne : ¬ (email = "" ∨ password = "" ∨ name = "" ∨ phone = "" ∨
                  role = "") := by
                simp only [truthy, bne_iff_ne, ne_eq] at h1 h2 h3 h4 h5
                simp [h1, h2, h3, h4, h5]
              have hnone : db.users.find? (fun u => u.email == email) = none := by
                rw [List.find?_eq_none]
                intro u hu
                simpa using hnew u hu
              unfold postAuthRegister
              simp only []
              rw [if_neg hne, hnone]
              exact ⟨_, rfl, rfl, by simp⟩

theorem register_requires_five_fields_witness :
    postAuthRegister exDb { exRegistration with phone := some "" } "u-new" "2024-03-01"
        (fun pw => "hash-" ++ pw) = (.error 400 "All fields are required", exDb) ∧
    ∃ reply : AuthReply,
      (postAuthRegister exDb exDriverWithoutVehicle "u-fay" "2024-03-01"
        (fun pw => "hash-" ++ pw)).1 = .ok 201 reply ∧
      some reply.user.role = some "driver" := by
  have h1 := (register_requires_five_fields exDb { exRegistration with phone := some "" }
    "u-new" "2024-03-01" (fun pw => "hash-" ++ pw)).1 (by decide)
  obtain ⟨reply, h2, h3, -⟩ := (register_requires_five_fields exDb exDriverWithoutVehicle
    "u-fay" "2024-03-01" (fun pw => "hash-" ++ pw)).2.2.2 rfl rfl rfl rfl rfl (by decide)
  exact ⟨h1, reply, h2, h3⟩

/-! ## Invariants of the user list -/

/-- A property of users that a newly registered user and the default admin pushed at
start-up have and that a credit of a fare to the driver of a ride, a profile update and
the status update at hand preserve holds for all users after the request when it holds
for all users before. -/
theorem step_users_inv (P : User → Prop) (db : Db) (req : Request)
    (hnew : ∀ u : User, u.earnings = .num 0 →
      u.status = (if u.role = "driver" then "offline" else "active") → P u)
    (hcredit : ∀ (u : User) (ride : Ride), ride ∈ db.rides → u ∈ db.users →
      ride.driverId = some u.id → P u →
      P { u with earnings := u.earnings.add (.num ride.fare) })
    (hprofile : ∀ (u : User) (name phone : String) (vehicleType licensePlate : Option String),
      P u → P { u with name := name, phone := phone, vehicleType := vehicleType,
                       licensePlate := licensePlate })
    (hstatus : ∀ (u : User) (token : Option Token) (status : String),
      req = .setDriverStatus token status → P u → P { u with status := status })
    (hseed : ∀ uuid hashedPassword now : String,
      req = .seedAdmin uuid hashedPassword now → P (seededAdmin uuid hashedPassword now))
    (hP : ∀ u ∈ db.users, P u) :
    ∀ u ∈ (step db req).users, P u := by
  intro u hu
  rcases step_users_shape db req with hs | ⟨n, seen, hs, -, h1, h2, -⟩ | ⟨ride, hride, hs⟩ |
    ⟨id, name, phone, vehicleType, licensePlate, hs⟩ | ⟨id, status, hs, token, hreq⟩ |
    ⟨uuid, hashedPassword, now, hreq, hs⟩
  · rw [hs] at hu
    exact hP u hu
  · rw [hs, List.mem_append, List.mem_singleton] at hu
    rcases hu with hu | hu
    · exact hP u hu
    · rw [hu]
      exact hnew n h1 h2
  · rw [hs] at hu
    rcases mem_updateFound _ _ _ _ hu with hu | ⟨y, hy, huy⟩
    · exact hP u hu
    · rw [huy]
      have hmem := List.mem_of_find?_eq_some hy
      have hid : ride.driverId = some y.id := by
        have := List.find?_some hy
        simp only [beq_iff_eq] at this
        exact this.symm
      exact hcredit y ride hride hmem hid (hP y hmem)
  · rw [hs] at hu
    rcases mem_updateFound _ _ _ _ hu with hu | ⟨y, hy, huy⟩
    · exact hP u hu
    · rw [huy]
      exact hprofile y _ _ _ _ (hP y (List.mem_of_find?_eq_some hy))
  · rw [hs] at hu
    rcases mem_updateFound _ _ _ _ hu with hu | ⟨y, hy, huy⟩
    · exact hP u hu
    · rw [huy]
      exact hstatus y token status hreq (hP y (List.mem_of_find?_eq_some hy))
  · rw [hs, List.mem_append, List.mem_singleton] at hu
    rcases hu with hu | hu
    · exact hP u hu
    · rw [hu]
      exact hseed uuid hashedPassword now hreq

/-- Where every driver status update sends 'online' or 'offline', a list of requests
keeps every user's status among 'active', 'online', 'offline'. -/
theorem run_keeps_statusRule (reqs : List Request) :
    ∀ db : Db, (∀ u ∈ db.users, statusRule u) → respects togglesOnlineOffline db reqs →
      ∀ u ∈ (run db reqs).users, statusRule u := by
  induction reqs with
  | nil => intro db h _; exact h
  | cons req rest ih =>
    intro db h hres
    apply ih (step db req) _ hres.2
    apply step_users_inv statusRule db req _ _ _ _ _ h
    · intro u _ hst
      unfold statusRule
      rw [hst]
      by_cases hr : u.role = "driver"
      · rw [if_pos hr]
        right; right; rfl
      · rw [if_neg hr]
        left; rfl
    · intro u ride _ _ _ hu
      exact hu
    · intro u name phone vehicleType licensePlate hu
      exact hu
    · intro u token status hreq _
      have hk := hres.1
      rw [hreq] at hk
      rcases hk with hk | hk
      · right; left; exact hk
      · right; right; exact hk
    · intro uuid hashedPassword now _
      left
      rfl

/-- C22 fails on the code: a registered driver who sends the status 'busy' has the
status 'busy' afterwards.  The route stores the string it is sent; where every such
request sends 'online' or 'offline', every user's status stays among 'active',
'online', 'offline', from the empty store and from the store with the seeded admin. -/
theorem driver_status_accepts_any_string :
    respects wellFormed initialDb exBusyDriver ∧
    (run initialDb exBusyDriver).users.map (fun u => (u.id, u.role, u.status)) =
      [("u-dan", "driver", "busy")] ∧
    (¬ ∀ u ∈ (run initialDb exBusyDriver).users,
      (u.status = "active" ∨ u.status = "online" ∨ u.status = "offline")) ∧
    (∀ (reqs : List Request) (uuid hashedPassword now : String),
      (respects togglesOnlineOffline initialDb reqs →
        ∀ u ∈ (run initialDb reqs).users, statusRule u) ∧
      (respects togglesOnlineOffline (seededDb uuid hashedPassword now) reqs →
        ∀ u ∈ (run (seededDb uuid hashedPassword now) reqs).users, statusRule u)) := by
  have hm : (run initialDb exBusyDriver).users.map (fun u => (u.id, u.role, u.status)) =
      [("u-dan", "driver", "busy")] := by rfl
  refine ⟨?_, hm, ?_, ?_⟩
  · refine ⟨⟨?_, ?_⟩, ⟨?_, trivial⟩, trivial⟩
    · intro caller h
      exact absurd h (by simp [Request.token, exRegisterDriver, authenticateToken])
    · intro u hu
      exact absurd hu (by simp [initialDb])
    · intro caller h
      have hc : caller = exDriverCaller := by
        have h' : (Except.ok exDriverCaller : Except (Nat × String) Caller) = .ok caller := h
        exact (Except.ok.inj h').symm
      rw [hc]
      have hmem : (step initialDb exRegisterDriver).users.map
          (fun u => (u.id, u.email, u.role)) = [("u-dan", "dan@example.com", "driver")] := by
        rfl
      cases hus : (step initialDb exRegisterDriver).users with
      | nil =>
        rw [hus] at hmem
        exact absurd hmem (by simp)
      | cons u rest =>
        rw [hus] at hmem
        simp only [List.map_cons, List.cons.injEq, Prod.mk.injEq] at hmem
        exact ⟨u, List.mem_cons_self _ _, hmem.1.1, hmem.1.2.1, hmem.1.2.2⟩
  · intro hall
    cases hus : (run initialDb exBusyDriver).users with
    | nil =>
      rw [hus] at hm
      exact absurd hm (by simp)
    | cons u rest =>
      rw [hus] at hm hall
      simp only [List.map_cons, List.cons.injEq, Prod.mk.injEq] at hm
      have := hall u (List.mem_cons_self _ _)
      rw [hm.1.2.2] at this
      exact absurd this (by decide)
  · intro reqs uuid hashedPassword now
    constructor
    · exact run_keeps_statusRule reqs initialDb
        (by intro u hu; exact absurd hu (by simp [initialDb]))
    · apply run_keeps_statusRule reqs
      intro u hu
      simp only [seededDb, initialDb, List.mem_singleton] at hu
      rw [hu]
      left
      rfl

/-! ## Earnings -/

/-- A fare computed from a draw in `[0, 1)` is not negative. -/
theorem fare_nonneg (vt : String) (r : ℚ) (h0 : 0 ≤ r) (h1 : r < 1) : 0 ≤ fare vt r := by
  have hd2 : 2 ≤ distance r := by
    unfold distance
    linarith
  have hd22 : distance r < 22 := by
    unfold distance
    linarith
  unfold fare baseFare
  rcases perKmRate_cases vt with ⟨-, h⟩ | ⟨-, h⟩ | ⟨-, -, h⟩
  · rw [h]
    have hb := toFixed2_between (5 + distance r * 2) 900 4900 (by linarith)
      (by linarith) (by norm_num; linarith) (by norm_num; linarith)
    norm_num at hb
    linarith [hb.1]
  · rw [h]
    have hb := toFixed2_between (5 + distance r * 3) 1100 7100 (by linarith)
      (by linarith) (by norm_num; linarith) (by norm_num; linarith)
    norm_num at hb
    linarith [hb.1]
  · rw [h]
    have hb := toFixed2_between (5 + distance r * (3 / 2)) 800 3800 (by linarith)
      (by linarith) (by norm_num; linarith) (by norm_num; linarith)
    norm_num at hb
    linarith [hb.1]

/-- After an assignment, every old element is still there, as it was or assigned. -/
theorem mem_updateFound_of_mem {α : Type} (p : α → Bool) (f : α → α) (xs : List α) (x : α)
    (hx : x ∈ xs) : x ∈ updateFound p f xs ∨ f x ∈ updateFound p f xs := by
  induction xs with
  | nil => simp at hx
  | cons a xs ih =>
    by_cases ha : p a = true
    · simp only [updateFound, ha, if_true]
      rcases List.mem_cons.mp hx with h | h
      · right
        rw [h]
        exact List.mem_cons_self _ _
      · left
        exact List.mem_cons_of_mem _ h
    · simp only [Bool.not_eq_true] at ha
      simp only [updateFound, ha, Bool.false_eq_true, if_false]
      rcases List.mem_cons.mp hx with h | h
      · left
        rw [h]
        exact List.mem_cons_self _ _
      · rcases ih h with h' | h'
        · left
          exact List.mem_cons_of_mem _ h'
        · right
          exact List.mem_cons_of_mem _ h'

/-- After an assignment, a position holds what it held, or the assigned value of it. -/
theorem getElem?_updateFound {α : Type} (p : α → Bool) (f : α → α) (xs : List α) (i : Nat) :
    (updateFound p f xs)[i]? = xs[i]? ∨
      ∃ x, xs[i]? = some x ∧ p x = true ∧ (updateFound p f xs)[i]? = some (f x) := by
  induction xs generalizing i with
  | nil => left; rfl
  | cons a xs ih =>
    by_cases ha : p a = true
    · cases i with
      | zero =>
        right
        exact ⟨a, by simp, ha, by simp [updateFound, ha]⟩
      | succ i =>
        left
        simp [updateFound, ha]
    · simp only [Bool.not_eq_true] at ha
      cases i with
      | zero =>
        left
        simp [updateFound, ha]
      | succ i =>
        rcases ih i with h | ⟨x, h1, h2, h3⟩
        · left
          simpa [updateFound, ha] using h
        · right
          exact ⟨x, by simpa using h1, h2, by simpa [updateFound, ha] using h3⟩

/-- One request keeps every stored user, with the id and the role it had. -/
theorem step_keeps_users (db : Db) (req : Request) :
    ∀ u ∈ db.users, ∃ u' ∈ (step db req).users, u'.id = u.id ∧ u'.role = u.role := by
  intro u hu
  rcases step_users_shape db req with hs | ⟨n, seen, hs, -⟩ | ⟨ride, -, hs⟩ |
    ⟨id, name, phone, vehicleType, licensePlate, hs⟩ | ⟨id, status, hs, -⟩ |
    ⟨uuid, hashedPassword, now, -, hs⟩
  · rw [hs]
    exact ⟨u, hu, rfl, rfl⟩
  · rw [hs]
    exact ⟨u, List.mem_append_left _ hu, rfl, rfl⟩
  · rw [hs]
    rcases mem_updateFound_of_mem (fun v => some v.id == ride.driverId)
      (fun v => { v with earnings := v.earnings.add (.num ride.fare) }) db.users u hu with
      h | h
    · exact ⟨u, h, rfl, rfl⟩
    · exact ⟨_, h, rfl, rfl⟩
  · rw [hs]
    rcases mem_updateFound_of_mem (fun v => v.id == id)
      (fun v => { v with name := name v.name, phone := phone v.phone,
                         vehicleType := vehicleType v, licensePlate := licensePlate v })
      db.users u hu with h | h
    · exact ⟨u, h, rfl, rfl⟩
    · exact ⟨_, h, rfl, rfl⟩
  · rw [hs]
    rcases mem_updateFound_of_mem (fun v => v.id == id)
      (fun v => { v with status := status }) db.users u hu with h | h
    · exact ⟨u, h, rfl, rfl⟩
    · exact ⟨_, h, rfl, rfl⟩
  · rw [hs]
    exact ⟨u, List.mem_append_left _ hu, rfl, rfl⟩

/-- A request keeps the fares of the ledger not negative. -/
theorem step_keeps_fares (db : Db) (req : Request) (hfare : ∀ r ∈ db.rides, 0 ≤ r.fare) :
    ∀ r ∈ (step db req).rides, 0 ≤ r.fare := by
  intro r hr
  rcases step_rides_shape db req with hs |
    ⟨n, hs, -, -, -, token, body, uuid, now, rDistance, rEta, vt, hreq, hnfare⟩ |
    ⟨id, ride, c, now, hf, -, hs, -⟩ |
    ⟨token, id, status, now, caller, ride, -, -, hf, -, hs⟩ | ⟨id, ride, hf, hs⟩
  · rw [hs] at hr
    exact hfare r hr
  · rw [hs, List.mem_append, List.mem_singleton] at hr
    rcases hr with hr | hr
    · exact hfare r hr
    · rw [hr, hnfare]
      exact fare_nonneg vt rDistance.val rDistance.property.1 rDistance.property.2
  · rw [hs] at hr
    rcases mem_updateFound _ _ _ _ hr with hr | ⟨y, hy, hry⟩
    · exact hfare r hr
    · rw [hry]
      exact hfare y (List.mem_of_find?_eq_some hy)
  · rw [hs] at hr
    rcases mem_updateFound _ _ _ _ hr with hr | ⟨y, hy, hry⟩
    · exact hfare r hr
    · rw [hry]
      exact hfare y (List.mem_of_find?_eq_some hy)
  · rw [hs] at hr
    rcases mem_updateFound _ _ _ _ hr with hr | ⟨y, hy, hry⟩
    · exact hfare r hr
    · rw [hry]
      exact hfare y (List.mem_of_find?_eq_some hy)

/-- A request of the API keeps the earnings numbers that are not negative. -/
theorem step_keeps_earningsRule (db : Db) (req : Request) (hapi : req.isApiRequest = true)
    (hfare : ∀ r ∈ db.rides, 0 ≤ r.fare) (hearn : ∀ u ∈ db.users, earningsRule u) :
    ∀ u ∈ (step db req).users, earningsRule u := by
  apply step_users_inv earningsRule db req _ _ _ _ _ hearn
  · intro u h0 _
    unfold earningsRule
    rw [h0]
    exact isNonneg_zero
  · intro u ride hride _ _ hrule
    exact (add_isNonneg u.earnings ride.fare hrule (hfare ride hride)).1
  · intro u name phone vehicleType licensePlate hrule
    exact hrule
  · intro u token status _ hrule
    exact hrule
  · intro uuid hashedPassword now hreq
    rw [hreq] at hapi
    simp [Request.isApiRequest] at hapi

/-- A list of requests of the API keeps the earnings numbers that are not negative and the
fares not negative. -/
theorem run_keeps_earningsRule (reqs : List Request) :
    ∀ db : Db, (∀ req ∈ reqs, req.isApiRequest = true) → (∀ u ∈ db.users, earningsRule u) →
      (∀ r ∈ db.rides, 0 ≤ r.fare) →
      (∀ u ∈ (run db reqs).users, earningsRule u) ∧ ∀ r ∈ (run db reqs).rides, 0 ≤ r.fare := by
  induction reqs with
  | nil => intro db _ h1 h2; exact ⟨h1, h2⟩
  | cons req rest ih =>
    intro db hapi h1 h2
    exact ih (step db req) (fun r hr => hapi r (List.mem_cons_of_mem _ hr))
      (step_keeps_earningsRule db req (hapi req (List.mem_cons_self _ _)) h2 h1)
      (step_keeps_fares db req h2)

/-- Where earnings and fares are not negative, no request lowers the earnings at any
position of the user list, and the user there keeps its id and role. -/
theorem step_earnings_monotone (db : Db) (req : Request)
    (hearn : ∀ u ∈ db.users, earningsRule u) (hfare : ∀ r ∈ db.rides, 0 ≤ r.fare) (i : Nat)
    (u : User) (hu : db.users[i]? = some u) :
    ∃ u' : User, (step db req).users[i]? = some u' ∧ u'.id = u.id ∧ u'.role = u.role ∧
      u.earnings.le u'.earnings = true := by
  have hmem : u ∈ db.users := List.getElem?_mem hu
  have hrefl : u.earnings.le u.earnings = true := le_refl_of_isNonneg u.earnings (hearn u hmem)
  have hsame : ∀ (p : User → Bool) (f : User → User),
      (∀ x, (f x).id = x.id ∧ (f x).role = x.role ∧
        ((f x).earnings = x.earnings ∨
          ∃ ride ∈ db.rides, (f x).earnings = x.earnings.add (.num ride.fare))) →
      ∃ u' : User, (updateFound p f db.users)[i]? = some u' ∧ u'.id = u.id ∧
        u'.role = u.role ∧ u.earnings.le u'.earnings = true := by
    intro p f hf
    rcases getElem?_updateFound p f db.users i with h | ⟨x, hx, -, h⟩
    · exact ⟨u, by rw [h, hu], rfl, rfl, hrefl⟩
    · rw [hu] at hx
      have hxu : u = x := Option.some.inj hx
      rw [← hxu] at h
      obtain ⟨h1, h2, h3⟩ := hf u
      rcases h3 with h3 | ⟨ride, hride, h3⟩
      · exact ⟨f u, h, h1, h2, by rw [h3]; exact hrefl⟩
      · exact ⟨f u, h, h1, h2, by
          rw [h3]
          exact (add_isNonneg u.earnings ride.fare (hearn u hmem) (hfare ride hride)).2⟩
  have happend : ∀ n : User, ∃ u' : User, (db.users ++ [n])[i]? = some u' ∧ u'.id = u.id ∧
      u'.role = u.role ∧ u.earnings.le u'.earnings = true := by
    intro n
    have hi : i < db.users.length := by
      by_contra hlt
      rw [List.getElem?_eq_none (by omega)] at hu
      exact absurd hu (by simp)
    rw [List.getElem?_append_left hi]
    exact ⟨u, hu, rfl, rfl, hrefl⟩
  rcases step_users_shape db req with hs | ⟨n, seen, hs, -⟩ | ⟨ride, hride, hs⟩ |
    ⟨id, name, phone, vehicleType, licensePlate, hs⟩ | ⟨id, status, hs, -⟩ |
    ⟨uuid, hashedPassword, now, -, hs⟩
  · rw [hs]
    exact ⟨u, hu, rfl, rfl, hrefl⟩
  · rw [hs]
    exact happend n
  · rw [hs]
    exact hsame _ _ (fun x => ⟨rfl, rfl, Or.inr ⟨ride, hride, rfl⟩⟩)
  · rw [hs]
    exact hsame _ _ (fun x => ⟨rfl, rfl, Or.inl rfl⟩)
  · rw [hs]
    exact hsame _ _ (fun x => ⟨rfl, rfl, Or.inl rfl⟩)
  · rw [hs]
    exact happend _

/-- Where a user of the store after a request comes from: a user stored before, with the
same id and role, a registration, or the start-up push. -/
theorem step_users_origin (db : Db) (req : Request) :
    ∀ u' ∈ (step db req).users,
      (∃ u ∈ db.users, u.id = u'.id ∧ u.role = u'.role) ∨
      (∃ (body : RegisterBody) (uuid now : String) (hash : String → String),
        (req = .register body uuid now hash ∨
          ∃ seen : Db, req = .registerOverlapped seen body uuid now hash) ∧
        u'.id = uuid ∧ some u'.role = body.role) ∨
      (∃ uuid hashedPassword now : String, req = .seedAdmin uuid hashedPassword now) := by
  intro u' hu'
  have hupd : ∀ (p : User → Bool) (f : User → User),
      u' ∈ updateFound p f db.users → (∀ x, (f x).id = x.id ∧ (f x).role = x.role) →
      ∃ u ∈ db.users, u.id = u'.id ∧ u.role = u'.role := by
    intro p f hmem hf
    rcases mem_updateFound p f db.users u' hmem with h | ⟨y, hy, huy⟩
    · exact ⟨u', h, rfl, rfl⟩
    · refine ⟨y, List.mem_of_find?_eq_some hy, ?_, ?_⟩
      · rw [huy, (hf y).1]
      · rw [huy, (hf y).2]
  rcases step_users_shape db req with hs |
    ⟨n, seen, hs, -, -, -, body, uuid, now, hash, hkind, hid, hrole⟩ | ⟨ride, -, hs⟩ |
    ⟨id, name, phone, vehicleType, licensePlate, hs⟩ | ⟨id, status, hs, -⟩ |
    ⟨uuid, hashedPassword, now, hreq, hs⟩
  · rw [hs] at hu'
    exact Or.inl ⟨u', hu', rfl, rfl⟩
  · rw [hs, List.mem_append, List.mem_singleton] at hu'
    rcases hu' with h | h
    · exact Or.inl ⟨u', h, rfl, rfl⟩
    · right; left
      refine ⟨body, uuid, now, hash, ?_, by rw [h, hid], by rw [h, hrole]⟩
      rcases hkind with ⟨hreq, -⟩ | hreq
      · exact Or.inl hreq
      · exact Or.inr ⟨seen, hreq⟩
  · rw [hs] at hu'
    exact Or.inl (hupd _ _ hu' (fun x => ⟨rfl, rfl⟩))
  · rw [hs] at hu'
    exact Or.inl (hupd _ _ hu' (fun x => ⟨rfl, rfl⟩))
  · rw [hs] at hu'
    exact Or.inl (hupd _ _ hu' (fun x => ⟨rfl, rfl⟩))
  · exact Or.inr (Or.inr ⟨uuid, hashedPassword, now, hreq⟩)

/-- Where the driver of a ride of the ledger after a request comes from: a ride of the
ledger before, or an acceptance that is carried out for a caller with the role driver. -/
theorem step_rides_origin (db : Db) (req : Request) :
    ∀ r' ∈ (step db req).rides, ∀ d : String, r'.driverId = some d →
      (∃ r ∈ db.rides, r.driverId = some d) ∨
      (∃ (token : Option Token) (id now : String) (caller : Caller) (ride : Ride),
        req = .acceptRide token id now ∧ authenticateToken token = .ok caller ∧
        caller.role = "driver" ∧ db.rides.find? (fun r => r.id == id) = some ride ∧
        ride.status = "pending" ∧ d = caller.id) := by
  intro r' hr' d hd
  have hupd : ∀ (p : Ride → Bool) (f : Ride → Ride),
      r' ∈ updateFound p f db.rides → (∀ x, (f x).driverId = x.driverId) →
      ∃ r ∈ db.rides, r.driverId = some d := by
    intro p f hmem hf
    rcases mem_updateFound p f db.rides r' hmem with h | ⟨y, hy, hry⟩
    · exact ⟨r', h, hd⟩
    · refine ⟨y, List.mem_of_find?_eq_some hy, ?_⟩
      rw [← hf y, ← hry]
      exact hd
  rcases step_rides_shape db req with hs | ⟨n, hs, hn, -⟩ |
    ⟨id, ride, c, now, hf, hpending, hs, token, caller, hreq, hauth, hrole, hc⟩ |
    ⟨token, id, status, now, caller, ride, -, -, hf, -, hs⟩ | ⟨id, ride, hf, hs⟩
  · rw [hs] at hr'
    exact Or.inl ⟨r', hr', hd⟩
  · rw [hs, List.mem_append, List.mem_singleton] at hr'
    rcases hr' with h | h
    · exact Or.inl ⟨r', h, hd⟩
    · rw [h, hn] at hd
      exact absurd hd (by simp)
  · rw [hs] at hr'
    rcases mem_updateFound _ _ _ _ hr' with h | ⟨y, hy, hry⟩
    · exact Or.inl ⟨r', h, hd⟩
    · right
      rw [hry] at hd
      have hdc : c = d := by simpa using hd
      exact ⟨token, id, now, caller, ride, hreq, hauth, hrole, hf, hpending,
        by rw [← hdc, hc]⟩
  · rw [hs] at hr'
    exact Or.inl (hupd _ _ hr' (fun x => rfl))
  · rw [hs] at hr'
    exact Or.inl (hupd _ _ hr' (fun x => rfl))

/-- A request of the API that makes no user who is not a driver the driver of a ride
keeps the earnings of every user who is not a driver at 0. -/
theorem step_keeps_driverOnly (db : Db) (req : Request) (hapi : req.isApiRequest = true)
    (hkeeps : keepsDriversDrivers db req)
    (hinv : (∀ u ∈ db.users, driverOnlyRule u) ∧ driversAreDrivers db) :
    (∀ u ∈ (step db req).users, driverOnlyRule u) ∧ driversAreDrivers (step db req) := by
  obtain ⟨hzero, hdrv⟩ := hinv
  constructor
  · apply step_users_inv driverOnlyRule db req _ _ _ _ _ hzero
    · intro u h0 _ _
      exact h0
    · intro u ride hride hu hid _ hrole
      exact absurd (hdrv ride hride u.id hid u hu rfl) hrole
    · intro u name phone vehicleType licensePlate hrule
      exact hrule
    · intro u token status _ hrule
      exact hrule
    · intro uuid hashedPassword now hreq
      rw [hreq] at hapi
      simp [Request.isApiRequest] at hapi
  · intro r' hr' d hd u' hu' hid
    rcases step_users_origin db req u' hu' with ⟨u, hu, huid, hurole⟩ |
      ⟨body, uuid, now, hash, hkind, hnid, hnrole⟩ | ⟨uuid, hashedPassword, now, hreq⟩
    · rw [← hurole]
      rcases step_rides_origin db req r' hr' d hd with ⟨r, hr, hrd⟩ |
        ⟨token, id, now, caller, ride, hreq, hauth, hrole, hf, hpending, hdc⟩
      · exact hdrv r hr d hrd u hu (by rw [huid, hid])
      · rw [hreq] at hkeeps
        exact hkeeps caller ride hauth hrole hf hpending u hu (by rw [huid, hid, hdc])
    · rcases step_rides_origin db req r' hr' d hd with ⟨r, hr, hrd⟩ |
        ⟨token, id, now', caller, ride, hreq, -⟩
      · have hcond : body.role = some "driver" ∨ ∀ r ∈ db.rides, r.driverId ≠ some uuid := by
          rcases hkind with hreq | ⟨seen, hreq⟩
          · rw [hreq] at hkeeps
            exact hkeeps
          · rw [hreq] at hkeeps
            exact hkeeps
        rcases hcond with hb | hb
        · rw [hb] at hnrole
          exact Option.some.inj hnrole
        · exact absurd (by rw [hrd, ← hid, hnid]) (hb r hr)
      · rcases hkind with hreq' | ⟨seen, hreq'⟩
        · rw [hreq] at hreq'
          cases hreq'
        · rw [hreq] at hreq'
          cases hreq'
    · rw [hreq] at hapi
      simp [Request.isApiRequest] at hapi

/-- A list of requests of the API that make no user who is not a driver the driver of a
ride keeps the earnings of every user who is not a driver at 0. -/
theorem run_keeps_driverOnly (reqs : List Request) :
    ∀ db : Db, (∀ req ∈ reqs, req.isApiRequest = true) → respects keepsDriversDrivers db reqs →
      (∀ u ∈ db.users, driverOnlyRule u) ∧ driversAreDrivers db →
      (∀ u ∈ (run db reqs).users, driverOnlyRule u) ∧ driversAreDrivers (run db reqs) := by
  induction reqs with
  | nil => intro db _ _ h; exact h
  | cons req rest ih =>
    intro db hapi hres h
    exact ih (step db req) (fun r hr => hapi r (List.mem_cons_of_mem _ hr)) hres.2
      (step_keeps_driverOnly db req (hapi req (List.mem_cons_self _ _)) hres.1 h)

/-- The fare of an SUV for the draw 0.025 is 12.5. -/
theorem fare_suv_example : fare "suv" exDrawDistance.val = 25 / 2 := by
  have hfloor : ⌊(2501 / 2 : ℚ)⌋ = 1250 := by
    rw [Int.floor_eq_iff]
    norm_num
  show toFixed2 (baseFare + distance (1 / 40) * perKmRate "suv") = 25 / 2
  have hx : baseFare + distance (1 / 40) * perKmRate "suv" = 25 / 2 := by
    unfold baseFare distance perKmRate
    rw [if_neg (by decide), if_pos rfl]
    norm_num
  rw [hx]
  unfold toFixed2
  rw [if_neg (by norm_num), if_neg (by norm_num)]
  have h2 : (25 / 2 : ℚ) * 100 + 1 / 2 = 2501 / 2 := by norm_num
  rw [h2, hfloor]
  norm_num

/-- C23, amended. From the empty store, after any list of requests of the API, every
user's earnings are a number that is not negative, and whatever request comes next, no
user's earnings go down.  The earnings of every user whose role is not driver are 0 as
long as no ride is accepted under a token that names the id of a stored user who is not
a driver, and no user who is not a driver is registered under an id that a ride names as
its driver. -/
theorem earnings_nonnegative_driver_only (reqs : List Request)
    (hapi : ∀ req ∈ reqs, req.isApiRequest = true) :
    (∀ u ∈ (run initialDb reqs).users,
      ((∃ e : ℚ, u.earnings = .num e ∧ 0 ≤ e) ∨ u.earnings = .inf false) ∧
      (JsNum.num 0).le u.earnings = true) ∧
    (∀ (req : Request) (i : Nat) (u : User), (run initialDb reqs).users[i]? = some u →
      ∃ u' : User, (step (run initialDb reqs) req).users[i]? = some u' ∧
        u'.id = u.id ∧ u'.role = u.role ∧ u.earnings.le u'.earnings = true) ∧
    (respects keepsDriversDrivers initialDb reqs →
      ∀ u ∈ (run initialDb reqs).users, u.role ≠ "driver" → u.earnings = .num 0) := by
  obtain ⟨hearn, hfare⟩ := run_keeps_earningsRule reqs initialDb hapi
    (by intro u hu; exact absurd hu (by simp [initialDb]))
    (by intro r hr; exact absurd hr (by simp [initialDb]))
  refine ⟨?_, fun req i u hu => step_earnings_monotone _ req hearn hfare i u hu, ?_⟩
  · intro u hu
    have hrule : u.earnings.isNonneg := hearn u hu
    constructor
    · rcases hrule with ⟨e, he, h0, -⟩ | hinf
      · exact Or.inl ⟨e, he, h0⟩
      · exact Or.inr hinf
    · rcases hrule with ⟨e, he, h0, hd, hlt⟩ | hinf
      · rw [he]
        unfold JsNum.le
        rw [toNumber_num, toNumber_num, ofRat_of_isDouble 0 isDouble_zero (by norm_num),
          ofRat_of_isDouble e hd (by rw [abs_of_nonneg h0]; exact hlt)]
        exact decide_eq_true h0
      · rw [hinf]
        unfold JsNum.le
        rw [toNumber_num, ofRat_of_isDouble 0 isDouble_zero (by norm_num)]
        rfl
  · intro hres
    exact (run_keeps_driverOnly reqs initialDb hapi hres
      ⟨by intro u hu; exact absurd hu (by simp [initialDb]),
        by intro r hr; exact absurd hr (by simp [initialDb])⟩).1

theorem earnings_nonnegative_driver_only_witness :
    (∀ req ∈ exEarningRun, req.isApiRequest = true) ∧
    respects keepsDriversDrivers initialDb exEarningRun ∧
    (run initialDb exEarningRun).users.map (fun u => (u.id, u.role)) = [("u-dan", "driver")] ∧
    (∀ u ∈ (run initialDb exEarningRun).users,
      ((∃ e : ℚ, u.earnings = .num e ∧ 0 ≤ e) ∨ u.earnings = .inf false) ∧
      (JsNum.num 0).le u.earnings = true) ∧
    ∀ u ∈ (run initialDb exEarningRun).users, u.role ≠ "driver" → u.earnings = .num 0 := by
  have hapi : ∀ req ∈ exEarningRun, req.isApiRequest = true := by
    intro req hreq
    simp only [exEarningRun, List.mem_cons, List.mem_singleton, List.mem_nil_iff,
      or_false] at hreq
    rcases hreq with h | h | h | h <;> rw [h] <;> rfl
  have hkeeps : respects keepsDriversDrivers initialDb exEarningRun := by
    refine ⟨Or.inl rfl, trivial, ?_, trivial, trivial⟩
    intro caller ride _ _ _ _ u hu _
    have hm : (step (step initialDb exRegisterDriver)
        (.createRide (some (jwtSign exDriverCaller)) exBooking "r-1" "2024-02-01"
          exDrawDistance exDrawEta)).users.map (fun u => (u.id, u.role)) =
        [("u-dan", "driver")] := by rfl
    have hmem := List.mem_map_of_mem (fun u : User => (u.id, u.role)) hu
    rw [hm] at hmem
    simp only [List.mem_singleton, Prod.mk.injEq] at hmem
    exact hmem.2
  obtain ⟨h1, -, h3⟩ := earnings_nonnegative_driver_only exEarningRun hapi
  exact ⟨hapi, hkeeps, by rfl, h1, h3 hkeeps⟩

/-- C23 fails on the code: a ride accepted and completed under a token that carries the
passenger's id and the role driver credits its fare to the passenger, whose earnings are
12.5 afterwards. -/
theorem passenger_credited_under_forged_token :
    (∀ req ∈ exForgedDriverRun, req.isApiRequest = true) ∧
    (run initialDb exForgedDriverRun).users.map (fun u => (u.id, u.role, u.earnings)) =
      [("u-pat", "passenger", .num (25 / 2))] ∧
    ¬ (∀ u ∈ (run initialDb exForgedDriverRun).users,
      u.role ≠ "driver" → u.earnings = .num 0) := by
  have hapi : ∀ req ∈ exForgedDriverRun, req.isApiRequest = true := by
    intro req hreq
    simp only [exForgedDriverRun, List.mem_cons, List.mem_singleton, List.mem_nil_iff,
      or_false] at hreq
    rcases hreq with h | h | h | h <;> rw [h] <;> rfl
  have hadd : (JsNum.num 0).add (.num (25 / 2)) = .num (25 / 2) :=
    add_num_num 0 (25 / 2) 0 (25 / 2) (25 / 2) toDouble_zero (by norm_num)
      (toDouble_of_isDouble _
        (isDouble_of_eq _ 25 (-1) (by norm_num [zpow_neg]) (by norm_num) (by norm_num)))
      (by norm_num [abs_of_pos])
      (by
        rw [zero_add]
        exact toDouble_of_isDouble _
          (isDouble_of_eq _ 25 (-1) (by norm_num [zpow_neg]) (by norm_num) (by norm_num)))
      (by norm_num [abs_of_pos])
  have hrun : (run initialDb exForgedDriverRun).users.map
      (fun u => (u.id, u.role, u.earnings)) =
      [("u-pat", "passenger", (JsNum.num 0).add (.num (fare "suv" exDrawDistance.val)))] := by
    rfl
  have hm : (run initialDb exForgedDriverRun).users.map (fun u => (u.id, u.role, u.earnings)) =
      [("u-pat", "passenger", .num (25 / 2))] := by
    rw [hrun, fare_suv_example, hadd]
  refine ⟨hapi, hm, ?_⟩
  intro hall
  cases hus : (run initialDb exForgedDriverRun).users with
  | nil =>
    rw [hus] at hm
    exact absurd hm (by simp)
  | cons u rest =>
    rw [hus] at hm hall
    simp only [List.map_cons, List.cons.injEq, Prod.mk.injEq] at hm
    have h0 := hall u (List.mem_cons_self _ _) (by rw [hm.1.2.1]; decide)
    rw [hm.1.2.2] at h0
    have : (25 / 2 : ℚ) = 0 := JsNum.num.inj h0
    norm_num at this

/-! ## Password hashes in responses -/

/-- C24 fails on the code: the ride list attaches the stored passenger and driver
records as they are, so a passenger listing rides receives the own password hash and the
hashes of the drivers.  The other six routes that answer with a user record clear the
password. -/
theorem ride_list_exposes_password_hashes :
    (∃ list : List RideWithDetails,
      getRides exDbAccepted exPassengerCaller = (.ok 200 list, exDbAccepted) ∧
      list.map (fun x => (x.ride.id, x.passenger.bind (fun u => u.password),
          x.driver.bind (fun u => u.password))) =
        [("r-2", some "hash-pat", some "hash-eve"), ("r-1", some "hash-pat", some "hash-dan")]) ∧
    (∀ (db : Db) (caller : Caller) (x : RideWithDetails),
      x ∈ (visibleRides db caller).map (fun ride =>
        ({ ride := ride
           passenger := db.users.find? (fun u => u.id == ride.passengerId)
           driver := if truthy ride.driverId then
             db.users.find? (fun u => some u.id == ride.driverId) else none } :
          RideWithDetails)) →
      (∀ u, x.passenger = some u → u ∈ db.users) ∧ (∀ u, x.driver = some u → u ∈ db.users)) ∧
    (∀ (db : Db) (body : RegisterBody) (uuid now : String) (hash : String → String)
      (code : Nat) (reply : AuthReply),
      (postAuthRegister db body uuid now hash).1 = .ok code reply →
      reply.user.password = none) ∧
    (∀ (db : Db) (body : LoginBody) (compare : Option String → Option String → Option Bool)
      (code : Nat) (reply : AuthReply),
      (postAuthLogin db body compare).1 = .ok code reply → reply.user.password = none) ∧
    (∀ (db : Db) (caller : Caller) (code : Nat) (list : List User),
      (getUsers db caller).1 = .ok code list → ∀ u ∈ list, u.password = none) ∧
    (∀ (db : Db) (caller : Caller) (code : Nat) (user : User),
      (getUsersMe db caller).1 = .ok code user → user.password = none) ∧
    (∀ (db : Db) (caller : Caller) (body : ProfileBody) (code : Nat) (reply : UserReply),
      (putUsersMe db caller body).1 = .ok code reply → reply.user.password = none) ∧
    (∀ (db : Db) (caller : Caller) (status : String) (code : Nat) (reply : DriverReply),
      (putDriversStatus db caller status).1 = .ok code reply →
      reply.driver.password = none) := by
  refine ⟨⟨_, rfl, by rfl⟩, ?_, ?_, ?_, ?_, ?_, ?_, ?_⟩
  · intro db caller x hx
    obtain ⟨ride, -, hx⟩ := List.mem_map.mp hx
    rw [← hx]
    constructor
    · intro u hu
      exact List.mem_of_find?_eq_some hu
    · intro u hu
      simp only at hu
      split at hu
      · exact List.mem_of_find?_eq_some hu
      · exact absurd hu (by simp)
  · intro db body uuid now hash code reply h
    unfold postAuthRegister at h
    repeat' split at h
    all_goals (cases h <;> rfl)
  · intro db body compare code reply h
    unfold postAuthLogin at h
    repeat' split at h
    all_goals (cases h <;> rfl)
  · intro db caller code list h
    unfold getUsers at h
    split at h
    · exact absurd h (by simp)
    · simp only [Response.ok.injEq] at h
      intro u hu
      rw [← h.2] at hu
      obtain ⟨v, -, hv⟩ := List.mem_map.mp hu
      rw [← hv]
  · intro db caller code user h
    unfold getUsersMe at h
    split at h
    · exact absurd h (by simp)
    · simp only [Response.ok.injEq] at h
      rw [← h.2]
  · intro db caller body code reply h
    unfold putUsersMe at h
    split at h
    · exact absurd h (by simp)
    · simp only [Response.ok.injEq] at h
      rw [← h.2]
  · intro db caller status code reply h
    unfold putDriversStatus at h
    repeat' split at h
    all_goals (cases h <;> rfl)

/-! ## Payments: whose payment it is -/

/-- C26. On a successful payment submission the new payment's `passengerId` is the
caller's id, which is the `passengerId` of the ride paid for whenever the caller is not
an admin; and the payment list a caller who is not an admin gets is exactly the payments
whose `passengerId` is the caller's id, in the order of the ledger. -/
theorem payment_carries_caller_id (db : Db) (caller : Caller) (body : PaymentBody)
    (uuid now : String) (nowMs : Nat) (code : Nat) (reply : PaymentReply)
    (hok : (postPayments db caller body uuid now nowMs).1 = .ok code reply) :
    reply.payment.passengerId = caller.id ∧
    (∃ (rideId : String) (ride : Ride), body.rideId = some rideId ∧
      db.rides.find? (fun r => r.id == rideId) = some ride ∧
      reply.payment.rideId = rideId ∧
      (caller.role ≠ "admin" → reply.payment.passengerId = ride.passengerId) ∧
      (postPayments db caller body uuid now nowMs).2.payments =
        db.payments ++ [reply.payment]) ∧
    (∀ (db' : Db) (c : Caller), c.role ≠ "admin" →
      getPayments db' c =
        (.ok 200 (db'.payments.filter (fun p => decide (p.passengerId = c.id))), db')) := by
  obtain ⟨hnone, h404, h403, h201⟩ := postPayments_cases db caller body uuid now nowMs
  have hlist : ∀ (db' : Db) (c : Caller), c.role ≠ "admin" →
      getPayments db' c =
        (.ok 200 (db'.payments.filter (fun p => decide (p.passengerId = c.id))), db') := by
    intro db' c hc
    unfold getPayments
    rw [if_neg hc]
    congr 2
  cases hid : body.rideId with
  | none =>
    rw [hnone hid] at hok
    exact absurd hok (by simp)
  | some rideId =>
    cases hfind : db.rides.find? (fun r => r.id == rideId) with
    | none =>
      rw [h404 rideId hid hfind] at hok
      exact absurd hok (by simp)
    | some ride =>
      by_cases hperm : ride.passengerId = caller.id ∨ caller.role = "admin"
      · have hrun := h201 rideId ride hid hfind hperm
        rw [hrun] at hok
        simp only [Response.ok.injEq] at hok
        have hreply := hok.2
        refine ⟨by rw [← hreply], ⟨rideId, ride, rfl, hfind, by rw [← hreply], ?_, ?_⟩, hlist⟩
        · intro hno
          rcases hperm with hp | hp
          · rw [← hreply]
            exact hp.symm
          · exact absurd hp hno
        · rw [hrun, ← hreply]
      · rw [h403 rideId ride hid hfind (fun hp => hperm (Or.inl hp))
          (fun hp => hperm (Or.inr hp))] at hok
        exact absurd hok (by simp)

theorem payment_carries_caller_id_witness :
    ∃ reply : PaymentReply,
      (postPayments exDb exPassengerCaller exPaymentBody "p-1" "2024-02-05" 1).1 =
        .ok 201 reply ∧
      reply.payment.passengerId = "u-pat" ∧
      getPayments exDbPaid exDriverCaller = (.ok 200 [], exDbPaid) := by
  have hok : (postPayments exDb exPassengerCaller exPaymentBody "p-1" "2024-02-05" 1).1 =
      .ok 201 ⟨"Payment processed successfully",
        { id := "p-1", rideId := "r-1", passengerId := "u-pat", amount := .num (.num (25 / 2)),
          method := some "cash", status := "completed", transactionId := "TXN-" ++ toString 1,
          createdAt := "2024-02-05" }⟩ := by rfl
  obtain ⟨h1, -, h3⟩ := payment_carries_caller_id exDb exPassengerCaller exPaymentBody "p-1"
    "2024-02-05" 1 201 _ hok
  refine ⟨_, hok, h1, ?_⟩
  rw [h3 exDbPaid exDriverCaller (by decide)]
  rfl

/-! ## Completing a ride more than once -/

/-- Adding a fare `k` times to earnings gives the earnings plus `k` fares where the fare and
the earnings after each addition are doubles. -/
theorem iterate_credit_exact (f : ℚ) (hf : isDouble f) (hfr : |f| < 2 ^ 1024) (k : Nat) :
    ∀ e : ℚ, (∀ j : Nat, j ≤ k → isDouble (e + j * f) ∧ |e + j * f| < 2 ^ 1024) →
      ((fun x : JsNum => x.add (.num f))^[k]) (.num e) = .num (e + k * f) := by
  induction k with
  | zero =>
    intro e _
    simp
  | succ k ih =>
    intro e hsum
    rw [Function.iterate_succ_apply]
    have h0 := hsum 0 (Nat.zero_le _)
    have h1 := hsum 1 (by omega)
    simp only [Nat.cast_zero, zero_mul, add_zero] at h0
    simp only [Nat.cast_one, one_mul] at h1
    have hstep : (JsNum.num e).add (.num f) = .num (e + f) :=
      add_num_num e f e f (e + f) (toDouble_of_isDouble e h0.1) h0.2
        (toDouble_of_isDouble f hf) hfr (toDouble_of_isDouble _ h1.1) h1.2
    simp only [hstep]
    rw [ih (e + f)]
    · congr 1
      push_cast
      ring
    · intro j hj
      have := hsum (j + 1) (by omega)
      have heq : e + f + (j : ℚ) * f = e + ((j + 1 : ℕ) : ℚ) * f := by
        push_cast
        ring
      rw [heq]
      exact this

/-- A map that changes only the element with a given key leaves every other position
of a list with unique keys as it was. -/
theorem getElem?_map_at_key {α κ : Type} [DecidableEq κ] (key : α → κ) (k : κ) (g : α → α)
    (xs : List α) (hnodup : (xs.map key).Nodup) (i : Nat) (x : α) (hi : xs[i]? = some x)
    (hk : key x = k) :
    (xs.map (fun v => if key v = k then g v else v))[i]? = some (g x) ∧
    ∀ j : Nat, j ≠ i → (xs.map (fun v => if key v = k then g v else v))[j]? = xs[j]? := by
  constructor
  · rw [List.getElem?_map, hi]
    simp [hk]
  · intro j hj
    rw [List.getElem?_map]
    cases hjv : xs[j]? with
    | none => rfl
    | some v =>
      have hvk : key v ≠ k := by
        intro hvk
        have hj1 : j < xs.length := by
          by_contra hlt
          rw [List.getElem?_eq_none (by omega)] at hjv
          exact absurd hjv (by simp)
        have hi1 : i < xs.length := by
          by_contra hlt
          rw [List.getElem?_eq_none (by omega)] at hi
          exact absurd hi (by simp)
        have hjeq : xs[j] = v := by
          rw [List.getElem?_eq_getElem hj1] at hjv
          exact Option.some.inj hjv
        have hieq : xs[i] = x := by
          rw [List.getElem?_eq_getElem hi1] at hi
          exact Option.some.inj hi
        have hj2 : j < (xs.map key).length := by simpa using hj1
        have hi2 : i < (xs.map key).length := by simpa using hi1
        have hsame : (xs.map key)[j] = (xs.map key)[i] := by
          simp [hjeq, hieq, hvk, hk]
        exact hj ((@List.Nodup.getElem_inj_iff _ _ hnodup j hj2 i hi2).1 hsame)
      simp [hvk]

/-- The users after a list of permitted 'completed' updates of one ride: the driver's
earnings have received the fare once per update; the ride keeps its driver and fare. -/
theorem completeRepeatedly_users (id d : String) (fareValue : ℚ)
    (calls : List (Caller × String)) :
    ∀ (db : Db) (ride : Ride),
      (db.users.map (fun u => u.id)).Nodup →
      db.rides.find? (fun r => r.id == id) = some ride →
      ride.driverId = some d → ride.fare = fareValue →
      (∀ c ∈ calls, c.1.role = "admin" ∨ (c.1.role = "driver" ∧ c.1.id = d)) →
      (completeRepeatedly db id calls).users =
        db.users.map (fun u =>
          if u.id = d then
            { u with earnings :=
                ((fun x : JsNum => x.add (.num fareValue))^[calls.length]) u.earnings }
          else u) ∧
      ∃ ride' : Ride,
        (completeRepeatedly db id calls).rides.find? (fun r => r.id == id) = some ride' ∧
        ride'.driverId = some d ∧ ride'.fare = fareValue := by
  induction calls with
  | nil =>
    intro db ride _ hride hdriver hfare _
    refine ⟨?_, ride, hride, hdriver, hfare⟩
    show db.users = _
    conv_lhs => rw [← List.map_id db.users]
    apply List.map_congr_left
    intro u _
    by_cases hu : u.id = d
    · rw [if_pos hu]
      rfl
    · rw [if_neg hu]
      rfl
  | cons call rest ih =>
    intro db ride hids hride hdriver hfare hperm
    obtain ⟨c, now⟩ := call
    have hmay : mayUpdateStatus c ride := by
      rcases hperm (c, now) (List.mem_cons_self _ _) with h | ⟨h1, h2⟩
      · exact Or.inl h
      · exact Or.inr ⟨h1, by rw [hdriver, h2]⟩
    have hrun := (putRideStatus_cases db c id "completed" now).2.2.1 ride hride hmay rfl
    have hidr : ride.id = id := by
      have := List.find?_some hride
      simpa using this
    have husers1 : (putRideStatus db c id "completed" now).2.users =
        db.users.map (fun u =>
          if u.id = d then { u with earnings := u.earnings.add (.num fareValue) } else u) := by
      rw [hrun, hdriver, hfare]
      exact updateFound_eq_map (fun u : User => u.id) d (fun u => some u.id == some d) _
        (by intro u; simp) db.users hids
    have hids1 : ((putRideStatus db c id "completed" now).2.users.map
        (fun u => u.id)).Nodup := by
      rw [husers1, List.map_map]
      have : ((fun u : User => u.id) ∘ fun u =>
          if u.id = d then { u with earnings := u.earnings.add (.num fareValue) } else u) =
          fun u : User => u.id := by
        funext u
        simp only [Function.comp]
        by_cases hu : u.id = d
        · rw [if_pos hu]
        · rw [if_neg hu]
      rw [this]
      exact hids
    have hride1 : (putRideStatus db c id "completed" now).2.rides.find?
        (fun r => r.id == id) =
        some { ride with status := "completed", endTime := some now } := by
      rw [hrun]
      exact find_updateFound (fun r => r.id == id)
        (fun r => { r with status := "completed", endTime := some now }) db.rides ride hride
        (by simpa using hidr)
    obtain ⟨hfinal, hridefinal⟩ := ih (putRideStatus db c id "completed" now).2 _ hids1 hride1
      hdriver hfare (fun c' hc' => hperm c' (List.mem_cons_of_mem _ hc'))
    refine ⟨?_, hridefinal⟩
    show (completeRepeatedly (putRideStatus db c id "completed" now).2 id rest).users = _
    rw [hfinal, husers1, List.map_map]
    apply List.map_congr_left
    intro u _
    simp only [Function.comp, List.length_cons]
    by_cases hu : u.id = d
    · rw [if_pos hu, if_pos hu, Function.iterate_succ_apply]
      simp only [if_pos hu]
    · rw [if_neg hu, if_neg hu, if_neg hu]

/-- C25, amended. For a ride with an assigned driver in a store with unique user ids,
`k` permitted status updates to 'completed' one after the other (the ride is already
'completed' from the second on) add the fare `k` times to the driver's earnings, each
time with the addition of doubles, and change no other user; the earnings `e` become
`e + k × fare` where the fare and the earnings after each addition are doubles.  A further
permitted update succeeds again. -/
theorem completed_credits_every_time (db : Db) (id d : String) (ride : Ride)
    (calls : List (Caller × String))
    (hids : (db.users.map (fun u => u.id)).Nodup)
    (hride : db.rides.find? (fun r => r.id == id) = some ride)
    (hdriver : ride.driverId = some d)
    (hstored : ∃ u ∈ db.users, u.id = d)
    (hperm : ∀ c ∈ calls, c.1.role = "admin" ∨ (c.1.role = "driver" ∧ c.1.id = d)) :
    (∃ (i : Nat) (u : User), db.users[i]? = some u ∧ u.id = d ∧
      (completeRepeatedly db id calls).users[i]? =
        some { u with earnings :=
          ((fun x : JsNum => x.add (.num ride.fare))^[calls.length]) u.earnings } ∧
      (∀ e : ℚ, u.earnings = .num e → isDouble ride.fare → |ride.fare| < 2 ^ 1024 →
        (∀ j : Nat, j ≤ calls.length →
          isDouble (e + j * ride.fare) ∧ |e + j * ride.fare| < 2 ^ 1024) →
        ∃ u' : User, (completeRepeatedly db id calls).users[i]? = some u' ∧
          u'.earnings = .num (e + calls.length * ride.fare)) ∧
      ∀ j : Nat, j ≠ i → (completeRepeatedly db id calls).users[j]? = db.users[j]?) ∧
    (∀ (c : Caller) (now : String),
      (c.role = "admin" ∨ (c.role = "driver" ∧ c.id = d)) →
      ∃ reply : RideReply,
        (putRideStatus (completeRepeatedly db id calls) c id "completed" now).1 =
          .ok 200 reply) := by
  obtain ⟨husers, ride', hride', hdriver', -⟩ :=
    completeRepeatedly_users id d ride.fare calls db ride hids hride hdriver rfl hperm
  constructor
  · obtain ⟨u, hu, hud⟩ := hstored
    obtain ⟨i, hi, hiu⟩ := List.getElem_of_mem hu
    have hget : db.users[i]? = some u := by rw [List.getElem?_eq_getElem hi, hiu]
    obtain ⟨hat, hother⟩ := getElem?_map_at_key (fun v : User => v.id) d
      (fun v => { v with earnings :=
        ((fun x : JsNum => x.add (.num ride.fare))^[calls.length]) v.earnings })
      db.users hids i u hget hud
    refine ⟨i, u, hget, hud, by rw [husers]; exact hat, ?_, ?_⟩
    · intro e he hf hfr hsum
      refine ⟨_, by rw [husers]; exact hat, ?_⟩
      show ((fun x : JsNum => x.add (.num ride.fare))^[calls.length]) u.earnings = _
      rw [he, iterate_credit_exact ride.fare hf hfr calls.length e hsum]
    · intro j hj
      rw [husers]
      exact hother j hj
  · intro c now hc
    have hmay : mayUpdateStatus c ride' := by
      rcases hc with h | ⟨h1, h2⟩
      · exact Or.inl h
      · exact Or.inr ⟨h1, by rw [hdriver', h2]⟩
    rw [(putRideStatus_cases (completeRepeatedly db id calls) c id "completed" now).2.2.1
      ride' hride' hmay rfl]
    exact ⟨_, rfl⟩

theorem completed_credits_every_time_witness :
    (exDbAccepted.users.map (fun u => u.id)).Nodup ∧
    exDbAccepted.rides.find? (fun r => r.id == "r-1") = some exRideAccepted ∧
    ∃ (i : Nat) (u' : User),
      (completeRepeatedly exDbAccepted "r-1"
        [(exDriverCaller, "2024-02-05"), (exAdminCaller, "2024-02-06"),
          (exDriverCaller, "2024-02-07")]).users[i]? = some u' ∧
      u'.id = "u-dan" ∧ u'.earnings = .num (10 + 3 * (25 / 2)) := by
  obtain ⟨⟨i, u, hget, hud, hat, hnum, -⟩, -⟩ :=
    completed_credits_every_time exDbAccepted "r-1" "u-dan" exRideAccepted
      [(exDriverCaller, "2024-02-05"), (exAdminCaller, "2024-02-06"),
        (exDriverCaller, "2024-02-07")]
      (by decide) (by rfl) rfl ⟨exDriver, by simp [exDbAccepted, exDb], rfl⟩
      (by
        intro c hc
        simp only [List.mem_cons, List.mem_singleton, List.mem_nil_iff, or_false] at hc
        rcases hc with h | h | h <;> rw [h]
        · exact Or.inr ⟨rfl, rfl⟩
        · exact Or.inl rfl
        · exact Or.inr ⟨rfl, rfl⟩)
  have hu : u = exDriver := by
    have hmem : u ∈ exDbAccepted.users := List.getElem?_mem hget
    simp only [exDbAccepted, exDb, List.mem_cons, List.mem_singleton, List.mem_nil_iff,
      or_false] at hmem
    rcases hmem with h | h | h
    · rw [h] at hud
      exact absurd hud (by decide)
    · exact h
    · rw [h] at hud
      exact absurd hud (by decide)
  have hfare : exRideAccepted.fare = 25 / 2 := rfl
  obtain ⟨u', hu', he'⟩ := hnum 10 (by rw [hu]; rfl)
    (by
      rw [hfare]
      exact isDouble_of_eq _ 25 (-1) (by norm_num [zpow_neg]) (by norm_num) (by norm_num))
    (by rw [hfare]; norm_num [abs_of_pos])
    (by
      intro j hj
      rw [hfare]
      simp only [List.length_cons, List.length_nil] at hj
      interval_cases j
      · exact ⟨isDouble_of_eq _ 10 0 (by norm_num) (by norm_num) (by norm_num),
          by norm_num [abs_of_pos]⟩
      · exact ⟨isDouble_of_eq _ 45 (-1) (by norm_num [zpow_neg]) (by norm_num) (by norm_num),
          by norm_num [abs_of_pos]⟩
      · exact ⟨isDouble_of_eq _ 35 0 (by norm_num) (by norm_num) (by norm_num),
          by norm_num [abs_of_pos]⟩
      · exact ⟨isDouble_of_eq _ 95 (-1) (by norm_num [zpow_neg]) (by norm_num) (by norm_num),
          by norm_num [abs_of_pos]⟩)
  refine ⟨by decide, by rfl, i, u', hu', ?_, ?_⟩
  · rw [hat] at hu'
    rw [← Option.some.inj hu']
    exact hud
  · rw [he', hfare]
    norm_num

/-! ## Sums that are rounded -/

/-- The sums of the fare 8.1 added once to six times to earnings of 0. -/
theorem credit_steps :
    (JsNum.num 0).add (.num (81 / 10)) = .num (4559894622712627 / 2 ^ 49) ∧
    (JsNum.num (4559894622712627 / 2 ^ 49)).add (.num (81 / 10)) =
      .num (4559894622712627 / 2 ^ 48) ∧
    (JsNum.num (4559894622712627 / 2 ^ 48)).add (.num (81 / 10)) =
      .num (6839841934068940 / 2 ^ 48) ∧
    (JsNum.num (6839841934068940 / 2 ^ 48)).add (.num (81 / 10)) =
      .num (4559894622712627 / 2 ^ 47) ∧
    (JsNum.num (4559894622712627 / 2 ^ 47)).add (.num (81 / 10)) = .num (81 / 2) ∧
    (JsNum.num (81 / 2)).add (.num (81 / 10)) = .num (6839841934068941 / 2 ^ 47) := by
  have hd243 : isDouble (6839841934068940 / 2 ^ 48) :=
    isDouble_of_eq _ 6839841934068940 (-48) (by norm_num [zpow_neg]) (by norm_num) (by norm_num)
  have hd324 : isDouble (4559894622712627 / 2 ^ 47) :=
    isDouble_of_eq _ 4559894622712627 (-47) (by norm_num [zpow_neg]) (by norm_num) (by norm_num)
  have hd405 : isDouble (81 / 2) :=
    isDouble_of_eq _ 81 (-1) (by norm_num [zpow_neg]) (by norm_num) (by norm_num)
  refine ⟨?_, ?_, ?_, ?_, ?_, ?_⟩
  · exact add_num_num _ _ _ _ _ toDouble_zero (by norm_num) toDouble_81_10
      (by norm_num [abs_of_pos])
      (by rw [zero_add]; exact toDouble_of_isDouble _ isDouble_d81) (by norm_num [abs_of_pos])
  · exact add_num_num _ _ _ _ _ (toDouble_of_isDouble _ isDouble_d81)
      (by norm_num [abs_of_pos]) toDouble_81_10 (by norm_num [abs_of_pos])
      (by
        have h : (4559894622712627 / 2 ^ 49 + 4559894622712627 / 2 ^ 49 : ℚ) =
            4559894622712627 / 2 ^ 48 := by norm_num
        rw [h]
        exact toDouble_of_isDouble _ isDouble_d162)
      (by norm_num [abs_of_pos])
  · exact add_num_num _ _ _ _ _ (toDouble_of_isDouble _ isDouble_d162)
      (by norm_num [abs_of_pos]) toDouble_81_10 (by norm_num [abs_of_pos]) toDouble_sum
      (by norm_num [abs_of_pos])
  · exact add_num_num _ _ _ _ _ (toDouble_of_isDouble _ hd243)
      (by norm_num [abs_of_pos]) toDouble_81_10 (by norm_num [abs_of_pos]) toDouble_sum4
      (by norm_num [abs_of_pos])
  · exact add_num_num _ _ _ _ _ (toDouble_of_isDouble _ hd324)
      (by norm_num [abs_of_pos]) toDouble_81_10 (by norm_num [abs_of_pos]) toDouble_sum5
      (by norm_num [abs_of_pos])
  · exact add_num_num _ _ _ _ _ (toDouble_of_isDouble _ hd405)
      (by norm_num [abs_of_pos]) toDouble_81_10 (by norm_num [abs_of_pos]) toDouble_sum6
      (by norm_num [abs_of_pos])

/-- C1 fails on the code: with earnings of 16.2 and a fare of 8.1 the update to 'completed'
stores 24.299999999999997.  This is not the sum of the earnings and the fare, not the
double nearest to that sum, and the increase is not the fare, neither as the decimal 8.1
nor as the double that stands for it. -/
theorem completed_credit_is_rounded :
    (exDbRounding.users.map (fun u => u.id)).Nodup ∧
    exDbRounding.rides.find? (fun r => r.id == "r-1") = some exRideCheap ∧
    exRideCheap.driverId = some "u-dan" ∧ exRideCheap.fare = 81 / 10 ∧
    exDriverPaid.earnings = .num (81 / 5) ∧
    (putRideStatus exDbRounding exDriverCaller "r-1" "completed" "2024-02-05").2.users =
      [exPassenger, { exDriverPaid with earnings := .num (6839841934068940 / 2 ^ 48) },
        exDriver2] ∧
    (6839841934068940 / 2 ^ 48 : ℚ) ≠ 81 / 5 + 81 / 10 ∧
    (6839841934068940 / 2 ^ 48 : ℚ) ≠ toDouble (81 / 5 + 81 / 10) ∧
    (6839841934068940 / 2 ^ 48 : ℚ) - 81 / 5 ≠ 81 / 10 ∧
    (6839841934068940 / 2 ^ 48 : ℚ) - toDouble (81 / 5) ≠ toDouble (81 / 10) := by
  have hadd : (JsNum.num (81 / 5)).add (.num (81 / 10)) = .num (6839841934068940 / 2 ^ 48) :=
    add_num_num _ _ _ _ _ toDouble_81_5 (by norm_num [abs_of_pos]) toDouble_81_10
      (by norm_num [abs_of_pos]) toDouble_sum (by norm_num [abs_of_pos])
  have hrun := (putRideStatus_cases exDbRounding exDriverCaller "r-1" "completed"
    "2024-02-05").2.2.1 exRideCheap (by rfl) (Or.inr ⟨rfl, rfl⟩) rfl
  have h243 : (81 / 5 + 81 / 10 : ℚ) = 243 / 10 := by norm_num
  refine ⟨by decide, by rfl, rfl, rfl, rfl, ?_, by norm_num, ?_, by norm_num, ?_⟩
  · rw [hrun]
    show updateFound (fun u => some u.id == exRideCheap.driverId)
      (fun u => { u with earnings := u.earnings.add (.num exRideCheap.fare) })
      [exPassenger, exDriverPaid, exDriver2] = _
    have hp : (some exPassenger.id == exRideCheap.driverId) = false := by decide
    have hd : (some exDriverPaid.id == exRideCheap.driverId) = true := by decide
    simp only [updateFound, hp, hd, Bool.false_eq_true, if_false, if_true]
    have he : exDriverPaid.earnings.add (.num exRideCheap.fare) =
        .num (6839841934068940 / 2 ^ 48) := hadd
    rw [he]
  · rw [h243, toDouble_243_10]
    norm_num
  · rw [toDouble_81_5, toDouble_81_10]
    norm_num

/-- C25 fails on the code: three updates to 'completed' of a ride with a fare of 8.1 take
earnings of 0 to 24.299999999999997, which is neither 3 × 8.1 nor the double nearest to
it; six of them take the earnings to 48.6, where the product of 6 and 8.1 in the
arithmetic of doubles is 48.599999999999994. -/
theorem repeated_credit_is_rounded :
    exDbCheap.rides.find? (fun r => r.id == "r-1") = some exRideCheap ∧
    exRideCheap.fare = 81 / 10 ∧ exDriverNew.earnings = .num 0 ∧
    (completeRepeatedly exDbCheap "r-1"
      [(exDriverCaller, "2024-02-05"), (exAdminCaller, "2024-02-06"),
        (exDriverCaller, "2024-02-07")]).users =
      [exPassenger, { exDriverNew with earnings := .num (6839841934068940 / 2 ^ 48) },
        exDriver2] ∧
    (6839841934068940 / 2 ^ 48 : ℚ) ≠ 0 + 3 * (81 / 10) ∧
    (6839841934068940 / 2 ^ 48 : ℚ) ≠ toDouble (0 + 3 * (81 / 10)) ∧
    (completeRepeatedly exDbCheap "r-1"
      [(exDriverCaller, "2024-02-05"), (exAdminCaller, "2024-02-06"),
        (exDriverCaller, "2024-02-07"), (exDriverCaller, "2024-02-08"),
        (exDriverCaller, "2024-02-09"), (exDriverCaller, "2024-02-10")]).users =
      [exPassenger, { exDriverNew with earnings := .num (6839841934068941 / 2 ^ 47) },
        exDriver2] ∧
    (6839841934068941 / 2 ^ 47 : ℚ) ≠ 0 + 6 * (81 / 10) ∧
    (6839841934068941 / 2 ^ 47 : ℚ) ≠ toDouble (toDouble 6 * toDouble (81 / 10)) := by
  obtain ⟨h1, h2, h3, h4, h5, h6⟩ := credit_steps
  have hride : exDbCheap.rides.find? (fun r => r.id == "r-1") = some exRideCheap := by rfl
  have husers : ∀ calls : List (Caller × String),
      (∀ c ∈ calls, c.1.role = "admin" ∨ (c.1.role = "driver" ∧ c.1.id = "u-dan")) →
      (completeRepeatedly exDbCheap "r-1" calls).users =
        [exPassenger,
          { exDriverNew with earnings :=
              ((fun x : JsNum => x.add (.num (81 / 10)))^[calls.length]) (.num 0) },
          exDriver2] := by
    intro calls hperm
    rw [(completeRepeatedly_users "r-1" "u-dan" (81 / 10) calls exDbCheap exRideCheap
      (by decide) hride rfl rfl hperm).1]
    show List.map _ [exPassenger, exDriverNew, exDriver2] = _
    have hp : ¬ exPassenger.id = "u-dan" := by decide
    have hd : exDriverNew.id = "u-dan" := by decide
    have he : ¬ exDriver2.id = "u-dan" := by decide
    simp only [List.map_cons, List.map_nil, if_neg hp, if_pos hd, if_neg he]
    rfl
  have h243 : (0 + 3 * (81 / 10) : ℚ) = 243 / 10 := by norm_num
  have hsix : toDouble 6 = 6 :=
    toDouble_of_isDouble _ (isDouble_of_eq _ 6 0 (by norm_num) (by norm_num) (by norm_num))
  have hthree : ((fun x : JsNum => x.add (.num (81 / 10)))^[3]) (.num 0) =
      .num (6839841934068940 / 2 ^ 48) := by
    simp only [Function.iterate_succ_apply, Function.iterate_zero_apply, h1, h2, h3]
  have hsixfold : ((fun x : JsNum => x.add (.num (81 / 10)))^[6]) (.num 0) =
      .num (6839841934068941 / 2 ^ 47) := by
    simp only [Function.iterate_succ_apply, Function.iterate_zero_apply, h1, h2, h3, h4, h5,
      h6]
  refine ⟨hride, rfl, rfl, ?_, by norm_num, ?_, ?_, by norm_num, ?_⟩
  · rw [husers _ (by
      intro c hc
      simp only [List.mem_cons, List.mem_singleton, List.mem_nil_iff, or_false] at hc
      rcases hc with h | h | h <;> rw [h]
      · exact Or.inr ⟨rfl, rfl⟩
      · exact Or.inl rfl
      · exact Or.inr ⟨rfl, rfl⟩)]
    show [exPassenger,
      { exDriverNew with earnings :=
          ((fun x : JsNum => x.add (.num (81 / 10)))^[3]) (.num 0) }, exDriver2] = _
    rw [hthree]
  · rw [h243, toDouble_243_10]
    norm_num
  · rw [husers _ (by
      intro c hc
      simp only [List.mem_cons, List.mem_singleton, List.mem_nil_iff, or_false] at hc
      rcases hc with h | h | h | h | h | h <;> rw [h]
      · exact Or.inr ⟨rfl, rfl⟩
      · exact Or.inl rfl
      · exact Or.inr ⟨rfl, rfl⟩
      · exact Or.inr ⟨rfl, rfl⟩
      · exact Or.inr ⟨rfl, rfl⟩
      · exact Or.inr ⟨rfl, rfl⟩)]
    show [exPassenger,
      { exDriverNew with earnings :=
          ((fun x : JsNum => x.add (.num (81 / 10)))^[6]) (.num 0) }, exDriver2] = _
    rw [hsixfold]
  · rw [hsix, toDouble_81_10, toDouble_6_times]
    norm_num

/-- C16 fails on the code: with payments of 0.1 and 0.2 the revenue is
0.30000000000000004, not the sum 0.3 and not the double nearest to it; with the string
"12.50" and the number 11 as amounts the revenue is the string "012.5011". -/
theorem revenue_is_not_the_sum :
    (∀ fraction : ℚ → String, ∃ stats : Stats,
      getAdminStats exDbDimes exAdminCaller "2024-03-01" (fun t => t) fraction =
        (.ok 200 stats, exDbDimes) ∧
      stats.totalRevenue = .num (.num (5404319552844596 / 2 ^ 54))) ∧
    (5404319552844596 / 2 ^ 54 : ℚ) ≠ 1 / 10 + 1 / 5 ∧
    (5404319552844596 / 2 ^ 54 : ℚ) ≠ toDouble (1 / 10 + 1 / 5) ∧
    (∀ fraction : ℚ → String, ∃ stats : Stats,
      getAdminStats exDbTextAmount exAdminCaller "2024-03-01" (fun t => t) fraction =
        (.ok 200 stats, exDbTextAmount) ∧
      stats.totalRevenue = .str "012.5011") := by
  have hd01 : isDouble (7205759403792794 / 2 ^ 56) :=
    isDouble_of_eq _ 7205759403792794 (-56) (by norm_num [zpow_neg]) (by norm_num) (by norm_num)
  have h1 : (JsNum.num 0).add (.num (1 / 10)) = .num (7205759403792794 / 2 ^ 56) :=
    add_num_num _ _ _ _ _ toDouble_zero (by norm_num) toDouble_1_10 (by norm_num [abs_of_pos])
      (by rw [zero_add]; exact toDouble_of_isDouble _ hd01) (by norm_num [abs_of_pos])
  have h2 : (JsNum.num (7205759403792794 / 2 ^ 56)).add (.num (1 / 5)) =
      .num (5404319552844596 / 2 ^ 54) :=
    add_num_num _ _ _ _ _ (toDouble_of_isDouble _ hd01) (by norm_num [abs_of_pos])
      toDouble_1_5 (by norm_num [abs_of_pos]) toDouble_sum_dimes (by norm_num [abs_of_pos])
  have hstats : ∀ (db : Db) (fraction : ℚ → String) (revenue : JsValue),
      totalRevenue fraction db.payments = some revenue →
      ∃ stats : Stats,
        getAdminStats db exAdminCaller "2024-03-01" (fun t => t) fraction = (.ok 200 stats, db) ∧
        stats.totalRevenue = revenue := by
    intro db fraction revenue hrev
    unfold getAdminStats
    rw [if_neg (by decide), hrev]
    exact ⟨_, rfl, rfl⟩
  have h3 : (1 / 10 + 1 / 5 : ℚ) = 3 / 10 := by norm_num
  have hthree : toDouble (3 / 10) = 5404319552844595 / 2 ^ 54 := by
    rw [toDouble_of_bounds _ (-2) 5404319552844595 (by norm_num [abs_of_pos, zpow_neg])
      (by norm_num [abs_of_pos, zpow_neg])
      (roundHalfEven_of_lt _ _ (by norm_num [zpow_neg]) (by norm_num [zpow_neg]))]
    norm_num [zpow_neg]
  refine ⟨?_, by norm_num, ?_, ?_⟩
  · intro fraction
    apply hstats
    unfold totalRevenue
    rw [totalRevenue_nums fraction exDbDimes.payments (.num 0) [.num (1 / 10), .num (1 / 5)] rfl]
    simp only [List.foldl_cons, List.foldl_nil, h1, h2]
  · rw [h3, hthree]
    norm_num
  · intro fraction
    apply hstats
    have h0 : (JsNum.num ((0 : ℤ) : ℚ)).toStr fraction = toString (0 : ℤ) :=
      toStr_int fraction 0 (by norm_num)
    have h11 : (JsNum.num ((11 : ℤ) : ℚ)).toStr fraction = toString (11 : ℤ) :=
      toStr_int fraction 11 (by norm_num)
    simp only [Int.cast_zero] at h0
    have h11' : (JsNum.num 11).toStr fraction = toString (11 : ℤ) := by
      have : ((11 : ℤ) : ℚ) = 11 := by norm_num
      rw [← this]
      exact h11
    show List.foldlM (fun sum p => jsAdd fraction sum p.amount) (JsValue.num (.num 0))
      exDbTextAmount.payments = _
    have hs1 : jsAdd fraction (.num (.num 0)) (.str "12.50") =
        some (.str ((JsNum.num 0).toStr fraction ++ "12.50")) := rfl
    have hs2 : ∀ t : String, jsAdd fraction (.str t) (.num (.num 11)) =
        some (.str (t ++ (JsNum.num 11).toStr fraction)) := fun t => rfl
    show (do
      let s ← jsAdd fraction (.num (.num 0)) (.str "12.50")
      let s ← jsAdd fraction s (.num (.num 11))
      pure s) = _
    rw [hs1]
    show (do
      let s ← jsAdd fraction (.str ((JsNum.num 0).toStr fraction ++ "12.50")) (.num (.num 11))
      pure s) = _
    rw [hs2, h0, h11']
    rfl

end DiwaiFox
